import Mathlib

/-!
# Modbus RTU slave core (`src/modbus/mb_main.c`)

A shallow embedding of the initialisation, the request dispatcher, the register
read / write handlers, the CRC16 engine and the framing state machine of the
F28335 Modbus slave, together with the properties proved about them.

Conventions of the embedding

* `Uint16` and `Uint32` values are natural numbers; every assignment to a
  `Uint16` (resp. `Uint32`) object is followed by `u16` (resp. `u32`), i.e.
  reduction modulo `2^16` (resp. `2^32`).  On the C28x target `int` and
  `unsigned int` are 16 bits wide, so `Uint16` arithmetic wraps at `2^16`
  without promotion.
* `rx_frame` and `tx_frame` are lists of `MB_FRAME_CHAR_TOTALS` entries; an
  access outside the list is the fault `Fault.outOfBounds`.
* The register store reached through `Uint32 *` casts is a map from address to
  32-bit cell, separate from the frame buffers.
* The two `while` loops carry a fuel argument; running out of fuel is the
  fault `Fault.fuel`.  The control of the read loop alone, with its wrapping
  counter, is `readLoopExit`.
* `modbus_init` has no result when its 32-bit divisor is 0.
* The constants of `mb_main.h` are the fields of `Config`; the properties hold
  for every well-formed choice of them (`Config.WF`).
-/

namespace Modbus

/-! ## Machine integers and faults -/

/-- Truncation to an unsigned 16-bit object (`Uint16`). -/
def u16 (x : Nat) : Nat := x % 65536

/-- Truncation to an unsigned 32-bit object (`Uint32`). -/
def u32 (x : Nat) : Nat := x % 4294967296

/-- Conversion of a `Uint16` value to the 16-bit `int` of the target. -/
def toInt16 (x : Nat) : Int :=
  if u16 x < 32768 then (u16 x : Int) else (u16 x : Int) - 65536

/-- The ways an execution can fail to produce a result. -/
inductive Fault where
  | outOfBounds
  | fuel
  deriving DecidableEq, Repr

deriving instance DecidableEq for Except

/-- Executions either fault or return a value. -/
abbrev Exec (α : Type) := Except Fault α

/-- Read `buf[i]`. -/
def rd (buf : List Nat) (i : Nat) : Exec Nat :=
  match buf[i]? with
  | some v => .ok v
  | none => .error Fault.outOfBounds

/-- Assignment `buf[i] = v` to an array of `Uint16`. -/
def wr (buf : List Nat) (i v : Nat) : Exec (List Nat) :=
  if i < buf.length then .ok (buf.set i (u16 v)) else .error Fault.outOfBounds

/-! ## Configuration and state -/

/-- The constants of `mb_main.h` used by `mb_main.c`. -/
structure Config where
  MB_FRAME_CHAR_TOTALS : Nat
  MB_SLAVE_ID : Nat
  MB_FUNC_READ_COIL : Nat
  MB_FUNC_READ_INPUT : Nat
  MB_FUNC_READ_HOLDINGREGISTERS : Nat
  MB_FUNC_READ_INPUTREGISTERS : Nat
  MB_FUNC_FORCE_COIL : Nat
  MB_FUNC_WRITE_REGISTER : Nat
  MB_FUNC_FORCE_NCOILS : Nat
  MB_FUNC_WRITE_NREGISTERS : Nat
  MB_ERROR_ILLEGALFUNC : Nat
  MB_STATE_T35 : Nat
  MB_STATE_WAITING : Nat
  MB_STATE_READING : Nat
  MB_STATE_T35_SEND : Nat

/-- The constants are 16-bit values, the function codes are pairwise distinct,
the four protocol states are pairwise distinct, and the frame capacity is a
positive `int`. -/
def Config.WF (cfg : Config) : Prop :=
  0 < cfg.MB_FRAME_CHAR_TOTALS ∧ cfg.MB_FRAME_CHAR_TOTALS < 32768 ∧
  cfg.MB_SLAVE_ID < 65536 ∧ cfg.MB_ERROR_ILLEGALFUNC < 65536 ∧
  [cfg.MB_FUNC_READ_COIL, cfg.MB_FUNC_READ_INPUT, cfg.MB_FUNC_READ_HOLDINGREGISTERS,
    cfg.MB_FUNC_READ_INPUTREGISTERS, cfg.MB_FUNC_FORCE_COIL, cfg.MB_FUNC_WRITE_REGISTER,
    cfg.MB_FUNC_FORCE_NCOILS, cfg.MB_FUNC_WRITE_NREGISTERS].Pairwise (· ≠ ·) ∧
  [cfg.MB_STATE_T35, cfg.MB_STATE_WAITING, cfg.MB_STATE_READING,
    cfg.MB_STATE_T35_SEND].Pairwise (· ≠ ·)

instance (cfg : Config) : Decidable cfg.WF := by
  unfold Config.WF; infer_instance

/-- The standard Modbus function codes, slave 1, a 256-entry frame buffer. -/
def stdConfig : Config where
  MB_FRAME_CHAR_TOTALS := 256
  MB_SLAVE_ID := 1
  MB_FUNC_READ_COIL := 1
  MB_FUNC_READ_INPUT := 2
  MB_FUNC_READ_HOLDINGREGISTERS := 3
  MB_FUNC_READ_INPUTREGISTERS := 4
  MB_FUNC_FORCE_COIL := 5
  MB_FUNC_WRITE_REGISTER := 6
  MB_FUNC_FORCE_NCOILS := 15
  MB_FUNC_WRITE_NREGISTERS := 16
  MB_ERROR_ILLEGALFUNC := 1
  MB_STATE_T35 := 1
  MB_STATE_WAITING := 2
  MB_STATE_READING := 3
  MB_STATE_T35_SEND := 4

/-- The globals of `mb_main.c`, the register store reached through `Uint32 *`,
and what the serial collaborator has been told. -/
structure State where
  rx_frame : List Nat
  rx_frame_pointer : Nat := 0
  tx_frame : List Nat
  tx_frame_pointer : Nat := 0
  modbus_usTimerT35 : Nat := 0
  modbus_state : Nat
  /-- Register store: address to 32-bit cell. -/
  mem : Nat → Nat := fun _ => 0
  /-- Receive path enabled (first argument of the last `serial_interrupt_switch`). -/
  rx_enabled : Nat := 0
  /-- Transmit path enabled (second argument of the last `serial_interrupt_switch`). -/
  tx_enabled : Nat := 0
  /-- Number of transmissions triggered by `serial_send_data`. -/
  transmissions : Nat := 0
  /-- Argument of the last `serial_tx_frame_calc`. -/
  tx_fifo_registers : Nat := 0
  /-- Arguments of the last `serial_init`: baud rate, data bits, parity. -/
  serial_settings : Nat × Nat × Nat := (0, 0, 0)
  /-- Argument of the last `timer_init`. -/
  timer_interval : Nat := 0

/-- Both frame buffers have their declared size and hold `Uint16` values. -/
def State.WF (cfg : Config) (s : State) : Prop :=
  s.rx_frame.length = cfg.MB_FRAME_CHAR_TOTALS ∧
  s.tx_frame.length = cfg.MB_FRAME_CHAR_TOTALS ∧
  (∀ x ∈ s.rx_frame, x < 65536) ∧ (∀ x ∈ s.tx_frame, x < 65536)

instance (cfg : Config) (s : State) : Decidable (s.WF cfg) := by
  unfold State.WF; infer_instance

/-- The assignment `*(addr) = v` to a cell of the store. -/
def store (mem : Nat → Nat) (addr v : Nat) : Nat → Nat :=
  fun a => if a = addr then u32 v else mem a

/-! ## Serial collaborator -/

/-- Modelled from the spec: `serial_interrupt_switch(rx, tx)` of `mb_serial.c`
is the pair `enableReceive(bool)`, `enableTransmit(bool)` of section 6; it
records which directions of the wire are active. -/
def serial_interrupt_switch (rx tx : Nat) (s : State) : State :=
  { s with rx_enabled := rx, tx_enabled := tx }

/-- Modelled from the spec: `serial_send_data()` of `mb_serial.c` is
`transmit(outboundFrame)` of section 6; it hands the outbound frame to the
wire, counted here as one transmission. -/
def serial_send_data (s : State) : State :=
  { s with transmissions := s.transmissions + 1 }

/-- Modelled from the spec: `serial_tx_frame_calc(n)` of `mb_serial.c` belongs
to the serial collaborator of section 6; it tells the transmit FIFO how many
registers the answer carries and touches nothing of this core. -/
def serial_tx_frame_calc (n : Nat) (s : State) : State :=
  { s with tx_fifo_registers := n }

/-- Modelled from the spec: `serial_init(baud, bits, parity)` of `mb_serial.c`
belongs to the serial collaborator of section 6, which manages baud rate and
parity outside this core; it records the line settings. -/
def serial_init (ulBaudRate ucDataBits eParity : Nat) (s : State) : State :=
  { s with serial_settings := (ulBaudRate, ucDataBits, eParity) }

/-- Modelled from the spec: `timer_init(t)` of `mb_timer.c` belongs to the timer
collaborator of section 6, which exposes the configured silence interval; it
records the interval it is given. -/
def timer_init (t : Nat) (s : State) : State :=
  { s with timer_interval := t }

/-! ## CRC engine -/

/-- The bit loop `for (i = 8; i != 0; i--)` of `generate_crc`; the first
argument is the loop variable `i`. -/
def crcBits : Nat → Nat → Nat
  | 0, crc => crc
  | i + 1, crc =>
    if crc &&& 0x0001 ≠ 0 then
      crcBits i (u16 (u16 (crc >>> 1) ^^^ 0xA001))
    else
      crcBits i (u16 (crc >>> 1))

/-- The byte loop `for (pos = 0; pos < len; pos++)` of `generate_crc`; the first
argument is the number `len - pos` of iterations still to run. -/
def crcLoop (buf : List Nat) : Nat → Nat → Nat → Exec Nat
  | 0, _, crc => .ok crc
  | n + 1, pos, crc =>
    match rd buf pos with
    | .ok b => crcLoop buf n (pos + 1) (crcBits 8 (u16 (crc ^^^ u16 b)))
    | .error e => .error e

/-- The function `Uint16 generate_crc(Uint16 buf[], int len)`. -/
def generate_crc (buf : List Nat) (len : Int) : Exec Nat :=
  crcLoop buf len.toNat 0 0xFFFF

/-! ### Reference CRC16, written from the specification -/

/-- One of the 8 iterations: if the low bit is set, shift right one bit and XOR
with 0xA001, else just shift right. -/
def refCrcStep (crc : Nat) : Nat :=
  if crc % 2 = 1 then (crc / 2) ^^^ 0xA001 else crc / 2

/-- XOR the byte into the running value, then run the 8 iterations. -/
def refCrcByte (crc b : Nat) : Nat :=
  refCrcStep^[8] (crc ^^^ b)

/-- Reference Modbus CRC16 of a byte sequence: initial value 0xFFFF, then one
`refCrcByte` per byte. -/
def refCrc16 (bytes : List Nat) : Nat :=
  bytes.foldl refCrcByte 0xFFFF

/-! ## Frame buffers and helpers -/

/-- The function `reset_data_pointers`. -/
def reset_data_pointers (s : State) : State :=
  { s with rx_frame_pointer := 0, tx_frame_pointer := 0 }

/-- The loop `for (i = 0; i < MB_FRAME_CHAR_TOTALS; i++) buf[i] = 0`; the first
argument is the number `MB_FRAME_CHAR_TOTALS - i` of iterations still to run. -/
def clearLoop : Nat → Nat → List Nat → Exec (List Nat)
  | 0, _, buf => .ok buf
  | n + 1, i, buf =>
    match wr buf i 0 with
    | .ok buf1 => clearLoop n (i + 1) buf1
    | .error e => .error e

/-- The function `clear_rx_frame`. -/
def clear_rx_frame (cfg : Config) (s : State) : Exec State := do
  let rx ← clearLoop cfg.MB_FRAME_CHAR_TOTALS 0 s.rx_frame
  pure { s with rx_frame := rx }

/-- The function `clear_tx_frame`. -/
def clear_tx_frame (cfg : Config) (s : State) : Exec State := do
  let tx ← clearLoop cfg.MB_FRAME_CHAR_TOTALS 0 s.tx_frame
  pure { s with tx_frame := tx }

/-- The function `swap_values(&buf[a], &buf[b])`. -/
def swap_values (buf : List Nat) (a b : Nat) : Exec (List Nat) := do
  let temp ← rd buf a
  let v2 ← rd buf b
  let buf1 ← wr buf a v2
  wr buf1 b temp

/-- The function `memory_map`. -/
def memory_map (cfg : Config) (type : Nat) : Nat :=
  if type = cfg.MB_FUNC_READ_COIL ∨ type = cfg.MB_FUNC_FORCE_COIL ∨
      type = cfg.MB_FUNC_FORCE_NCOILS then
    0x00000
  else if type = cfg.MB_FUNC_READ_INPUT then
    0x00000
  else if type = cfg.MB_FUNC_READ_HOLDINGREGISTERS ∨ type = cfg.MB_FUNC_WRITE_REGISTER ∨
      type = cfg.MB_FUNC_WRITE_NREGISTERS then
    0x08000
  else if type = cfg.MB_FUNC_READ_INPUTREGISTERS then
    0x08000
  else
    0x0000

/-! ## Function handlers -/

/-- Number of iterations granted to each `while` loop. -/
def loopFuel : Nat := 65536

/-- The function `modbus_error`. -/
def modbus_error (type : Nat) (s : State) : Exec (State × Nat) := do
  let tx ← wr s.tx_frame 2 type
  let crc ← generate_crc tx 3
  let crc := u32 crc
  let tx ← wr tx 4 ((crc &&& 0xFF00) >>> 8)
  let tx ← wr tx 3 (crc &&& 0x00FF)
  pure ({ s with tx_frame := tx }, 5)

/-- The loop `for (j = 0; j < 4; j++)` of `modbus_read_func`, which stores the
four bytes of `addr_val`; the first argument is the number `4 - j` of iterations
still to run. -/
def readBytes (addr_val register_pos : Nat) : Nat → Nat → List Nat → Exec (List Nat)
  | 0, _, tx => .ok tx
  | n + 1, j, tx =>
    match wr tx (u16 (3 + 4 * register_pos + j)) ((addr_val >>> (u16 (j * 8))) &&& 0x00FF) with
    | .ok tx1 => readBytes addr_val register_pos n (u16 (j + 1)) tx1
    | .error e => .error e

/-- The loop `while (i < tx_frame[2])` of `modbus_read_func`. -/
def readLoop (mem : Nat → Nat) (data_address : Nat) :
    Nat → Nat → Nat → List Nat → Exec (List Nat)
  | 0, _, _, _ => .error Fault.fuel
  | fuel + 1, i, register_pos, tx => do
    let bound ← rd tx 2
    if i < bound then
      let addr := u16 (data_address + i / 2)
      let addr_val := mem addr
      let tx ← readBytes addr_val register_pos 4 0 tx
      let tx ← swap_values tx (u16 (3 + 4 * register_pos)) (u16 (3 + 4 * register_pos + 1))
      let tx ← swap_values tx (u16 (3 + 4 * register_pos + 2)) (u16 (3 + 4 * register_pos + 3))
      readLoop mem data_address fuel (u16 (i + 4)) (u16 (register_pos + 1)) tx
    else
      pure tx

/-- The function `modbus_read_func`. -/
def modbus_read_func (cfg : Config) (s : State) : Exec (State × Nat) := do
  let fc ← rd s.rx_frame 1
  let mem_map := u32 (memory_map cfg fc)
  let hi ← rd s.rx_frame 2
  let data_address := u16 (hi <<< 8)
  let lo ← rd s.rx_frame 3
  let data_address := u16 (data_address ||| lo)
  let data_address := u16 (data_address ||| mem_map)
  let nhi ← rd s.rx_frame 4
  let number_of_data := u16 (nhi <<< 8)
  let nlo ← rd s.rx_frame 5
  let number_of_data := u16 (number_of_data ||| nlo)
  let s := serial_tx_frame_calc number_of_data s
  let tx ← wr s.tx_frame 2 (u16 (number_of_data * 2))
  let tx ← readLoop s.mem data_address loopFuel 0 0 tx
  let bytes ← rd tx 2
  let frame_lenght := u16 (3 + bytes)
  let crc ← generate_crc tx (toInt16 frame_lenght)
  let tx ← wr tx (u16 (frame_lenght + 1)) ((crc &&& 0xFF00) >>> 8)
  let tx ← wr tx frame_lenght (crc &&& 0x00FF)
  let frame_lenght := u16 (frame_lenght + 2)
  pure ({ s with tx_frame := tx }, frame_lenght)

/-- The loop `while (i < number_of_data)` of `modbus_write_func`. -/
def writeLoop (rx : List Nat) (data_address number_of_data : Nat) :
    Nat → Nat → (Nat → Nat) → Exec (Nat → Nat)
  | 0, _, _ => .error Fault.fuel
  | fuel + 1, i, mem =>
    if i < number_of_data then do
      let address := u32 (u16 (data_address + i))
      let l0 ← rd rx (u16 (7 + i * 2))
      let Ldata := u32 l0
      let l1 ← rd rx (u16 (7 + i * 2 + 1))
      let Ldata := u32 (u32 (Ldata <<< (8 * 1)) ||| l1)
      let h0 ← rd rx (u16 (7 + i * 2 + 2))
      let Hdata := u32 h0
      let h1 ← rd rx (u16 (7 + i * 2 + 3))
      let Hdata := u32 (u32 (Hdata <<< 8) ||| h1)
      let cnt ← rd rx 5
      if cnt = u16 (i + 1) then
        writeLoop rx data_address number_of_data fuel (u16 (i + 2))
          (store mem address ((mem address &&& 0xFFFF0000) ||| Ldata))
      else
        writeLoop rx data_address number_of_data fuel (u16 (i + 2))
          (store mem address (u32 (Hdata <<< 16) ||| Ldata))
    else
      pure mem

/-- The function `modbus_write_func`. -/
def modbus_write_func (cfg : Config) (s : State) : Exec (State × Nat) := do
  let fc ← rd s.rx_frame 1
  let mem_map := u32 (memory_map cfg fc)
  let hi ← rd s.rx_frame 2
  let data_address := u16 (hi <<< 8)
  let lo ← rd s.rx_frame 3
  let data_address := u16 (data_address ||| lo)
  let data_address := u16 (data_address ||| mem_map)
  let addr := data_address
  let tx ← wr s.tx_frame 2 hi
  let tx ← wr tx 3 lo
  let (tx, mem) ←
    if fc = cfg.MB_FUNC_WRITE_REGISTER then do
      let vhi ← rd s.rx_frame 4
      let data := u16 (vhi <<< 8)
      let vlo ← rd s.rx_frame 5
      let data := u16 (data ||| vlo)
      let mem := store s.mem addr data
      let tx ← wr tx 4 ((mem addr &&& 0xFF00) >>> 8)
      let tx ← wr tx 5 (mem addr &&& 0x00FF)
      pure (tx, mem)
    else if fc = cfg.MB_FUNC_WRITE_NREGISTERS then do
      let nhi ← rd s.rx_frame 4
      let number_of_data := u16 (nhi <<< 8)
      let nlo ← rd s.rx_frame 5
      let number_of_data := u16 (number_of_data ||| nlo)
      let tx ← wr tx 4 nhi
      let tx ← wr tx 5 nlo
      let mem ← writeLoop s.rx_frame data_address number_of_data loopFuel 0 s.mem
      pure (tx, mem)
    else
      pure (tx, s.mem)
  let crc ← generate_crc tx 6
  let tx ← wr tx 7 ((crc &&& 0xFF00) >>> 8)
  let tx ← wr tx 6 (crc &&& 0x00FF)
  pure ({ s with tx_frame := tx, mem := mem }, 8)

/-- The function `modbus_prep_response`. -/
def modbus_prep_response (cfg : Config) (s : State) : Exec (State × Nat) := do
  let s := serial_interrupt_switch 0 1 s
  let s ← clear_tx_frame cfg s
  let id ← rd s.rx_frame 0
  if id = cfg.MB_SLAVE_ID then
    let tx ← wr s.tx_frame 0 id
    let s := { s with tx_frame := tx }
    let fc ← rd s.rx_frame 1
    let tx ← wr s.tx_frame 1 fc
    let s := { s with tx_frame := tx }
    if fc = cfg.MB_FUNC_READ_HOLDINGREGISTERS ∨ fc = cfg.MB_FUNC_READ_INPUTREGISTERS then
      modbus_read_func cfg s
    else if fc = cfg.MB_FUNC_WRITE_REGISTER then
      modbus_write_func cfg s
    else
      modbus_error cfg.MB_ERROR_ILLEGALFUNC s
  else
    pure (s, 0)

/-! ## Initialisation -/

/-- The function `modbus_init`. The operands of the division are `unsigned
long` (32 bits); a zero divisor has no result. The macros `EALLOW`, `DINT`,
`EDIS`, `EINT`, `ERTM` act on the CPU only. -/
def modbus_init (ulBaudRate ucDataBits eParity : Nat) (s : State) : Option State :=
  let s := serial_init ulBaudRate ucDataBits eParity s
  if u32 (2 * ulBaudRate) = 0 then none
  else
    let s := { s with modbus_usTimerT35 := u32 (7 * 220000) / u32 (2 * ulBaudRate) }
    let s := serial_interrupt_switch 0 0 s
    some (timer_init s.modbus_usTimerT35 s)

/-! ## Framing state machine -/

/-- The function `modbus_chk_states`. -/
def modbus_chk_states (cfg : Config) (s : State) : State :=
  if s.modbus_state = cfg.MB_STATE_T35 then
    let s := serial_interrupt_switch 1 0 s
    { s with modbus_state := cfg.MB_STATE_WAITING }
  else if s.modbus_state = cfg.MB_STATE_WAITING then
    s
  else if s.modbus_state = cfg.MB_STATE_READING then
    let s := { s with modbus_state := cfg.MB_STATE_T35_SEND }
    let s := reset_data_pointers s
    serial_interrupt_switch 0 1 s
  else if s.modbus_state = cfg.MB_STATE_T35_SEND then
    let s := serial_send_data s
    let s := serial_interrupt_switch 0 0 s
    { s with modbus_state := cfg.MB_STATE_T35 }
  else
    s

/-! ## Auxiliary definitions for the statements -/

/-- Every entry is a `Uint16` value. -/
def Words (l : List Nat) : Prop := ∀ x ∈ l, x < 65536

/-- The state in which `modbus_prep_response` calls a handler: transmit
enabled, `tx_frame` cleared and then holding the slave address and the function
code. -/
def dispatchState (cfg : Config) (s : State) (id fc : Nat) : State :=
  { s with
    rx_enabled := 0
    tx_enabled := 1
    tx_frame := ((List.replicate cfg.MB_FRAME_CHAR_TOTALS 0).set 0 (u16 id)).set 1 (u16 fc) }

/-- Big-endian decoding of two frame entries into a `Uint16`, as done for the
address, the quantity and the value fields. -/
def wordOf (hi lo : Nat) : Nat := u16 (u16 (hi <<< 8) ||| lo)

/-- The frame `body` with the CRC of its first `n` entries stored low byte at
index `n`, high byte at index `n + 1`. -/
def withCrc (body : List Nat) (n : Nat) : List Nat :=
  (body.set (n + 1) (refCrc16 (body.take n) >>> 8)).set n (refCrc16 (body.take n) &&& 0x00FF)

/-- Byte `r` (0 to 3) of the 4-byte group emitted for the cell `c`: bits 15..8,
7..0, 31..24, 23..16, in this order. -/
def wireByte (c r : Nat) : Nat :=
  if r = 0 then (c >>> 8) &&& 0x00FF
  else if r = 1 then c &&& 0x00FF
  else if r = 2 then (c >>> 24) &&& 0x00FF
  else (c >>> 16) &&& 0x00FF

/-- The frame after one iteration of the read loop with `register_pos = k` on
the cell value `c`. -/
def putCell (tx : List Nat) (k c : Nat) : List Nat :=
  (((tx.set (3 + 4 * k) (wireByte c 0)).set (3 + 4 * k + 1) (wireByte c 1)).set
    (3 + 4 * k + 2) (wireByte c 2)).set (3 + 4 * k + 3) (wireByte c 3)

/-- The frame after `m` iterations of the read loop starting at
`register_pos = k`. -/
def fillCells (mem : Nat → Nat) (data_address : Nat) : Nat → Nat → List Nat → List Nat
  | 0, _, tx => tx
  | m + 1, k, tx =>
    fillCells mem data_address m (k + 1) (putCell tx k (mem (u16 (data_address + 2 * k))))

/-- The outbound frame built by `modbus_read_func` for the byte count `bc`
(the value stored at `tx_frame[2]`): the 4-byte groups of `(bc + 3) / 4` cells,
then the CRC of the first `3 + bc` entries. -/
def readFrame (mem : Nat → Nat) (data_address bc : Nat) (tx : List Nat) : List Nat :=
  withCrc (fillCells mem data_address ((bc + 3) / 4) 0 (tx.set 2 bc)) (3 + bc)

/-- The read answer as the specification describes it: for quantity `q` the
payload after the byte count is the 4 wire-order bytes of each of `q` cells,
followed by the CRC, so the answer has `3 + 4 q + 2` entries. -/
def FourBytesPerRegister (cfg : Config) (s : State) (q : Nat) : Prop :=
  ∃ (s' : State) (cells : List Nat) (crc : Nat),
    modbus_read_func cfg s = .ok (s', 3 + 4 * q + 2) ∧
    cells.length = q ∧
    (s'.tx_frame.drop 3).take (4 * q) =
      cells.flatMap (fun c => [wireByte c 0, wireByte c 1, wireByte c 2, wireByte c 3]) ∧
    generate_crc s'.tx_frame ((3 + 4 * q : Nat) : Int) = .ok crc ∧
    s'.tx_frame[3 + 4 * q]? = some (crc &&& 0xFF) ∧
    s'.tx_frame[3 + 4 * q + 1]? = some (crc >>> 8)

/-- Modelled from the spec: the external event of section 4.3 (raised by the
timer and serial collaborators once a complete frame has been accumulated and
the silence timer confirms frame end) moves the protocol state to Reading. -/
def frameEndEvent (cfg : Config) (s : State) : State :=
  { s with modbus_state := cfg.MB_STATE_READING }

/-- The value stored by the iteration with loop variable `i` of the
write-multiple loop into a cell holding `old`: the low register of the pair
`rx[7+2i], rx[8+2i]` and either the old high half (when `rx_frame[5] = i + 1`) or
the high register `rx[9+2i], rx[10+2i]`. -/
def pairValue (rx : List Nat) (old i : Nat) : Nat :=
  if rx.getD 5 0 = u16 (i + 1) then
    u32 ((old &&& 0xFFFF0000) |||
      u32 (u32 (u32 (rx.getD (7 + i * 2) 0) <<< 8) ||| rx.getD (7 + i * 2 + 1) 0))
  else
    u32 (u32 (u32 (u32 (u32 (rx.getD (7 + i * 2 + 2) 0) <<< 8) |||
        rx.getD (7 + i * 2 + 3) 0) <<< 16) |||
      u32 (u32 (u32 (rx.getD (7 + i * 2) 0) <<< 8) ||| rx.getD (7 + i * 2 + 1) 0))

/-- The store after `m` iterations of the write-multiple loop starting at
`i = 2 k`. -/
def writeCells (rx : List Nat) (data_address : Nat) : Nat → Nat → (Nat → Nat) → (Nat → Nat)
  | 0, _, mem => mem
  | m + 1, k, mem =>
    writeCells rx data_address m (k + 1)
      (fun a => if a = u16 (data_address + 2 * k) then
          pairValue rx (mem (u16 (data_address + 2 * k))) (2 * k)
        else mem a)

/-- A state whose inbound frame holds `bytes`, padded with zeros to the capacity
of `cfg`, whose outbound frame holds the stale value 0xAA everywhere, and whose
store holds `cell` at every address. -/
def requestState (cfg : Config) (bytes : List Nat) (cell : Nat) : State where
  rx_frame := bytes ++ List.replicate (cfg.MB_FRAME_CHAR_TOTALS - bytes.length) 0
  tx_frame := List.replicate cfg.MB_FRAME_CHAR_TOTALS 0xAA
  modbus_state := cfg.MB_STATE_READING
  mem := fun _ => cell

/-! ## Lemmas on the CRC engine -/

theorem u16_lt (x : Nat) : u16 x < 65536 := Nat.mod_lt _ (by decide)

theorem u16_of_lt {x : Nat} (h : x < 65536) : u16 x = x := Nat.mod_eq_of_lt h

theorem refCrcStep_lt {crc : Nat} (h : crc < 65536) : refCrcStep crc < 65536 := by
  unfold refCrcStep
  have h2 : crc / 2 < 2 ^ 16 := by omega
  split
  · exact Nat.xor_lt_two_pow h2 (by decide)
  · omega

theorem refCrcStep_iter_lt (k : Nat) {crc : Nat} (h : crc < 65536) :
    refCrcStep^[k] crc < 65536 := by
  induction k generalizing crc with
  | zero => simpa using h
  | succ k ih => rw [Function.iterate_succ_apply]; exact ih (refCrcStep_lt h)

theorem crcBits_eq_ref (i : Nat) {crc : Nat} (h : crc < 65536) :
    crcBits i crc = refCrcStep^[i] crc := by
  induction i generalizing crc with
  | zero => rfl
  | succ i ih =>
    have h2 : crc / 2 < 2 ^ 16 := by omega
    have hx : (crc / 2) ^^^ 0xA001 < 65536 := Nat.xor_lt_two_pow h2 (by decide)
    rw [Function.iterate_succ_apply]
    unfold crcBits refCrcStep
    simp only [Nat.and_one_is_mod, Nat.shiftRight_eq_div_pow, pow_one]
    by_cases hb : crc % 2 = 1
    · have hne : crc % 2 ≠ 0 := by omega
      rw [if_pos hne, if_pos hb, u16_of_lt (show crc / 2 < 65536 by omega), u16_of_lt hx]
      exact ih hx
    · have he : ¬ (crc % 2 ≠ 0) := by omega
      rw [if_neg he, if_neg hb, u16_of_lt (show crc / 2 < 65536 by omega)]
      exact ih (by omega)

theorem refCrcByte_lt {crc b : Nat} (hc : crc < 65536) (hb : b < 65536) :
    refCrcByte crc b < 65536 :=
  refCrcStep_iter_lt 8 (Nat.xor_lt_two_pow (n := 16) hc hb)

theorem refCrc_foldl_lt (bytes : List Nat) {crc : Nat} (hc : crc < 65536)
    (hb : ∀ b ∈ bytes, b < 65536) : bytes.foldl refCrcByte crc < 65536 := by
  induction bytes generalizing crc with
  | nil => simpa using hc
  | cons b bs ih =>
    simp only [List.foldl_cons]
    exact ih (refCrcByte_lt hc (hb b (by simp))) (fun x hx => hb x (by simp [hx]))

theorem refCrc16_lt (bytes : List Nat) (hb : ∀ b ∈ bytes, b < 65536) :
    refCrc16 bytes < 65536 :=
  refCrc_foldl_lt bytes (by decide) hb

/-- The byte loop computes the reference fold over the entries it visits. -/
theorem crcLoop_eq_ref (buf : List Nat) (hb : ∀ b ∈ buf, b < 65536) (n pos crc : Nat)
    (hc : crc < 65536) (hlen : pos + n ≤ buf.length) :
    crcLoop buf n pos crc = .ok (((buf.drop pos).take n).foldl refCrcByte crc) := by
  induction n generalizing pos crc with
  | zero => simp [crcLoop]
  | succ n ih =>
    have hpos : pos < buf.length := by omega
    have hbp : buf[pos] < 65536 := hb _ (List.getElem_mem hpos)
    have hx : crc ^^^ buf[pos] < 65536 := Nat.xor_lt_two_pow (n := 16) hc hbp
    have hd : buf.drop pos = buf[pos] :: buf.drop (pos + 1) := by
      rw [List.drop_eq_getElem_cons hpos]
    unfold crcLoop
    simp only [rd, List.getElem?_eq_getElem hpos]
    rw [u16_of_lt hbp, u16_of_lt hx, crcBits_eq_ref 8 hx, hd, List.take_succ_cons,
      List.foldl_cons]
    exact ih (pos + 1) _ (refCrcStep_iter_lt 8 hx) (by omega)

/-- On a buffer of `Uint16` entries, `generate_crc` is the reference CRC of the
first `len` entries. -/
theorem generate_crc_eq_ref (buf : List Nat) (hb : ∀ b ∈ buf, b < 65536) (len : Nat)
    (hlen : len ≤ buf.length) :
    generate_crc buf (len : Int) = .ok (refCrc16 (buf.take len)) := by
  unfold generate_crc refCrc16
  rw [Int.toNat_ofNat, crcLoop_eq_ref buf hb len 0 _ (by decide) (by omega)]
  simp

/-! ## Bit-level lemmas -/

theorem and_ff (c : Nat) : c &&& 0x00FF = c % 256 :=
  Nat.and_pow_two_sub_one_eq_mod c 8

theorem testBit_ff00 (i : Nat) : (0xFF00 : Nat).testBit i = (decide (8 ≤ i) && decide (i < 16)) := by
  have e : (0xFF00 : Nat) = 2 ^ 8 * (2 ^ 8 - 1) := by decide
  rw [e, Nat.testBit_mul_pow_two, Nat.testBit_two_pow_sub_one]
  by_cases h : 8 ≤ i
  · have e2 : decide (i - 8 < 8) = decide (i < 16) := by
      by_cases h2 : i < 16
      · simp [h2]; omega
      · simp [h2]; omega
    simp [h, e2]
  · simp [h]

theorem testBit_of_lt {c n i : Nat} (h : c < 2 ^ n) (hi : n ≤ i) : c.testBit i = false :=
  Nat.testBit_lt_two_pow (lt_of_lt_of_le h (Nat.pow_le_pow_right (by decide) hi))

theorem hi_byte {c : Nat} (h : c < 65536) : (c &&& 0xFF00) >>> 8 = c >>> 8 := by
  apply Nat.eq_of_testBit_eq
  intro j
  rw [Nat.testBit_shiftRight, Nat.testBit_shiftRight, Nat.testBit_and, testBit_ff00]
  by_cases hj : 8 + j < 16
  · simp [hj]
  · rw [testBit_of_lt (n := 16) h (by omega)]; simp

theorem shl8_or {h l : Nat} (hl : l < 256) : h <<< 8 ||| l = 256 * h + l := by
  rw [Nat.shiftLeft_eq, Nat.mul_comm h, show (2 ^ 8 : Nat) = 256 by rfl]
  exact (Nat.mul_add_lt_is_or (i := 8) hl h).symm

theorem shl16_or {h l : Nat} (hl : l < 65536) : h <<< 16 ||| l = 65536 * h + l := by
  rw [Nat.shiftLeft_eq, Nat.mul_comm h, show (2 ^ 16 : Nat) = 65536 by rfl]
  exact (Nat.mul_add_lt_is_or (i := 16) hl h).symm

@[simp] theorem ok_bind {α β : Type} (a : α) (f : α → Exec β) :
    (Except.ok a >>= f) = f a := rfl

theorem rd_of_getElem? {buf : List Nat} {i v : Nat} (h : buf[i]? = some v) :
    rd buf i = .ok v := by
  simp [rd, h]

theorem wr_of_lt {buf : List Nat} {i : Nat} (v : Nat) (h : i < buf.length) :
    wr buf i v = .ok (buf.set i (u16 v)) := by
  simp [wr, h]

theorem clearLoop_spec (n : Nat) : ∀ (i : Nat) (buf : List Nat), i + n ≤ buf.length →
    ∃ r, clearLoop n i buf = .ok r ∧ r.length = buf.length ∧
      ∀ j, r[j]? = if i ≤ j ∧ j < i + n then some 0 else buf[j]? := by
  induction n with
  | zero =>
    intro i buf _
    exact ⟨buf, rfl, rfl, fun j => by
      have hn : ¬ (i ≤ j ∧ j < i + 0) := by omega
      rw [if_neg hn]⟩
  | succ n ih =>
    intro i buf h
    have hi : i < buf.length := by omega
    obtain ⟨r, hr, hl, hg⟩ := ih (i + 1) (buf.set i (u16 0)) (by simp; omega)
    refine ⟨r, ?_, by simpa using hl, fun j => ?_⟩
    · simp only [clearLoop, wr_of_lt 0 hi]
      exact hr
    · rw [hg j, List.getElem?_set]
      by_cases hij : i = j
      · subst hij; simp [hi, u16]
      · simp only [hij, if_false]
        have e : (i + 1 ≤ j ∧ j < i + 1 + n) ↔ (i ≤ j ∧ j < i + (n + 1)) := by omega
        simp only [e]

theorem clearLoop_all (buf : List Nat) :
    clearLoop buf.length 0 buf = .ok (List.replicate buf.length 0) := by
  obtain ⟨r, hr, hl, hg⟩ := clearLoop_spec buf.length 0 buf (by omega)
  rw [hr]
  congr 1
  apply List.ext_getElem?
  intro j
  rw [hg j, List.getElem?_replicate]
  by_cases hj : j < buf.length
  · simp [hj]
  · simp [hj]; omega

theorem Words.set {l : List Nat} (h : Words l) (i v : Nat) : Words (l.set i (u16 v)) := by
  intro x hx
  rcases List.mem_or_eq_of_mem_set hx with hm | rfl
  · exact h x hm
  · exact u16_lt v

theorem words_replicate (n : Nat) : Words (List.replicate n 0) := by
  intro x hx
  rw [List.eq_of_mem_replicate hx]; decide

theorem modbus_error_eq (type : Nat) (s : State) (hl : 5 ≤ s.tx_frame.length)
    (hw : Words s.tx_frame) :
    modbus_error type s =
      .ok ({ s with
              tx_frame :=
                ((s.tx_frame.set 2 (u16 type)).set 4
                  (refCrc16 ((s.tx_frame.set 2 (u16 type)).take 3) >>> 8)).set 3
                  (refCrc16 ((s.tx_frame.set 2 (u16 type)).take 3) &&& 0x00FF) }, 5) := by
  have hc : refCrc16 ((s.tx_frame.set 2 (u16 type)).take 3) < 65536 :=
    refCrc16_lt _ (fun b hb => (hw.set 2 type) b (List.mem_of_mem_take hb))
  have h3 := generate_crc_eq_ref (s.tx_frame.set 2 (u16 type)) (hw.set 2 type) 3
    (by simp; omega)
  unfold modbus_error
  rw [wr_of_lt type (show 2 < s.tx_frame.length by omega)]
  simp only [ok_bind]
  rw [show ((3 : Int) = ((3 : Nat) : Int)) from rfl, h3]
  simp only [ok_bind]
  rw [wr_of_lt _ (show 4 < (s.tx_frame.set 2 (u16 type)).length by simp; omega)]
  simp only [ok_bind]
  rw [wr_of_lt _ (show 3 < ((s.tx_frame.set 2 (u16 type)).set 4 _).length by simp; omega)]
  simp only [ok_bind, pure, Except.pure]
  have e32 : u32 (refCrc16 ((s.tx_frame.set 2 (u16 type)).take 3)) =
      refCrc16 ((s.tx_frame.set 2 (u16 type)).take 3) := Nat.mod_eq_of_lt (by omega)
  rw [e32, hi_byte hc, and_ff]
  rw [u16_of_lt (show refCrc16 _ >>> 8 < 65536 by
        rw [Nat.shiftRight_eq_div_pow]; exact lt_of_le_of_lt (Nat.div_le_self _ _) hc),
      u16_of_lt (show refCrc16 _ % 256 < 65536 by omega)]

theorem getD_set (l : List Nat) (i j v : Nat) :
    (l.set i v).getD j 0 = if j = i ∧ i < l.length then v else l.getD j 0 := by
  rw [List.getD_eq_getElem?_getD, List.getD_eq_getElem?_getD, List.getElem?_set]
  by_cases h : i = j
  · subst h
    by_cases h2 : i < l.length
    · simp [h2]
    · simp [h2, List.getElem?_eq_none (Nat.le_of_not_lt h2)]
  · have h' : ¬ j = i := fun e => h e.symm
    simp [h, h']

theorem getD_replicate_zero (n j : Nat) : (List.replicate n 0).getD j 0 = 0 := by
  rw [List.getD_eq_getElem?_getD, List.getElem?_replicate]
  by_cases h : j < n <;> simp [h]

theorem take_eq_map_getD (l : List Nat) (n : Nat) (h : n ≤ l.length) :
    l.take n = (List.range n).map (fun i => l.getD i 0) := by
  apply List.ext_getElem?
  intro j
  rw [List.getElem?_take, List.getElem?_map]
  by_cases hj : j < n
  · have hjl : j < l.length := by omega
    rw [List.getElem?_range hj]
    simp [hj, List.getD_eq_getElem?_getD, List.getElem?_eq_getElem hjl]
  · rw [if_neg hj, List.getElem?_eq_none (by simpa using Nat.le_of_not_lt hj)]
    rfl

theorem getElem?_of_getD {l : List Nat} {i : Nat} (h : i < l.length) :
    l[i]? = some (l.getD i 0) := by
  rw [List.getD_eq_getElem?_getD, List.getElem?_eq_getElem h]; rfl

theorem mem_of_getElem?_eq {l : List Nat} {i v : Nat} (h : l[i]? = some v) : v ∈ l := by
  obtain ⟨hi, rfl⟩ := List.getElem?_eq_some.1 h
  exact List.getElem_mem hi

theorem wordOf_lt (hi lo : Nat) : wordOf hi lo < 65536 := u16_lt _

theorem wordOf_bytes {hi lo : Nat} (hh : hi < 256) (hl : lo < 256) :
    wordOf hi lo = hi <<< 8 ||| lo := by
  unfold wordOf
  have e : hi <<< 8 < 2 ^ 16 := by rw [Nat.shiftLeft_eq]; omega
  rw [u16_of_lt e]
  exact u16_of_lt (Nat.or_lt_two_pow (n := 16) e (by omega))

theorem wordOf_bytes_hi {hi lo : Nat} (hh : hi < 256) (hl : lo < 256) :
    wordOf hi lo >>> 8 = hi := by
  rw [wordOf_bytes hh hl, shl8_or hl, Nat.shiftRight_eq_div_pow]
  omega

theorem wordOf_bytes_lo {hi lo : Nat} (hh : hi < 256) (hl : lo < 256) :
    wordOf hi lo % 256 = lo := by
  rw [wordOf_bytes hh hl, shl8_or hl]
  omega

theorem shr8_lt {c : Nat} (h : c < 65536) : c >>> 8 < 65536 := by
  rw [Nat.shiftRight_eq_div_pow]; exact lt_of_le_of_lt (Nat.div_le_self _ _) h

theorem withCrc_length (body : List Nat) (n : Nat) : (withCrc body n).length = body.length := by
  simp [withCrc]

theorem withCrc_take (body : List Nat) (n : Nat) : (withCrc body n).take n = body.take n := by
  unfold withCrc
  apply List.ext_getElem?
  intro j
  rw [List.getElem?_take, List.getElem?_take]
  by_cases hj : j < n
  · rw [if_pos hj, if_pos hj, List.getElem?_set_ne (by omega), List.getElem?_set_ne (by omega)]
  · rw [if_neg hj, if_neg hj]

theorem withCrc_words {body : List Nat} (hw : Words body) (n : Nat) : Words (withCrc body n) := by
  have hc : refCrc16 (body.take n) < 65536 :=
    refCrc16_lt _ (fun b hb => hw b (List.mem_of_mem_take hb))
  intro x hx
  unfold withCrc at hx
  rcases List.mem_or_eq_of_mem_set hx with hm | rfl
  · rcases List.mem_or_eq_of_mem_set hm with hm2 | rfl
    · exact hw x hm2
    · exact shr8_lt hc
  · rw [and_ff]; omega

/-- The CRC of the first `n` entries of `withCrc body n` is the one stored at
`n`, `n + 1`. -/
theorem withCrc_crc {body : List Nat} (hw : Words body) (n : Nat) (hn : n + 2 ≤ body.length) :
    ∃ crc, generate_crc (withCrc body n) (n : Int) = .ok crc ∧
      (withCrc body n)[n]? = some (crc &&& 0xFF) ∧
      (withCrc body n)[n + 1]? = some (crc >>> 8) := by
  refine ⟨refCrc16 (body.take n), ?_, ?_, ?_⟩
  · rw [generate_crc_eq_ref _ (withCrc_words hw n) n (by rw [withCrc_length]; omega),
      withCrc_take]
  · unfold withCrc
    rw [List.getElem?_set_self (by simp; omega)]
  · unfold withCrc
    rw [List.getElem?_set_ne (by omega), List.getElem?_set_self (by omega)]

/-- The three statements that end every handler: compute the CRC of the first
`n` entries, store its high byte at `n + 1` and its low byte at `n`. -/
theorem crc_tail {body : List Nat} (hw : Words body) (n : Nat) (hn : n + 2 ≤ body.length) :
    generate_crc body (n : Int) = .ok (refCrc16 (body.take n)) ∧
    wr body (n + 1) ((refCrc16 (body.take n) &&& 0xFF00) >>> 8) =
      .ok (body.set (n + 1) (refCrc16 (body.take n) >>> 8)) ∧
    wr (body.set (n + 1) (refCrc16 (body.take n) >>> 8)) n (refCrc16 (body.take n) &&& 0x00FF) =
      .ok (withCrc body n) := by
  have hc : refCrc16 (body.take n) < 65536 :=
    refCrc16_lt _ (fun b hb => hw b (List.mem_of_mem_take hb))
  refine ⟨generate_crc_eq_ref body hw n (by omega), ?_, ?_⟩
  · rw [wr_of_lt _ (by omega), hi_byte hc, u16_of_lt (shr8_lt hc)]
  · rw [wr_of_lt _ (by simp; omega), u16_of_lt (by rw [and_ff]; omega)]
    rfl

/-! ## Lemmas on the dispatcher -/

theorem clear_tx_frame_eq (cfg : Config) (s : State)
    (hl : s.tx_frame.length = cfg.MB_FRAME_CHAR_TOTALS) :
    clear_tx_frame cfg s = .ok { s with tx_frame := List.replicate cfg.MB_FRAME_CHAR_TOTALS 0 } := by
  unfold clear_tx_frame
  rw [← hl, clearLoop_all]
  rfl

/-- A frame not addressed to this slave is dropped. -/
theorem prep_mismatch (cfg : Config) (s : State) (id : Nat)
    (hl : s.tx_frame.length = cfg.MB_FRAME_CHAR_TOTALS)
    (h0 : s.rx_frame[0]? = some id) (hid : id ≠ cfg.MB_SLAVE_ID) :
    modbus_prep_response cfg s =
      .ok ({ s with
              rx_enabled := 0
              tx_enabled := 1
              tx_frame := List.replicate cfg.MB_FRAME_CHAR_TOTALS 0 }, 0) := by
  unfold modbus_prep_response
  dsimp only
  rw [clear_tx_frame_eq cfg _ (by simpa [serial_interrupt_switch] using hl)]
  simp only [ok_bind, serial_interrupt_switch]
  rw [rd_of_getElem? h0]
  simp only [ok_bind, if_neg hid]
  rfl

/-- A frame addressed to this slave reaches one of the three handlers. -/
theorem prep_dispatch (cfg : Config) (s : State) (fc : Nat)
    (hl : s.tx_frame.length = cfg.MB_FRAME_CHAR_TOTALS) (hcap : 2 ≤ cfg.MB_FRAME_CHAR_TOTALS)
    (h0 : s.rx_frame[0]? = some cfg.MB_SLAVE_ID) (h1 : s.rx_frame[1]? = some fc) :
    modbus_prep_response cfg s =
      if fc = cfg.MB_FUNC_READ_HOLDINGREGISTERS ∨ fc = cfg.MB_FUNC_READ_INPUTREGISTERS then
        modbus_read_func cfg (dispatchState cfg s cfg.MB_SLAVE_ID fc)
      else if fc = cfg.MB_FUNC_WRITE_REGISTER then
        modbus_write_func cfg (dispatchState cfg s cfg.MB_SLAVE_ID fc)
      else
        modbus_error cfg.MB_ERROR_ILLEGALFUNC (dispatchState cfg s cfg.MB_SLAVE_ID fc) := by
  unfold modbus_prep_response
  dsimp only
  rw [clear_tx_frame_eq cfg _ (by simpa [serial_interrupt_switch] using hl)]
  simp only [ok_bind, serial_interrupt_switch]
  rw [rd_of_getElem? h0]
  simp only [ok_bind, if_true]
  rw [wr_of_lt _ (show 0 < (List.replicate cfg.MB_FRAME_CHAR_TOTALS 0).length by simp; omega)]
  simp only [ok_bind]
  rw [rd_of_getElem? h1]
  simp only [ok_bind]
  rw [wr_of_lt _ (show 1 < ((List.replicate cfg.MB_FRAME_CHAR_TOTALS 0).set 0
    (u16 cfg.MB_SLAVE_ID)).length by simp; omega)]
  simp only [ok_bind]
  rfl

theorem dispatchState_length (cfg : Config) (s : State) (id fc : Nat) :
    (dispatchState cfg s id fc).tx_frame.length = cfg.MB_FRAME_CHAR_TOTALS := by
  simp [dispatchState]

theorem dispatchState_words (cfg : Config) (s : State) (id fc : Nat) :
    Words (dispatchState cfg s id fc).tx_frame :=
  ((words_replicate _).set 0 id).set 1 fc

/-! ## Lemmas on the write handler -/

/-- The disequalities between function codes used by the dispatcher. -/
theorem Config.WF.dispatch {cfg : Config} (hc : cfg.WF) :
    cfg.MB_FUNC_WRITE_REGISTER ≠ cfg.MB_FUNC_READ_HOLDINGREGISTERS ∧
    cfg.MB_FUNC_WRITE_REGISTER ≠ cfg.MB_FUNC_READ_INPUTREGISTERS ∧
    cfg.MB_FUNC_WRITE_NREGISTERS ≠ cfg.MB_FUNC_READ_HOLDINGREGISTERS ∧
    cfg.MB_FUNC_WRITE_NREGISTERS ≠ cfg.MB_FUNC_READ_INPUTREGISTERS ∧
    cfg.MB_FUNC_WRITE_NREGISTERS ≠ cfg.MB_FUNC_WRITE_REGISTER := by
  have hp := hc.2.2.2.2.1
  simp only [List.pairwise_cons, List.mem_cons, List.mem_singleton, forall_eq_or_imp,
    forall_eq] at hp
  obtain ⟨-, -, ⟨-, -, h_w, -, h_m, -⟩, ⟨-, r_w, -, r_m, -⟩, -, ⟨-, w_m, -⟩, -⟩ := hp
  exact ⟨h_w.symm, r_w.symm, h_m.symm, r_m.symm, w_m.symm⟩

theorem memory_map_holding (cfg : Config) (hc : cfg.WF) :
    memory_map cfg cfg.MB_FUNC_READ_HOLDINGREGISTERS = 0x8000 ∧
    memory_map cfg cfg.MB_FUNC_READ_INPUTREGISTERS = 0x8000 ∧
    memory_map cfg cfg.MB_FUNC_WRITE_REGISTER = 0x8000 ∧
    memory_map cfg cfg.MB_FUNC_WRITE_NREGISTERS = 0x8000 := by
  have hp := hc.2.2.2.2.1
  simp only [List.pairwise_cons, List.mem_cons, List.mem_singleton, forall_eq_or_imp,
    forall_eq] at hp
  obtain ⟨⟨-, c_h, c_r, -, c_w, -, c_m, -⟩, ⟨i_h, i_r, -, i_w, -, i_m, -⟩,
    ⟨h_r, h_f, -, h_n, -, -⟩, ⟨r_f, r_w, r_n, r_m, -⟩, ⟨f_w, -, f_m, -⟩, ⟨w_n, -, -⟩,
    ⟨n_m, -⟩, -⟩ := hp
  unfold memory_map
  refine ⟨?_, ?_, ?_, ?_⟩
  · simp [c_h.symm, h_f, h_n, i_h.symm]
  · simp [c_r.symm, r_f, r_n, i_r.symm, h_r.symm, r_w, r_m]
  · simp [c_w.symm, f_w.symm, w_n, i_w.symm]
  · simp [c_m.symm, f_m.symm, n_m.symm, i_m.symm]

theorem store_same (mem : Nat → Nat) (a v : Nat) : store mem a v a = u32 v := by
  simp [store]

theorem store_other (mem : Nat → Nat) {a b : Nat} (v : Nat) (h : b ≠ a) :
    store mem a v b = mem b := by
  simp [store, h]

theorem u32_of_lt {x : Nat} (h : x < 4294967296) : u32 x = x := Nat.mod_eq_of_lt h

/-- The write-single-register branch of `modbus_write_func`. -/
theorem modbus_write_func_single (cfg : Config) (d : State) (hi lo vhi vlo : Nat)
    (hc : cfg.WF) (hlen : 8 ≤ d.tx_frame.length) (hw : Words d.tx_frame)
    (h1 : d.rx_frame[1]? = some cfg.MB_FUNC_WRITE_REGISTER)
    (h2 : d.rx_frame[2]? = some hi) (h3 : d.rx_frame[3]? = some lo)
    (h4 : d.rx_frame[4]? = some vhi) (h5 : d.rx_frame[5]? = some vlo) :
    modbus_write_func cfg d =
      .ok ({ d with
              tx_frame :=
                withCrc ((((d.tx_frame.set 2 (u16 hi)).set 3 (u16 lo)).set 4
                  (wordOf vhi vlo >>> 8)).set 5 (wordOf vhi vlo % 256)) 6
              mem := store d.mem (u16 (wordOf hi lo ||| 0x8000)) (wordOf vhi vlo) }, 8) := by
  have hd : wordOf vhi vlo < 65536 := wordOf_lt _ _
  have hbody : Words ((((d.tx_frame.set 2 (u16 hi)).set 3 (u16 lo)).set 4
      (u16 (wordOf vhi vlo >>> 8))).set 5 (u16 (wordOf vhi vlo % 256))) :=
    (((hw.set 2 hi).set 3 lo).set 4 _).set 5 _
  rw [u16_of_lt (shr8_lt hd), u16_of_lt (show wordOf vhi vlo % 256 < 65536 by omega)] at hbody
  obtain ⟨t1, t2, t3⟩ := crc_tail hbody 6 (by simp; omega)
  unfold modbus_write_func
  rw [rd_of_getElem? h1, rd_of_getElem? h2, rd_of_getElem? h3]
  simp only [ok_bind, (memory_map_holding cfg hc).2.2.1, if_true]
  rw [wr_of_lt _ (show 2 < d.tx_frame.length by omega)]
  simp only [ok_bind]
  rw [wr_of_lt _ (show 3 < (d.tx_frame.set 2 (u16 hi)).length by simp; omega)]
  simp only [ok_bind]
  rw [rd_of_getElem? h4, rd_of_getElem? h5]
  simp only [ok_bind, store_same]
  rw [wr_of_lt _ (show 4 < ((d.tx_frame.set 2 (u16 hi)).set 3 (u16 lo)).length by simp; omega)]
  simp only [ok_bind]
  rw [wr_of_lt _ (show 5 < (((d.tx_frame.set 2 (u16 hi)).set 3 (u16 lo)).set 4 _).length by
    simp; omega)]
  simp only [ok_bind, pure, Except.pure]
  have e1 : u32 (u16 (u16 (vhi <<< 8) ||| vlo)) = wordOf vhi vlo := u32_of_lt (by
    have := wordOf_lt vhi vlo; unfold wordOf at this; omega)
  rw [e1, hi_byte hd, and_ff, u16_of_lt (shr8_lt hd),
    u16_of_lt (show wordOf vhi vlo % 256 < 65536 by omega)]
  rw [show ((6 : Int) = ((6 : Nat) : Int)) from rfl, t1]
  simp only [ok_bind]
  rw [t2]
  simp only [ok_bind]
  rw [t3]
  rfl

theorem withCrc_take_succ (body : List Nat) (n : Nat) (hn : n + 2 ≤ body.length) :
    (withCrc body n).take (n + 2) =
      body.take n ++ [refCrc16 (body.take n) &&& 0x00FF, refCrc16 (body.take n) >>> 8] := by
  have hl : (body.take n).length = n := by simp; omega
  apply List.ext_getElem?
  intro j
  rw [List.getElem?_take]
  unfold withCrc
  by_cases h1 : j < n
  · rw [if_pos (by omega), List.getElem?_append_left (by omega), List.getElem?_take,
      if_pos h1, List.getElem?_set_ne (by omega), List.getElem?_set_ne (by omega)]
  · rw [List.getElem?_append_right (by omega), hl]
    by_cases h2 : j = n
    · subst h2
      rw [if_pos (by omega), List.getElem?_set_self (by simp; omega)]
      simp
    · by_cases h3 : j = n + 1
      · subst h3
        rw [if_pos (by omega), List.getElem?_set_ne (by omega),
          List.getElem?_set_self (by omega)]
        simp
      · rw [if_neg (by omega)]
        have e : j - n = (j - n - 2) + 2 := by omega
        rw [e]
        rfl

theorem or_8000_lt {a : Nat} (h : a < 65536) : a ||| 0x8000 < 65536 :=
  Nat.or_lt_two_pow (n := 16) h (by decide)

/-- The dispatcher on a write-single-register frame. -/
theorem prep_write_single (cfg : Config) (s : State) (hi lo vhi vlo : Nat)
    (hc : cfg.WF) (hl : s.tx_frame.length = cfg.MB_FRAME_CHAR_TOTALS)
    (hcap : 8 ≤ cfg.MB_FRAME_CHAR_TOTALS)
    (h0 : s.rx_frame[0]? = some cfg.MB_SLAVE_ID)
    (h1 : s.rx_frame[1]? = some cfg.MB_FUNC_WRITE_REGISTER)
    (h2 : s.rx_frame[2]? = some hi) (h3 : s.rx_frame[3]? = some lo)
    (h4 : s.rx_frame[4]? = some vhi) (h5 : s.rx_frame[5]? = some vlo) :
    modbus_prep_response cfg s =
      .ok ({ dispatchState cfg s cfg.MB_SLAVE_ID cfg.MB_FUNC_WRITE_REGISTER with
              tx_frame :=
                withCrc (((((dispatchState cfg s cfg.MB_SLAVE_ID
                  cfg.MB_FUNC_WRITE_REGISTER).tx_frame.set 2 (u16 hi)).set 3 (u16 lo)).set 4
                  (wordOf vhi vlo >>> 8)).set 5 (wordOf vhi vlo % 256)) 6
              mem := store s.mem (u16 (wordOf hi lo ||| 0x8000)) (wordOf vhi vlo) }, 8) := by
  obtain ⟨hrh, hri, -, -, -⟩ := hc.dispatch
  rw [prep_dispatch cfg s _ hl (by omega) h0 h1, if_neg (by tauto), if_pos rfl]
  exact modbus_write_func_single cfg _ hi lo vhi vlo hc
    (by rw [dispatchState_length]; exact hcap) (dispatchState_words _ _ _ _) h1 h2 h3 h4 h5

theorem writeCells_succ (rx : List Nat) (base m k : Nat) (mem : Nat → Nat) :
    writeCells rx base (m + 1) k mem =
      writeCells rx base m (k + 1)
        (fun a => if a = u16 (base + 2 * k) then
            pairValue rx (mem (u16 (base + 2 * k))) (2 * k)
          else mem a) := rfl

/-- The write-multiple loop performs `m` iterations when the register count `n`
satisfies `2 (k + m - 1) < n ≤ 2 (k + m)` and the inbound frame holds the data. -/
theorem writeLoop_eq (rx : List Nat) (base n : Nat) :
    ∀ (m k : Nat) (mem : Nat → Nat) (fuel : Nat), m < fuel → 5 < rx.length →
      n ≤ 2 * (k + m) → (0 < m → 2 * (k + m) < n + 2) →
      (0 < m → 4 * (k + m) + 7 ≤ rx.length) → rx.length ≤ 65536 →
      writeLoop rx base n fuel (2 * k) mem = .ok (writeCells rx base m k mem) := by
  intro m
  induction m with
  | zero =>
    intro k mem fuel hf _ hn _ _ _
    obtain ⟨f, rfl⟩ : ∃ f, fuel = f + 1 := ⟨fuel - 1, by omega⟩
    unfold writeLoop
    rw [if_neg (by omega)]
    rfl
  | succ m ih =>
    intro k mem fuel hf h5 hn hlt hlen h16
    obtain ⟨f, rfl⟩ : ∃ f, fuel = f + 1 := ⟨fuel - 1, by omega⟩
    have hlt' := hlt (by omega)
    have hlen' := hlen (by omega)
    have e0 : u16 (7 + 2 * k * 2) = 7 + 2 * k * 2 := u16_of_lt (by omega)
    have e1 : u16 (7 + 2 * k * 2 + 1) = 7 + 2 * k * 2 + 1 := u16_of_lt (by omega)
    have e2 : u16 (7 + 2 * k * 2 + 2) = 7 + 2 * k * 2 + 2 := u16_of_lt (by omega)
    have e3 : u16 (7 + 2 * k * 2 + 3) = 7 + 2 * k * 2 + 3 := u16_of_lt (by omega)
    have ei : u16 (2 * k + 2) = 2 * (k + 1) := by rw [u16_of_lt (by omega)]; omega
    have ea : u32 (u16 (base + 2 * k)) = u16 (base + 2 * k) :=
      u32_of_lt (lt_trans (u16_lt _) (by decide))
    unfold writeLoop
    rw [if_pos (by omega)]
    rw [e0, e1, e2, e3, ei, ea,
      rd_of_getElem? (getElem?_of_getD (show 7 + 2 * k * 2 < rx.length by omega)),
      rd_of_getElem? (getElem?_of_getD (show 7 + 2 * k * 2 + 1 < rx.length by omega)),
      rd_of_getElem? (getElem?_of_getD (show 7 + 2 * k * 2 + 2 < rx.length by omega)),
      rd_of_getElem? (getElem?_of_getD (show 7 + 2 * k * 2 + 3 < rx.length by omega)),
      rd_of_getElem? (getElem?_of_getD h5)]
    simp only [ok_bind]
    have hrec := fun mem' => ih (k + 1) mem' f (by omega) h5 (by omega) (fun _ => by omega)
      (fun _ => by omega) h16
    by_cases hc : rx.getD 5 0 = u16 (2 * k + 1)
    · rw [if_pos hc, hrec, writeCells_succ]
      simp only [pairValue, if_pos hc, Nat.mul_one]
      rfl
    · rw [if_neg hc, hrec, writeCells_succ]
      simp only [pairValue, if_neg hc, Nat.mul_one]
      rfl


theorem writeCells_other (rx : List Nat) (base : Nat) :
    ∀ (m k : Nat) (mem : Nat → Nat) (a : Nat),
      (∀ j, k ≤ j → j < k + m → a ≠ u16 (base + 2 * j)) →
      writeCells rx base m k mem a = mem a := by
  intro m
  induction m with
  | zero => intro k mem a _; rfl
  | succ m ih =>
    intro k mem a h
    rw [writeCells_succ, ih (k + 1) _ a (fun j h1 h2 => h j (by omega) (by omega)),
      if_neg (h k (by omega) (by omega))]

/-- Within 32768 iterations the cells written are pairwise distinct, so each
holds the value stored by its own iteration, computed from the initial content
of that cell. -/
theorem writeCells_at (rx : List Nat) (base : Nat) :
    ∀ (m k : Nat) (mem : Nat → Nat) (j : Nat), k ≤ j → j < k + m → k + m ≤ 32768 →
      writeCells rx base m k mem (u16 (base + 2 * j)) =
        pairValue rx (mem (u16 (base + 2 * j))) (2 * j) := by
  intro m
  induction m with
  | zero => intro k mem j h1 h2 _; omega
  | succ m ih =>
    intro k mem j h1 h2 h3
    rw [writeCells_succ]
    by_cases hjk : j = k
    · subst hjk
      rw [writeCells_other rx base m (j + 1) _ _ (fun i hi1 hi2 => by unfold u16; omega),
        if_pos rfl]
    · have hne : u16 (base + 2 * j) ≠ u16 (base + 2 * k) := by unfold u16; omega
      rw [ih (k + 1) _ j (by omega) (by omega) (by omega), if_neg hne]

/-- The write-multiple branch of `modbus_write_func`. -/
theorem modbus_write_func_multi (cfg : Config) (d : State) (hi lo nhi nlo : Nat)
    (hc : cfg.WF) (hlen : 8 ≤ d.tx_frame.length) (hw : Words d.tx_frame)
    (h1 : d.rx_frame[1]? = some cfg.MB_FUNC_WRITE_NREGISTERS)
    (h2 : d.rx_frame[2]? = some hi) (h3 : d.rx_frame[3]? = some lo)
    (h4 : d.rx_frame[4]? = some nhi) (h5 : d.rx_frame[5]? = some nlo)
    (hdata : 0 < wordOf nhi nlo → 4 * ((wordOf nhi nlo + 1) / 2) + 7 ≤ d.rx_frame.length)
    (h16 : d.rx_frame.length ≤ 65536) :
    modbus_write_func cfg d =
      .ok ({ d with
              tx_frame :=
                withCrc ((((d.tx_frame.set 2 (u16 hi)).set 3 (u16 lo)).set 4 (u16 nhi)).set 5
                  (u16 nlo)) 6
              mem := writeCells d.rx_frame (u16 (wordOf hi lo ||| 0x8000))
                ((wordOf nhi nlo + 1) / 2) 0 d.mem }, 8) := by
  have hq := wordOf_lt nhi nlo
  have h5l : 5 < d.rx_frame.length := by
    by_contra hcon
    rw [List.getElem?_eq_none (by omega)] at h5
    exact absurd h5 (by simp)
  have hloop := writeLoop_eq d.rx_frame (u16 (wordOf hi lo ||| 0x8000)) (wordOf nhi nlo)
    ((wordOf nhi nlo + 1) / 2) 0 d.mem loopFuel (by unfold loopFuel; omega) h5l (by omega)
    (fun _ => by omega) (fun h => by have := hdata (by omega); omega) h16
  rw [Nat.mul_zero] at hloop
  have hbody : Words ((((d.tx_frame.set 2 (u16 hi)).set 3 (u16 lo)).set 4 (u16 nhi)).set 5
      (u16 nlo)) := (((hw.set 2 hi).set 3 lo).set 4 _).set 5 _
  obtain ⟨t1, t2, t3⟩ := crc_tail hbody 6 (by simp; omega)
  obtain ⟨-, -, -, -, hne⟩ := hc.dispatch
  unfold modbus_write_func
  rw [rd_of_getElem? h1, rd_of_getElem? h2, rd_of_getElem? h3]
  simp only [ok_bind, (memory_map_holding cfg hc).2.2.2, if_neg hne, if_true]
  rw [wr_of_lt _ (show 2 < d.tx_frame.length by omega)]
  simp only [ok_bind]
  rw [wr_of_lt _ (show 3 < (d.tx_frame.set 2 (u16 hi)).length by simp; omega)]
  simp only [ok_bind]
  rw [rd_of_getElem? h4, rd_of_getElem? h5]
  simp only [ok_bind]
  rw [wr_of_lt _ (show 4 < ((d.tx_frame.set 2 (u16 hi)).set 3 (u16 lo)).length by simp; omega)]
  simp only [ok_bind]
  rw [wr_of_lt _ (show 5 < (((d.tx_frame.set 2 (u16 hi)).set 3 (u16 lo)).set 4 _).length by
    simp; omega)]
  simp only [ok_bind]
  have eq : u16 (u16 (nhi <<< 8) ||| nlo) = wordOf nhi nlo := rfl
  have ea : u16 (u16 (u16 (hi <<< 8) ||| lo) ||| u32 32768) = u16 (wordOf hi lo ||| 0x8000) := rfl
  rw [eq, ea, hloop]
  simp only [ok_bind, pure, Except.pure]
  rw [show ((6 : Int) = ((6 : Nat) : Int)) from rfl, t1]
  simp only [ok_bind]
  rw [t2]
  simp only [ok_bind]
  rw [t3]
  rfl

theorem u32_word {a b : Nat} (ha : a < 256) (hb : b < 256) :
    u32 (u32 (u32 a <<< 8) ||| b) = a <<< 8 ||| b ∧ a <<< 8 ||| b < 65536 := by
  have e : a <<< 8 ||| b = 256 * a + b := shl8_or hb
  have e1 : u32 a = a := u32_of_lt (by omega)
  have e2 : u32 (a <<< 8) = a <<< 8 := u32_of_lt (by rw [Nat.shiftLeft_eq]; omega)
  rw [e1, e2, e]
  exact ⟨u32_of_lt (by omega), by omega⟩

theorem full_word {H L : Nat} (hH : H < 65536) (hL : L < 65536) :
    u32 (u32 (H <<< 16) ||| L) = H <<< 16 ||| L := by
  have e : H <<< 16 ||| L = 65536 * H + L := shl16_or hL
  have e2 : u32 (H <<< 16) = H <<< 16 := u32_of_lt (by rw [Nat.shiftLeft_eq]; omega)
  rw [e2, e]
  exact u32_of_lt (by omega)

theorem wordOf_zero {n : Nat} (hn : n < 256) : wordOf 0 n = n := by
  rw [wordOf_bytes (by decide) hn]
  simp

theorem getD_lt_of_bytes {l : List Nat} (hb : ∀ x ∈ l, x < 256) (i : Nat) : l.getD i 0 < 256 := by
  rw [List.getD_eq_getElem?_getD]
  by_cases hi : i < l.length
  · rw [List.getElem?_eq_getElem hi]
    exact hb _ (List.getElem_mem hi)
  · rw [List.getElem?_eq_none (by omega)]
    decide

theorem getD_of_getElem? {l : List Nat} {i v : Nat} (h : l[i]? = some v) : l.getD i 0 = v := by
  rw [List.getD_eq_getElem?_getD, h]; rfl

/-! ## Lemmas on the read handler -/

theorem wireByte_lt (c r : Nat) : wireByte c r < 256 := by
  unfold wireByte
  split_ifs <;> (rw [and_ff]; omega)

theorem putCell_length (tx : List Nat) (k c : Nat) : (putCell tx k c).length = tx.length := by
  simp [putCell]

theorem putCell_words {tx : List Nat} (hw : Words tx) (k c : Nat) : Words (putCell tx k c) := by
  have h := (((hw.set (3 + 4 * k) (wireByte c 0)).set (3 + 4 * k + 1) (wireByte c 1)).set
    (3 + 4 * k + 2) (wireByte c 2)).set (3 + 4 * k + 3) (wireByte c 3)
  rw [u16_of_lt (lt_trans (wireByte_lt c 0) (by decide)),
    u16_of_lt (lt_trans (wireByte_lt c 1) (by decide)),
    u16_of_lt (lt_trans (wireByte_lt c 2) (by decide)),
    u16_of_lt (lt_trans (wireByte_lt c 3) (by decide))] at h
  exact h

theorem putCell_getD (tx : List Nat) (k c j : Nat) (hl : 3 + 4 * k + 3 < tx.length) :
    (putCell tx k c).getD j 0 =
      if 3 + 4 * k ≤ j ∧ j < 3 + 4 * k + 4 then wireByte c (j - (3 + 4 * k)) else tx.getD j 0 := by
  unfold putCell
  simp only [getD_set, List.length_set]
  by_cases h3 : j = 3 + 4 * k + 3
  · subst h3
    rw [if_pos ⟨rfl, hl⟩, if_pos (by omega)]
    congr 1; omega
  · rw [if_neg (by tauto)]
    by_cases h2 : j = 3 + 4 * k + 2
    · subst h2
      rw [if_pos ⟨rfl, by omega⟩, if_pos (by omega)]
      congr 1; omega
    · rw [if_neg (by tauto)]
      by_cases h1 : j = 3 + 4 * k + 1
      · subst h1
        rw [if_pos ⟨rfl, by omega⟩, if_pos (by omega)]
        congr 1; omega
      · rw [if_neg (by tauto)]
        by_cases h0 : j = 3 + 4 * k
        · subst h0
          rw [if_pos ⟨rfl, by omega⟩, if_pos (by omega)]
          congr 1; omega
        · rw [if_neg (by tauto), if_neg (by omega)]

theorem ext_getD {l1 l2 : List Nat} (hl : l1.length = l2.length)
    (h : ∀ j, j < l1.length → l1.getD j 0 = l2.getD j 0) : l1 = l2 := by
  apply List.ext_getElem?
  intro j
  by_cases hj : j < l1.length
  · rw [getElem?_of_getD hj, getElem?_of_getD (hl ▸ hj), h j hj]
  · rw [List.getElem?_eq_none (by omega), List.getElem?_eq_none (by omega)]

theorem swap_values_eq (t : List Nat) (a b : Nat) (ha : a < t.length) (hb : b < t.length) :
    swap_values t a b = .ok ((t.set a (u16 (t.getD b 0))).set b (u16 (t.getD a 0))) := by
  unfold swap_values
  rw [rd_of_getElem? (getElem?_of_getD ha), rd_of_getElem? (getElem?_of_getD hb)]
  simp only [ok_bind]
  rw [wr_of_lt _ ha]
  simp only [ok_bind]
  rw [wr_of_lt _ (by simp; exact hb)]

/-- One iteration of the read loop: four byte stores followed by two swaps. -/
theorem read_body {α : Type} (tx : List Nat) (k c : Nat)
    (hl : 3 + 4 * k + 3 < tx.length) (h16 : tx.length ≤ 65536) (f : List Nat → Exec α) :
    (readBytes c k 4 0 tx >>= fun t1 =>
      swap_values t1 (u16 (3 + 4 * k)) (u16 (3 + 4 * k + 1)) >>= fun t2 =>
      swap_values t2 (u16 (3 + 4 * k + 2)) (u16 (3 + 4 * k + 3)) >>= f) =
      f (putCell tx k c) := by
  have e0 : u16 (3 + 4 * k + 0) = 3 + 4 * k := u16_of_lt (by omega)
  have e0' : u16 (3 + 4 * k) = 3 + 4 * k := u16_of_lt (by omega)
  have e1 : u16 (3 + 4 * k + 1) = 3 + 4 * k + 1 := u16_of_lt (by omega)
  have e2 : u16 (3 + 4 * k + 2) = 3 + 4 * k + 2 := u16_of_lt (by omega)
  have e3 : u16 (3 + 4 * k + 3) = 3 + 4 * k + 3 := u16_of_lt (by omega)
  have b0 : u16 ((c >>> 0) &&& 0x00FF) = wireByte c 1 := by
    rw [u16_of_lt (by rw [and_ff]; omega)]; rfl
  have b1 : u16 ((c >>> 8) &&& 0x00FF) = wireByte c 0 := by
    rw [u16_of_lt (by rw [and_ff]; omega)]; rfl
  have b2 : u16 ((c >>> 16) &&& 0x00FF) = wireByte c 3 := by
    rw [u16_of_lt (by rw [and_ff]; omega)]; rfl
  have b3 : u16 ((c >>> 24) &&& 0x00FF) = wireByte c 2 := by
    rw [u16_of_lt (by rw [and_ff]; omega)]; rfl
  have n1 : u16 (0 + 1) = 1 := rfl
  have n2 : u16 (1 + 1) = 2 := rfl
  have n3 : u16 (2 + 1) = 3 := rfl
  have s0 : u16 (0 * 8) = 0 := rfl
  have s1 : u16 (1 * 8) = 8 := rfl
  have s2 : u16 (2 * 8) = 16 := rfl
  have s3 : u16 (3 * 8) = 24 := rfl
  simp only [readBytes, n1, n2, n3, s0, s1, s2, s3, e0, e0', e1, e2, e3]
  rw [wr_of_lt _ (show 3 + 4 * k < tx.length by omega), b0]
  simp only []
  rw [wr_of_lt _ (show 3 + 4 * k + 1 < (tx.set (3 + 4 * k) _).length by simp; omega), b1]
  simp only []
  rw [wr_of_lt _ (show 3 + 4 * k + 2 < ((tx.set (3 + 4 * k) _).set _ _).length by
    simp; omega), b2]
  simp only []
  rw [wr_of_lt _ (show 3 + 4 * k + 3 < (((tx.set (3 + 4 * k) _).set _ _).set _ _).length by
    simp; omega), b3]
  simp only [ok_bind]
  rw [swap_values_eq _ _ _ (by simp; omega) (by simp; omega)]
  simp only [ok_bind]
  rw [swap_values_eq _ _ _ (by simp; omega) (by simp; omega)]
  simp only [ok_bind]
  congr 1
  have q0 := lt_trans (wireByte_lt c 0) (show 256 < 65536 by decide)
  have q1 := lt_trans (wireByte_lt c 1) (show 256 < 65536 by decide)
  have q2 := lt_trans (wireByte_lt c 2) (show 256 < 65536 by decide)
  have q3 := lt_trans (wireByte_lt c 3) (show 256 < 65536 by decide)
  have l0 : 3 + 4 * k < tx.length := by omega
  have l1 : 3 + 4 * k + 1 < tx.length := by omega
  have l2 : 3 + 4 * k + 2 < tx.length := by omega
  apply ext_getD
  · simp [putCell]
  · intro j _
    rw [putCell_getD tx k c j hl]
    simp only [getD_set, List.length_set]
    simp [l0, l1, l2, hl, u16_of_lt, q0, q1, q2, q3]
    by_cases h3 : j = 3 + 4 * k + 3
    · subst h3; simp
    · by_cases h2 : j = 3 + 4 * k + 2
      · subst h2; simp
      · by_cases h1 : j = 3 + 4 * k + 1
        · subst h1; simp
        · by_cases h0 : j = 3 + 4 * k
          · subst h0; simp
          · rw [if_neg h3, if_neg h2, if_neg h1, if_neg h0, if_neg h3, if_neg h2, if_neg h1,
              if_neg h0, if_neg (by omega)]


theorem putCell_getElem?_two (tx : List Nat) (k c : Nat) : (putCell tx k c)[2]? = tx[2]? := by
  unfold putCell
  rw [List.getElem?_set_ne (by omega), List.getElem?_set_ne (by omega),
    List.getElem?_set_ne (by omega), List.getElem?_set_ne (by omega)]

/-- The read loop performs `m` iterations when the byte count `bc` stored at
`tx_frame[2]` satisfies `4 (k + m - 1) < bc ≤ 4 (k + m)` and the frame holds the
`4 m` bytes. -/
theorem readLoop_eq (mem : Nat → Nat) (base bc : Nat) :
    ∀ (m k : Nat) (tx : List Nat) (fuel : Nat), m < fuel → tx[2]? = some bc →
      bc ≤ 4 * (k + m) → (0 < m → 4 * (k + m) < bc + 4) →
      3 + 4 * (k + m) ≤ tx.length → tx.length ≤ 65536 →
      readLoop mem base fuel (4 * k) k tx = .ok (fillCells mem base m k tx) := by
  intro m
  induction m with
  | zero =>
    intro k tx fuel hf h2 hb _ _ _
    obtain ⟨f, rfl⟩ : ∃ f, fuel = f + 1 := ⟨fuel - 1, by omega⟩
    unfold readLoop
    rw [rd_of_getElem? h2]
    simp only [ok_bind]
    rw [if_neg (by omega)]
    rfl
  | succ m ih =>
    intro k tx fuel hf h2 hb hlt hlen h16
    obtain ⟨f, rfl⟩ : ∃ f, fuel = f + 1 := ⟨fuel - 1, by omega⟩
    have hlt' := hlt (by omega)
    unfold readLoop
    rw [rd_of_getElem? h2]
    simp only [ok_bind]
    rw [if_pos (by omega)]
    have e1 : 4 * k / 2 = 2 * k := by omega
    have e2 : u16 (4 * k + 4) = 4 * (k + 1) := by rw [u16_of_lt (by omega)]; omega
    have e3 : u16 (k + 1) = k + 1 := u16_of_lt (by omega)
    rw [e1, e2, e3]
    rw [read_body tx k _ (by omega) h16]
    exact ih (k + 1) _ f (by omega) (by rw [putCell_getElem?_two]; exact h2) (by omega)
      (fun _ => by omega) (by rw [putCell_length]; omega) (by rw [putCell_length]; exact h16)

theorem fillCells_length (mem : Nat → Nat) (base : Nat) :
    ∀ (m k : Nat) (tx : List Nat), (fillCells mem base m k tx).length = tx.length := by
  intro m
  induction m with
  | zero => intro k tx; rfl
  | succ m ih => intro k tx; unfold fillCells; rw [ih, putCell_length]

theorem fillCells_words (mem : Nat → Nat) (base : Nat) :
    ∀ (m k : Nat) (tx : List Nat), Words tx → Words (fillCells mem base m k tx) := by
  intro m
  induction m with
  | zero => intro k tx hw; exact hw
  | succ m ih => intro k tx hw; unfold fillCells; exact ih _ _ (putCell_words hw _ _)

theorem fillCells_getD (mem : Nat → Nat) (base : Nat) :
    ∀ (m k : Nat) (tx : List Nat) (j : Nat), 3 + 4 * (k + m) ≤ tx.length →
      (fillCells mem base m k tx).getD j 0 =
        if 3 + 4 * k ≤ j ∧ j < 3 + 4 * (k + m) then
          wireByte (mem (u16 (base + 2 * ((j - 3) / 4)))) ((j - 3) % 4)
        else tx.getD j 0 := by
  intro m
  induction m with
  | zero =>
    intro k tx j _
    rw [if_neg (by omega)]
    rfl
  | succ m ih =>
    intro k tx j hl
    unfold fillCells
    rw [ih (k + 1) _ j (by rw [putCell_length]; omega), putCell_getD tx k _ j (by omega)]
    by_cases h1 : 3 + 4 * (k + 1) ≤ j ∧ j < 3 + 4 * (k + 1 + m)
    · rw [if_pos h1, if_pos (by omega)]
    · rw [if_neg h1]
      by_cases h2 : 3 + 4 * k ≤ j ∧ j < 3 + 4 * k + 4
      · have e1 : (j - 3) / 4 = k := by omega
        have e2 : (j - 3) % 4 = j - (3 + 4 * k) := by omega
        rw [if_pos h2, if_pos (by omega), e1, e2]
      · rw [if_neg h2, if_neg (by omega)]

theorem toInt16_of_lt {x : Nat} (h : x < 32768) : toInt16 x = (x : Int) := by
  unfold toInt16
  rw [u16_of_lt (by omega), if_pos h]

/-- The read handler on a request whose answer fits the frame buffer. -/
theorem modbus_read_func_eq (cfg : Config) (d : State) (fc hi lo nhi nlo : Nat)
    (hw : Words d.tx_frame) (hL : d.tx_frame.length < 32768)
    (h1 : d.rx_frame[1]? = some fc)
    (h2 : d.rx_frame[2]? = some hi) (h3 : d.rx_frame[3]? = some lo)
    (h4 : d.rx_frame[4]? = some nhi) (h5 : d.rx_frame[5]? = some nlo)
    (hfit : u16 (wordOf nhi nlo * 2) + 5 ≤ d.tx_frame.length) :
    modbus_read_func cfg d =
      .ok ({ d with
              tx_fifo_registers := wordOf nhi nlo
              tx_frame := readFrame d.mem (u16 (wordOf hi lo ||| u32 (memory_map cfg fc)))
                (u16 (wordOf nhi nlo * 2)) d.tx_frame }, u16 (wordOf nhi nlo * 2) + 5) := by
  generalize hbc : u16 (wordOf nhi nlo * 2) = bc at hfit
  have hev : bc % 2 = 0 := by rw [← hbc]; unfold u16; omega
  have hloop := readLoop_eq d.mem (u16 (wordOf hi lo ||| u32 (memory_map cfg fc)))
    bc ((bc + 3) / 4) 0 (d.tx_frame.set 2 bc)
    loopFuel (by unfold loopFuel; omega) (by rw [List.getElem?_set_self (by omega)])
    (by omega) (fun _ => by omega) (by simp; omega) (by simp; omega)
  have hF2 : (fillCells d.mem (u16 (wordOf hi lo ||| u32 (memory_map cfg fc)))
      ((bc + 3) / 4) 0 (d.tx_frame.set 2 bc))[2]? = some bc := by
    rw [getElem?_of_getD (by rw [fillCells_length]; simp; omega),
      fillCells_getD _ _ _ _ _ _ (by simp; omega), if_neg (by omega), getD_set,
      if_pos ⟨rfl, by omega⟩]
  have hFw := fillCells_words d.mem (u16 (wordOf hi lo ||| u32 (memory_map cfg fc)))
    ((bc + 3) / 4) 0 _ (hw.set 2 bc)
  rw [u16_of_lt (show bc < 65536 by omega)] at hFw
  obtain ⟨t1, t2, t3⟩ := crc_tail hFw (3 + bc) (by rw [fillCells_length]; simp; omega)
  unfold modbus_read_func
  rw [rd_of_getElem? h1, rd_of_getElem? h2, rd_of_getElem? h3, rd_of_getElem? h4,
    rd_of_getElem? h5]
  simp only [ok_bind, serial_tx_frame_calc]
  have eq : u16 (u16 (nhi <<< 8) ||| nlo) = wordOf nhi nlo := rfl
  have ea : u16 (u16 (hi <<< 8) ||| lo) = wordOf hi lo := rfl
  rw [eq, ea, hbc, wr_of_lt _ (show 2 < d.tx_frame.length by omega),
    u16_of_lt (show bc < 65536 by omega)]
  simp only [ok_bind]
  rw [Nat.mul_zero] at hloop
  rw [hloop]
  simp only [ok_bind]
  rw [rd_of_getElem? hF2]
  simp only [ok_bind]
  have e3 : u16 (3 + bc) = 3 + bc := u16_of_lt (by omega)
  have e4 : u16 (3 + bc + 1) = 3 + bc + 1 := u16_of_lt (by omega)
  have e5 : u16 (3 + bc + 2) = bc + 5 := by rw [u16_of_lt (by omega)]; omega
  rw [e3, e4, e5, toInt16_of_lt (by omega), t1]
  simp only [ok_bind]
  rw [t2]
  simp only [ok_bind]
  rw [t3]
  rfl

theorem readFrame_length (mem : Nat → Nat) (base bc : Nat) (tx : List Nat) :
    (readFrame mem base bc tx).length = tx.length := by
  unfold readFrame
  rw [withCrc_length, fillCells_length]
  simp

/-- Entry `j` of the read answer, for `j` before the CRC. -/
theorem readFrame_getD (mem : Nat → Nat) (base bc : Nat) (tx : List Nat) (j : Nat)
    (hfit : bc + 5 ≤ tx.length) (hev : bc % 2 = 0) (hj : j < 3 + bc) :
    (readFrame mem base bc tx).getD j 0 =
      if 3 ≤ j then wireByte (mem (u16 (base + 2 * ((j - 3) / 4)))) ((j - 3) % 4)
      else if j = 2 then bc else tx.getD j 0 := by
  unfold readFrame withCrc
  rw [getD_set, if_neg (by omega), getD_set, if_neg (by omega),
    fillCells_getD _ _ _ _ _ _ (by simp; omega), getD_set]
  by_cases h3 : 3 ≤ j
  · rw [if_pos (by omega), if_pos h3]
  · rw [if_neg (by omega), if_neg h3]
    by_cases h2 : j = 2
    · rw [if_pos ⟨h2, by omega⟩, if_pos h2]
    · rw [if_neg (by tauto), if_neg h2]

/-- The CRC of the read answer. -/
theorem readFrame_crc (mem : Nat → Nat) (base bc : Nat) {tx : List Nat} (hw : Words tx)
    (hfit : bc + 5 ≤ tx.length) (hbc : bc < 65536) :
    ∃ crc, generate_crc (readFrame mem base bc tx) ((3 + bc : Nat) : Int) = .ok crc ∧
      (readFrame mem base bc tx)[3 + bc]? = some (crc &&& 0xFF) ∧
      (readFrame mem base bc tx)[3 + bc + 1]? = some (crc >>> 8) := by
  have hFw := fillCells_words mem base ((bc + 3) / 4) 0 _ (hw.set 2 bc)
  rw [u16_of_lt hbc] at hFw
  exact withCrc_crc hFw (3 + bc) (by rw [fillCells_length]; simp; omega)

/-- The dispatcher on a read request whose answer fits the frame buffer. -/
theorem prep_read (cfg : Config) (s : State) (fc hi lo nhi nlo : Nat)
    (hc : cfg.WF) (hl : s.tx_frame.length = cfg.MB_FRAME_CHAR_TOTALS)
    (h0 : s.rx_frame[0]? = some cfg.MB_SLAVE_ID) (h1 : s.rx_frame[1]? = some fc)
    (hfc : fc = cfg.MB_FUNC_READ_HOLDINGREGISTERS ∨ fc = cfg.MB_FUNC_READ_INPUTREGISTERS)
    (h2 : s.rx_frame[2]? = some hi) (h3 : s.rx_frame[3]? = some lo)
    (h4 : s.rx_frame[4]? = some nhi) (h5 : s.rx_frame[5]? = some nlo)
    (hfit : u16 (wordOf nhi nlo * 2) + 5 ≤ cfg.MB_FRAME_CHAR_TOTALS) :
    modbus_prep_response cfg s =
      .ok ({ dispatchState cfg s cfg.MB_SLAVE_ID fc with
              tx_fifo_registers := wordOf nhi nlo
              tx_frame := readFrame s.mem (u16 (wordOf hi lo ||| 0x8000))
                (u16 (wordOf nhi nlo * 2)) (dispatchState cfg s cfg.MB_SLAVE_ID fc).tx_frame },
          u16 (wordOf nhi nlo * 2) + 5) := by
  have hm : u32 (memory_map cfg fc) = 0x8000 := by
    rcases hfc with rfl | rfl
    · rw [(memory_map_holding cfg hc).1]; rfl
    · rw [(memory_map_holding cfg hc).2.1]; rfl
  rw [prep_dispatch cfg s _ hl (by omega) h0 h1, if_pos hfc,
    modbus_read_func_eq cfg _ fc hi lo nhi nlo (dispatchState_words _ _ _ _)
      (by rw [dispatchState_length]; exact hc.2.1) h1 h2 h3 h4 h5
      (by rw [dispatchState_length]; exact hfit), hm]
  rfl

theorem getElem?_of_take_eq {l p : List Nat} {n : Nat} (h : l.take n = p) (i : Nat)
    (hi : i < n) : l[i]? = p[i]? := by
  rw [← h, List.getElem?_take_of_lt hi]

theorem div_mod_word {V : Nat} (hV : V < 65536) : wordOf (V / 256) (V % 256) = V := by
  rw [wordOf_bytes (by omega) (by omega), shl8_or (by omega)]
  omega

theorem wireByte_hi {V : Nat} (hV : V < 65536) : wireByte V 0 = V / 256 := by
  unfold wireByte
  rw [if_pos rfl, and_ff, Nat.shiftRight_eq_div_pow]
  have : V / 2 ^ 8 = V / 256 := rfl
  omega

theorem wireByte_lo (V : Nat) : wireByte V 1 = V % 256 := by
  unfold wireByte
  rw [if_neg (by decide), if_pos rfl, and_ff]

theorem words_replicate_byte (n v : Nat) (hv : v < 65536) : Words (List.replicate n v) := by
  intro x hx
  rw [List.eq_of_mem_replicate hx]; exact hv

theorem drop_take_eq_map (l : List Nat) (a n : Nat) (f : Nat → Nat) (hl : a + n ≤ l.length)
    (h : ∀ j, j < n → l.getD (a + j) 0 = f j) :
    (l.drop a).take n = (List.range n).map f := by
  apply List.ext_getElem?
  intro j
  rw [List.getElem?_take, List.getElem?_map]
  by_cases hj : j < n
  · rw [if_pos hj, List.getElem?_drop, List.getElem?_range hj,
      getElem?_of_getD (by omega), h j hj]
    rfl
  · rw [if_neg hj, List.getElem?_eq_none (by simpa using Nat.le_of_not_lt hj)]
    rfl

/-! ## Inversion: what a returning run implies -/

@[simp] theorem error_bind {α β : Type} (e : Fault) (f : α → Exec β) :
    ((Except.error e : Exec α) >>= f) = .error e := rfl

theorem bind_eq_ok {α β : Type} {x : Exec α} {f : α → Exec β} {b : β}
    (h : (x >>= f) = .ok b) : ∃ a, x = .ok a ∧ f a = .ok b := by
  cases x with
  | error e => exact absurd h (by simp)
  | ok a => exact ⟨a, rfl, h⟩

theorem rd_eq_ok {buf : List Nat} {i v : Nat} (h : rd buf i = .ok v) : buf[i]? = some v := by
  unfold rd at h
  split at h
  · rename_i w hw
    rw [hw]
    exact congrArg some (Except.ok.inj h)
  · exact absurd h (by simp)

theorem wr_eq_ok {buf r : List Nat} {i v : Nat} (h : wr buf i v = .ok r) :
    i < buf.length ∧ r = buf.set i (u16 v) := by
  unfold wr at h
  split at h
  · rename_i hi
    exact ⟨hi, (Except.ok.inj h).symm⟩
  · exact absurd h (by simp)

theorem wr_of_ge {buf : List Nat} {i : Nat} (v : Nat) (h : buf.length ≤ i) :
    wr buf i v = .error Fault.outOfBounds := by
  simp [wr, Nat.not_lt.2 h]

/-- One iteration of the read loop faults when its four bytes do not fit. -/
theorem read_body_fault {α : Type} (tx : List Nat) (k c : Nat)
    (hl : tx.length ≤ 3 + 4 * k + 3) (h16 : 3 + 4 * k + 3 < 65536) (f : List Nat → Exec α) :
    (readBytes c k 4 0 tx >>= f) = .error Fault.outOfBounds := by
  have e0 : u16 (3 + 4 * k + 0) = 3 + 4 * k := u16_of_lt (by omega)
  have e1 : u16 (3 + 4 * k + 1) = 3 + 4 * k + 1 := u16_of_lt (by omega)
  have e2 : u16 (3 + 4 * k + 2) = 3 + 4 * k + 2 := u16_of_lt (by omega)
  have e3 : u16 (3 + 4 * k + 3) = 3 + 4 * k + 3 := u16_of_lt (by omega)
  have n1 : u16 (0 + 1) = 1 := rfl
  have n2 : u16 (1 + 1) = 2 := rfl
  have n3 : u16 (2 + 1) = 3 := rfl
  simp only [readBytes, n1, n2, n3, e0, e1, e2, e3]
  by_cases h0 : 3 + 4 * k < tx.length
  · rw [wr_of_lt _ h0]
    simp only []
    by_cases h1 : 3 + 4 * k + 1 < tx.length
    · rw [wr_of_lt _ (by simp; exact h1)]
      simp only []
      by_cases h2 : 3 + 4 * k + 2 < tx.length
      · rw [wr_of_lt _ (by simp; exact h2)]
        simp only []
        rw [wr_of_ge _ (by simp; exact hl)]
        rfl
      · rw [wr_of_ge _ (by simp; omega)]
        rfl
    · rw [wr_of_ge _ (by simp; omega)]
      rfl
  · rw [wr_of_ge _ (by omega)]
    rfl

/-- If the read loop returns, the groups of all its iterations fit the frame. -/
theorem readLoop_ok_fits (mem : Nat → Nat) (base bc : Nat) :
    ∀ (fuel k : Nat) (tx F : List Nat), tx[2]? = some bc → tx.length < 32768 →
      4 * k ≤ tx.length → readLoop mem base fuel (4 * k) k tx = .ok F →
      4 * k < bc → 3 + 4 * ((bc + 3) / 4) ≤ tx.length := by
  intro fuel
  induction fuel with
  | zero =>
    intro k tx F _ _ _ h
    exact absurd h (by simp [readLoop])
  | succ fuel ih =>
    intro k tx F h2 hL hk h hlt
    unfold readLoop at h
    rw [rd_of_getElem? h2] at h
    simp only [ok_bind, if_pos hlt] at h
    by_cases hfit : 3 + 4 * k + 3 < tx.length
    · have e1 : 4 * k / 2 = 2 * k := by omega
      have e2 : u16 (4 * k + 4) = 4 * (k + 1) := by rw [u16_of_lt (by omega)]; omega
      have e3 : u16 (k + 1) = k + 1 := u16_of_lt (by omega)
      rw [e1, e2, e3, read_body tx k _ hfit (by omega)] at h
      by_cases hnext : 4 * (k + 1) < bc
      · have := ih (k + 1) _ F (by rw [putCell_getElem?_two]; exact h2)
          (by rw [putCell_length]; exact hL) (by rw [putCell_length]; omega) h hnext
        rw [putCell_length] at this
        exact this
      · omega
    · rw [read_body_fault tx k _ (by omega) (by omega)] at h
      exact absurd h (by simp)

/-- If `modbus_read_func` returns, the request fields are readable and the
answer fits the frame buffer. -/
theorem modbus_read_func_inv (cfg : Config) (d : State) (r : State × Nat)
    (hL : d.tx_frame.length < 32768) (h : modbus_read_func cfg d = .ok r) :
    ∃ fc hi lo nhi nlo, d.rx_frame[1]? = some fc ∧ d.rx_frame[2]? = some hi ∧
      d.rx_frame[3]? = some lo ∧ d.rx_frame[4]? = some nhi ∧ d.rx_frame[5]? = some nlo ∧
      u16 (wordOf nhi nlo * 2) + 5 ≤ d.tx_frame.length := by
  unfold modbus_read_func at h
  obtain ⟨fc, h1, h⟩ := bind_eq_ok h
  try dsimp only at h
  obtain ⟨hi, h2, h⟩ := bind_eq_ok h
  try dsimp only at h
  obtain ⟨lo, h3, h⟩ := bind_eq_ok h
  try dsimp only at h
  obtain ⟨nhi, h4, h⟩ := bind_eq_ok h
  try dsimp only at h
  obtain ⟨nlo, h5, h⟩ := bind_eq_ok h
  dsimp only [serial_tx_frame_calc] at h
  obtain ⟨tx1, hw1, h⟩ := bind_eq_ok h
  obtain ⟨hlt2, rfl⟩ := wr_eq_ok hw1
  obtain ⟨F, hloop, h⟩ := bind_eq_ok h
  refine ⟨fc, hi, lo, nhi, nlo, rd_eq_ok h1, rd_eq_ok h2, rd_eq_ok h3, rd_eq_ok h4,
    rd_eq_ok h5, ?_⟩
  have eq : u16 (u16 (nhi <<< 8) ||| nlo) = wordOf nhi nlo := rfl
  rw [eq] at hloop h
  generalize hbc : u16 (wordOf nhi nlo * 2) = bc at hloop h ⊢
  have hbl : bc < 65536 := by rw [← hbc]; exact u16_lt _
  have hev : bc % 2 = 0 := by rw [← hbc]; unfold u16; omega
  rw [u16_of_lt hbl] at hloop
  have hfits : 3 + 4 * ((bc + 3) / 4) ≤ d.tx_frame.length := by
    by_cases hz : 0 < bc
    · have := readLoop_ok_fits d.mem _ bc loopFuel 0 (d.tx_frame.set 2 bc) F
        (by rw [List.getElem?_set_self hlt2]) (by simp; exact hL) (by omega) hloop
        (by omega)
      simpa using this
    · omega
  have hloop2 := readLoop_eq d.mem (u16 (u16 (u16 (hi <<< 8) ||| lo) ||| u32 (memory_map cfg fc)))
    bc ((bc + 3) / 4) 0 (d.tx_frame.set 2 bc)
    loopFuel (by unfold loopFuel; omega) (by rw [List.getElem?_set_self hlt2])
    (by omega) (fun _ => by omega) (by simp; omega) (by simp; omega)
  rw [Nat.mul_zero] at hloop2
  rw [hloop2] at hloop
  have hF := (Except.ok.inj hloop).symm
  subst hF
  try dsimp only at h
  obtain ⟨b2, hb2, h⟩ := bind_eq_ok h
  have hF2 : (fillCells d.mem (u16 (u16 (u16 (hi <<< 8) ||| lo) ||| u32 (memory_map cfg fc)))
      ((bc + 3) / 4) 0 (d.tx_frame.set 2 bc))[2]? = some bc := by
    rw [getElem?_of_getD (by rw [fillCells_length]; simp; omega),
      fillCells_getD _ _ _ _ _ _ (by simp; omega), if_neg (by omega), getD_set,
      if_pos ⟨rfl, by omega⟩]
  have hb : b2 = bc := by
    have := rd_eq_ok hb2
    rw [hF2] at this
    exact (Option.some.inj this).symm
  subst hb
  try dsimp only at h
  obtain ⟨crc, -, h⟩ := bind_eq_ok h
  obtain ⟨tx2, hw2, h⟩ := bind_eq_ok h
  have hi2 := (wr_eq_ok hw2).1
  rw [fillCells_length, List.length_set, u16_of_lt (show 3 + b2 < 65536 by omega),
    u16_of_lt (show 3 + b2 + 1 < 65536 by omega)] at hi2
  omega

/-- If the write-single branch of `modbus_write_func` returns, the request
fields are readable and the frame buffer holds the 8 entries of the answer. -/
theorem modbus_write_func_inv (cfg : Config) (d : State) (r : State × Nat)
    (h1 : d.rx_frame[1]? = some cfg.MB_FUNC_WRITE_REGISTER)
    (h : modbus_write_func cfg d = .ok r) :
    ∃ hi lo vhi vlo, d.rx_frame[2]? = some hi ∧ d.rx_frame[3]? = some lo ∧
      d.rx_frame[4]? = some vhi ∧ d.rx_frame[5]? = some vlo ∧ 8 ≤ d.tx_frame.length := by
  unfold modbus_write_func at h
  rw [rd_of_getElem? h1] at h
  simp only [ok_bind, if_true] at h
  obtain ⟨hi, h2, h⟩ := bind_eq_ok h
  try dsimp only at h
  obtain ⟨lo, h3, h⟩ := bind_eq_ok h
  try dsimp only at h
  obtain ⟨tx1, hw1, h⟩ := bind_eq_ok h
  obtain ⟨-, rfl⟩ := wr_eq_ok hw1
  obtain ⟨tx2, hw2, h⟩ := bind_eq_ok h
  obtain ⟨-, rfl⟩ := wr_eq_ok hw2
  obtain ⟨vhi, h4, h⟩ := bind_eq_ok h
  try dsimp only at h
  obtain ⟨vlo, h5, h⟩ := bind_eq_ok h
  try dsimp only at h
  obtain ⟨tx3, hw3, h⟩ := bind_eq_ok h
  obtain ⟨-, rfl⟩ := wr_eq_ok hw3
  obtain ⟨tx4, hw4, h⟩ := bind_eq_ok h
  obtain ⟨-, rfl⟩ := wr_eq_ok hw4
  simp only [pure, Except.pure, ok_bind] at h
  obtain ⟨crc, -, h⟩ := bind_eq_ok h
  obtain ⟨tx5, hw5, h⟩ := bind_eq_ok h
  have h7 := (wr_eq_ok hw5).1
  simp only [List.length_set] at h7
  exact ⟨hi, lo, vhi, vlo, rd_eq_ok h2, rd_eq_ok h3, rd_eq_ok h4, rd_eq_ok h5, by omega⟩

/-- If `modbus_error` returns, the frame buffer holds the 5 entries of the
answer. -/
theorem modbus_error_inv (type : Nat) (d : State) (r : State × Nat)
    (h : modbus_error type d = .ok r) : 5 ≤ d.tx_frame.length := by
  unfold modbus_error at h
  obtain ⟨tx1, hw1, h⟩ := bind_eq_ok h
  obtain ⟨-, rfl⟩ := wr_eq_ok hw1
  obtain ⟨crc, -, h⟩ := bind_eq_ok h
  try dsimp only at h
  obtain ⟨tx2, hw2, h⟩ := bind_eq_ok h
  have h4 := (wr_eq_ok hw2).1
  simp only [List.length_set] at h4
  omega

/-- If the dispatcher returns a non-zero length, the frame is addressed to this
slave and carries a function code. -/
theorem prep_inv (cfg : Config) (s s' : State) (L : Nat)
    (hl : s.tx_frame.length = cfg.MB_FRAME_CHAR_TOTALS)
    (h : modbus_prep_response cfg s = .ok (s', L)) (hL : L ≠ 0) :
    ∃ fc, s.rx_frame[0]? = some cfg.MB_SLAVE_ID ∧ s.rx_frame[1]? = some fc ∧
      2 ≤ cfg.MB_FRAME_CHAR_TOTALS := by
  unfold modbus_prep_response at h
  try dsimp only at h
  rw [clear_tx_frame_eq cfg _ (by simpa [serial_interrupt_switch] using hl)] at h
  simp only [ok_bind, serial_interrupt_switch] at h
  obtain ⟨id, h0, h⟩ := bind_eq_ok h
  by_cases hid : id = cfg.MB_SLAVE_ID
  · rw [if_pos hid] at h
    obtain ⟨tx1, hw1, h⟩ := bind_eq_ok h
    obtain ⟨-, rfl⟩ := wr_eq_ok hw1
    try dsimp only at h
    obtain ⟨fc, h1, h⟩ := bind_eq_ok h
    obtain ⟨tx2, hw2, h⟩ := bind_eq_ok h
    have hlt := (wr_eq_ok hw2).1
    simp only [List.length_set, List.length_replicate] at hlt
    exact ⟨fc, hid ▸ rd_eq_ok h0, rd_eq_ok h1, by omega⟩
  · rw [if_neg hid] at h
    exact absurd (congrArg Prod.snd (Except.ok.inj h)).symm hL

theorem withCrc_getElem?_lt (body : List Nat) (n j : Nat) (hj : j < n) :
    (withCrc body n)[j]? = body[j]? := by
  unfold withCrc
  rw [List.getElem?_set_ne (by omega), List.getElem?_set_ne (by omega)]

theorem dispatchState_head (cfg : Config) (s : State) (id fc : Nat)
    (hcap : 2 ≤ cfg.MB_FRAME_CHAR_TOTALS) (hid : id < 65536) (hfc : fc < 65536) :
    (dispatchState cfg s id fc).tx_frame[0]? = some id ∧
    (dispatchState cfg s id fc).tx_frame[1]? = some fc := by
  unfold dispatchState
  dsimp only
  constructor
  · rw [List.getElem?_set_ne (by decide), List.getElem?_set_self (by simp; omega),
      u16_of_lt hid]
  · rw [List.getElem?_set_self (by simp; omega), u16_of_lt hfc]

/-- Every run of the dispatcher that returns is either a silent drop, which
leaves the cleared frame, or an answer: a body followed by its CRC, with zeros
from the returned length on; only the write-single path touches the store. -/
theorem prep_run_cases (cfg : Config) (s s' : State) (L : Nat)
    (hc : cfg.WF) (hs : s.WF cfg)
    (hrun : modbus_prep_response cfg s = .ok (s', L)) :
    (L = 0 ∧ (∃ id, s.rx_frame[0]? = some id ∧ id ≠ cfg.MB_SLAVE_ID) ∧
      s' = { s with rx_enabled := 0, tx_enabled := 1,
                    tx_frame := List.replicate cfg.MB_FRAME_CHAR_TOTALS 0 }) ∨
    (∃ fc body, s.rx_frame[0]? = some cfg.MB_SLAVE_ID ∧ s.rx_frame[1]? = some fc ∧
      5 ≤ L ∧ L ≤ cfg.MB_FRAME_CHAR_TOTALS ∧ body.length = cfg.MB_FRAME_CHAR_TOTALS ∧
      Words body ∧ s'.tx_frame = withCrc body (L - 2) ∧
      (∀ j, L ≤ j → body.getD j 0 = 0) ∧
      (fc ≠ cfg.MB_FUNC_WRITE_REGISTER → s'.mem = s.mem)) := by
  have hcases : (∃ id, s.rx_frame[0]? = some id ∧ id ≠ cfg.MB_SLAVE_ID ∧
        L = 0 ∧ s' = { s with rx_enabled := 0, tx_enabled := 1,
                               tx_frame := List.replicate cfg.MB_FRAME_CHAR_TOTALS 0 }) ∨
      (∃ fc, s.rx_frame[0]? = some cfg.MB_SLAVE_ID ∧ s.rx_frame[1]? = some fc ∧
        2 ≤ cfg.MB_FRAME_CHAR_TOTALS) := by
    have h := hrun
    unfold modbus_prep_response at h
    try dsimp only at h
    rw [clear_tx_frame_eq cfg _ (by simpa [serial_interrupt_switch] using hs.2.1)] at h
    simp only [ok_bind, serial_interrupt_switch] at h
    obtain ⟨id, h0, h⟩ := bind_eq_ok h
    by_cases hid : id = cfg.MB_SLAVE_ID
    · right
      rw [if_pos hid] at h
      obtain ⟨tx1, hw1, h⟩ := bind_eq_ok h
      obtain ⟨-, rfl⟩ := wr_eq_ok hw1
      try dsimp only at h
      obtain ⟨fc, h1, h⟩ := bind_eq_ok h
      obtain ⟨tx2, hw2, h⟩ := bind_eq_ok h
      have hlt := (wr_eq_ok hw2).1
      simp only [List.length_set, List.length_replicate] at hlt
      exact ⟨fc, hid ▸ rd_eq_ok h0, rd_eq_ok h1, by omega⟩
    · left
      rw [if_neg hid] at h
      obtain ⟨e1, e2⟩ := Prod.mk.inj (Except.ok.inj h)
      exact ⟨id, rd_eq_ok h0, hid, e2.symm, e1.symm⟩
  rcases hcases with ⟨id, h0, hid, hz, he⟩ | ⟨fc, h0, h1, h2c⟩
  · exact Or.inl ⟨hz, ⟨id, h0, hid⟩, he⟩
  · right
    have hlen := dispatchState_length cfg s cfg.MB_SLAVE_ID fc
    have hwd := dispatchState_words cfg s cfg.MB_SLAVE_ID fc
    have hz : ∀ j, 2 ≤ j → (dispatchState cfg s cfg.MB_SLAVE_ID fc).tx_frame.getD j 0 = 0 := by
      intro j hj
      unfold dispatchState
      dsimp only
      rw [getD_set, if_neg (by omega), getD_set, if_neg (by omega), getD_replicate_zero]
    rw [prep_dispatch cfg s fc hs.2.1 h2c h0 h1] at hrun
    refine ⟨fc, ?_⟩
    by_cases hread : fc = cfg.MB_FUNC_READ_HOLDINGREGISTERS ∨
        fc = cfg.MB_FUNC_READ_INPUTREGISTERS
    · rw [if_pos hread] at hrun
      obtain ⟨fc', hi, lo, nhi, nlo, e1, e2, e3, e4, e5, hfit⟩ :=
        modbus_read_func_inv cfg (dispatchState cfg s cfg.MB_SLAVE_ID fc) _
          (by rw [hlen]; exact hc.2.1) hrun
      rw [modbus_read_func_eq cfg (dispatchState cfg s cfg.MB_SLAVE_ID fc) fc' hi lo nhi nlo hwd
        (by rw [hlen]; exact hc.2.1) e1 e2 e3 e4 e5 hfit] at hrun
      obtain ⟨rfl, rfl⟩ := Prod.mk.inj (Except.ok.inj hrun)
      dsimp only
      generalize hbc : u16 (wordOf nhi nlo * 2) = bc at hfit ⊢
      have hev : bc % 2 = 0 := by rw [← hbc]; unfold u16; omega
      have hbw : bc < 65536 := by rw [← hbc]; exact u16_lt _
      have hw2 : Words ((dispatchState cfg s cfg.MB_SLAVE_ID fc).tx_frame.set 2 bc) := by
        have := hwd.set 2 bc
        rwa [u16_of_lt hbw] at this
      refine ⟨fillCells (dispatchState cfg s cfg.MB_SLAVE_ID fc).mem
          (u16 (wordOf hi lo ||| u32 (memory_map cfg fc'))) ((bc + 3) / 4) 0
          ((dispatchState cfg s cfg.MB_SLAVE_ID fc).tx_frame.set 2 bc),
        h0, h1, by omega, by rw [← hlen]; exact hfit, ?_,
        fillCells_words _ _ _ _ _ hw2, ?_, ?_, fun _ => rfl⟩
      · rw [fillCells_length, List.length_set, hlen]
      · unfold readFrame
        rw [show bc + 5 - 2 = 3 + bc by omega]
      · intro j hj
        rw [fillCells_getD _ _ _ _ _ _ (by simp; omega), if_neg (by omega), getD_set,
          if_neg (by omega), hz j (by omega)]
    · rw [if_neg hread] at hrun
      by_cases hwr : fc = cfg.MB_FUNC_WRITE_REGISTER
      · rw [if_pos hwr] at hrun
        subst hwr
        obtain ⟨hi, lo, vhi, vlo, e2, e3, e4, e5, h8⟩ := modbus_write_func_inv cfg
          (dispatchState cfg s cfg.MB_SLAVE_ID cfg.MB_FUNC_WRITE_REGISTER) _ h1 hrun
        rw [modbus_write_func_single cfg
          (dispatchState cfg s cfg.MB_SLAVE_ID cfg.MB_FUNC_WRITE_REGISTER) hi lo vhi vlo hc h8 hwd
          h1 e2 e3 e4 e5] at hrun
        obtain ⟨rfl, rfl⟩ := Prod.mk.inj (Except.ok.inj hrun)
        dsimp only
        have hbody : Words (((((dispatchState cfg s cfg.MB_SLAVE_ID
            cfg.MB_FUNC_WRITE_REGISTER).tx_frame.set 2 (u16 hi)).set 3 (u16 lo)).set 4
            (u16 (wordOf vhi vlo >>> 8))).set 5 (u16 (wordOf vhi vlo % 256))) :=
          (((hwd.set 2 hi).set 3 lo).set 4 _).set 5 _
        rw [u16_of_lt (shr8_lt (wordOf_lt _ _)),
          u16_of_lt (show wordOf vhi vlo % 256 < 65536 by omega)] at hbody
        refine ⟨_, h0, h1, by omega, by rw [← hlen]; exact h8, ?_, hbody, rfl, ?_,
          fun h => absurd rfl h⟩
        · simp only [List.length_set]; exact hlen
        · intro j hj
          rw [getD_set, if_neg (by omega), getD_set, if_neg (by omega), getD_set,
            if_neg (by omega), getD_set, if_neg (by omega), hz j (by omega)]
      · rw [if_neg hwr] at hrun
        have h5 := modbus_error_inv _ (dispatchState cfg s cfg.MB_SLAVE_ID fc) _ hrun
        rw [modbus_error_eq _ (dispatchState cfg s cfg.MB_SLAVE_ID fc) h5 hwd] at hrun
        obtain ⟨rfl, rfl⟩ := Prod.mk.inj (Except.ok.inj hrun)
        dsimp only
        refine ⟨_, h0, h1, by omega, by rw [← hlen]; exact h5, ?_, hwd.set 2 _, rfl, ?_,
          fun _ => rfl⟩
        · simp only [List.length_set]; exact hlen
        · intro j hj
          rw [getD_set, if_neg (by omega), hz j (by omega)]

/-- The state left by `modbus_init` for a baud rate whose double fits 32 bits. -/
theorem modbus_init_eq (b d p : Nat) (s : State) (hb : 0 < b) (hb2 : b < 2 ^ 31) :
    modbus_init b d p s =
      some { s with
        serial_settings := (b, d, p)
        modbus_usTimerT35 := 1540000 / (2 * b)
        rx_enabled := 0
        tx_enabled := 0
        timer_interval := 1540000 / (2 * b) } := by
  have h2 : u32 (2 * b) = 2 * b := u32_of_lt (by omega)
  have h7 : u32 (7 * 220000) = 1540000 := by decide
  unfold modbus_init
  dsimp only
  rw [h2, h7, if_neg (by omega)]
  rfl

/-- The bit loop ends on a `Uint16` value when it starts on one. -/
theorem crcBits_lt : ∀ (i : Nat) (crc : Nat), crc < 65536 → crcBits i crc < 65536 := by
  intro i
  induction i with
  | zero => intro crc h; exact h
  | succ i ih =>
    intro crc h
    unfold crcBits
    split_ifs
    · exact ih _ (u16_lt _)
    · exact ih _ (u16_lt _)

/-- On a value whose low `i` bits are clear the bit loop is a shift by `i`. -/
theorem crcBits_shift : ∀ (i : Nat) (x : Nat), x < 65536 → x % 2 ^ i = 0 →
    crcBits i x = x >>> i := by
  intro i
  induction i with
  | zero => intro x _ _; rfl
  | succ i ih =>
    intro x hx hm
    have h2 : x % 2 = 0 := by
      have : 2 ∣ x := Dvd.dvd.trans (Dvd.intro_left (2 ^ i) rfl) (Nat.dvd_of_mod_eq_zero hm)
      omega
    have hand : x &&& 0x0001 = 0 := by
      have := Nat.and_pow_two_sub_one_eq_mod x 1
      simp only [pow_one, Nat.add_one_sub_one] at this
      rw [this, h2]
    unfold crcBits
    rw [if_neg (by simp [hand])]
    have hs : x >>> 1 = x / 2 := by rw [Nat.shiftRight_eq_div_pow, pow_one]
    rw [hs, u16_of_lt (by omega)]
    have hm' : (x / 2) % 2 ^ i = 0 := by
      obtain ⟨c, hc⟩ := Nat.dvd_of_mod_eq_zero hm
      have : x / 2 = 2 ^ i * c := by
        rw [hc, pow_succ, Nat.mul_assoc, Nat.mul_comm 2 c, ← Nat.mul_assoc]
        exact Nat.mul_div_cancel _ (by decide)
      rw [this]
      exact Nat.mul_mod_right _ _
    rw [ih (x / 2) (by omega) hm', Nat.shiftRight_eq_div_pow, Nat.shiftRight_eq_div_pow,
      Nat.div_div_eq_div_mul, pow_succ, Nat.mul_comm]

/-- XOR with its own low byte clears the low byte. -/
theorem xor_low_byte (c : Nat) : c ^^^ (c &&& 0x00FF) = 256 * (c >>> 8) := by
  apply Nat.eq_of_testBit_eq
  intro j
  rw [Nat.testBit_xor, Nat.testBit_and, show (256 : Nat) = 2 ^ 8 from rfl,
    Nat.testBit_mul_pow_two, Nat.testBit_shiftRight]
  by_cases hj : j < 8
  · have hff : Nat.testBit 0x00FF j = true := by
      have : j = 0 ∨ j = 1 ∨ j = 2 ∨ j = 3 ∨ j = 4 ∨ j = 5 ∨ j = 6 ∨ j = 7 := by omega
      rcases this with rfl | rfl | rfl | rfl | rfl | rfl | rfl | rfl <;> rfl
    simp [hff, hj]
  · have hff : Nat.testBit 0x00FF j = false :=
      Nat.testBit_lt_two_pow (lt_of_lt_of_le (by decide : 0xFF < 2 ^ 8)
        (Nat.pow_le_pow_right (by decide) (by omega)))
    have h8 : 8 ≤ j := by omega
    simp [hff, h8, Nat.add_sub_cancel' h8]

/-- Feeding the low byte and then the high byte of a CRC value into the byte
step of `generate_crc` gives 0. -/
theorem crc_step_residue (c : Nat) (hc : c < 65536) :
    crcBits 8 (u16 (crcBits 8 (u16 (c ^^^ u16 (c &&& 0x00FF))) ^^^ u16 (c >>> 8))) = 0 := by
  have hlo : c &&& 0x00FF < 65536 := by rw [and_ff]; omega
  have hhi : c >>> 8 < 256 := by rw [Nat.shiftRight_eq_div_pow]; omega
  rw [u16_of_lt hlo, xor_low_byte, u16_of_lt (show 256 * (c >>> 8) < 65536 by omega),
    crcBits_shift 8 (256 * (c >>> 8)) (by omega) (by omega)]
  have : (256 * (c >>> 8)) >>> 8 = c >>> 8 := by
    rw [Nat.shiftRight_eq_div_pow (256 * (c >>> 8))]
    exact Nat.mul_div_cancel_left _ (by decide)
  rw [this, u16_of_lt (show c >>> 8 < 65536 by omega), Nat.xor_self]
  decide

theorem crcLoop_succ (buf : List Nat) (n pos crc : Nat) :
    crcLoop buf (n + 1) pos crc =
      match rd buf pos with
      | .ok b => crcLoop buf n (pos + 1) (crcBits 8 (u16 (crc ^^^ u16 b)))
      | .error e => .error e := rfl

/-- The byte loop of `generate_crc` can be cut at any position. -/
theorem crcLoop_add (buf : List Nat) : ∀ (a b pos crc : Nat),
    crcLoop buf (a + b) pos crc = crcLoop buf a pos crc >>= fun c => crcLoop buf b (pos + a) c := by
  intro a
  induction a with
  | zero => intro b pos crc; simp [crcLoop]
  | succ a ih =>
    intro b pos crc
    rw [show a + 1 + b = (a + b) + 1 by omega, crcLoop_succ buf (a + b), crcLoop_succ buf a]
    cases hr : rd buf pos with
    | error e => rfl
    | ok v =>
      dsimp only
      rw [ih, show pos + 1 + a = pos + (a + 1) by omega]

/-- The byte loop of `generate_crc` reads only the entries it is asked to. -/
theorem crcLoop_congr (buf buf' : List Nat) : ∀ (n pos crc : Nat),
    (∀ i, pos ≤ i → i < pos + n → buf'[i]? = buf[i]?) →
    ∀ r, crcLoop buf n pos crc = .ok r → crcLoop buf' n pos crc = .ok r := by
  intro n
  induction n with
  | zero => intro pos crc _ r h; exact h
  | succ n ih =>
    intro pos crc hag r h
    unfold crcLoop at h ⊢
    cases hr : rd buf pos with
    | error e => rw [hr] at h; exact absurd h (by simp)
    | ok v =>
      rw [hr] at h
      dsimp only at h
      have hv := rd_eq_ok hr
      rw [rd_of_getElem? ((hag pos (le_refl _) (by omega)).trans hv)]
      dsimp only
      exact ih (pos + 1) _ (fun i h1 h2 => hag i (by omega) (by omega)) r h

/-- The byte loop of `generate_crc` ends on a `Uint16` value. -/
theorem crcLoop_lt (buf : List Nat) : ∀ (n pos crc r : Nat), crc < 65536 →
    crcLoop buf n pos crc = .ok r → r < 65536 := by
  intro n
  induction n with
  | zero =>
    intro pos crc r hc h
    unfold crcLoop at h
    rw [← Except.ok.inj h]
    exact hc
  | succ n ih =>
    intro pos crc r hc h
    unfold crcLoop at h
    cases hr : rd buf pos with
    | error e => rw [hr] at h; exact absurd h (by simp)
    | ok v =>
      rw [hr] at h
      exact ih (pos + 1) _ r (crcBits_lt 8 _ (u16_lt _)) h

/-- CRC residue: a frame followed by its CRC, low byte first, has CRC 0. -/
theorem generate_crc_residue (buf buf' : List Nat) (n c : Nat)
    (hcrc : generate_crc buf (n : Int) = .ok c)
    (hag : ∀ i, i < n → buf'[i]? = buf[i]?)
    (hlo : buf'[n]? = some (c &&& 0xFF)) (hhi : buf'[n + 1]? = some (c >>> 8)) :
    generate_crc buf' ((n + 2 : Nat) : Int) = .ok 0 := by
  unfold generate_crc at hcrc ⊢
  rw [Int.toNat_ofNat] at hcrc ⊢
  have hc : c < 65536 := crcLoop_lt buf n 0 0xFFFF c (by decide) hcrc
  have h1 := crcLoop_congr buf buf' n 0 0xFFFF (fun i _ h => hag i (by omega)) c hcrc
  rw [crcLoop_add, h1]
  simp only [ok_bind, Nat.zero_add]
  unfold crcLoop
  rw [rd_of_getElem? hlo]
  dsimp only
  unfold crcLoop
  rw [rd_of_getElem? hhi]
  dsimp only
  unfold crcLoop
  rw [crc_step_residue c hc]

/-- The four wire bytes of a cell are the big-endian bytes of its low half
followed by those of its high half. -/
theorem wireByte_half (c p : Nat) (hp : p < 2) :
    wireByte c (2 * p) = ((c >>> (16 * p)) &&& 0xFFFF) >>> 8 ∧
    wireByte c (2 * p + 1) = ((c >>> (16 * p)) &&& 0xFFFF) &&& 0xFF := by
  have hm : ∀ x : Nat, x &&& 0xFFFF = x % 65536 := fun x =>
    Nat.and_pow_two_sub_one_eq_mod x 16
  have hff : ∀ x : Nat, x &&& 0xFF = x % 256 := and_ff
  have hs : ∀ x : Nat, x >>> 8 = x / 256 := fun x => by
    rw [Nat.shiftRight_eq_div_pow]
  have h24 : c >>> 24 = (c >>> 16) >>> 8 := by
    rw [← Nat.shiftRight_add]
  have w0 : wireByte c 0 = (c >>> 8) &&& 0xFF := rfl
  have w1 : wireByte c 1 = c &&& 0xFF := rfl
  have w2 : wireByte c 2 = (c >>> 24) &&& 0xFF := rfl
  have w3 : wireByte c 3 = (c >>> 16) &&& 0xFF := rfl
  have hcases : p = 0 ∨ p = 1 := by omega
  rcases hcases with rfl | rfl
  · simp only [Nat.mul_zero, Nat.zero_add, Nat.shiftRight_zero, w0, w1, hm, hs, hff]
    constructor <;> omega
  · simp only [Nat.mul_one, show 2 + 1 = 3 from rfl, w2, w3, h24, hm, hs, hff]
    constructor <;> omega

theorem bind_eq_error {α β : Type} {x : Exec α} {f : α → Exec β} {e : Fault}
    (h : (x >>= f) = .error e) : x = .error e ∨ ∃ a, x = .ok a ∧ f a = .error e := by
  cases x with
  | error e' => exact Or.inl (by simpa using h)
  | ok a => exact Or.inr ⟨a, rfl, h⟩

theorem rd_eq_error {buf : List Nat} {i : Nat} {e : Fault} (h : rd buf i = .error e) :
    e = Fault.outOfBounds := by
  unfold rd at h
  split at h
  · exact absurd h (by simp)
  · exact (Except.error.inj h).symm

theorem wr_eq_error {buf : List Nat} {i v : Nat} {e : Fault} (h : wr buf i v = .error e) :
    e = Fault.outOfBounds := by
  unfold wr at h
  split at h
  · exact absurd h (by simp)
  · exact (Except.error.inj h).symm

/-- The byte loop of `generate_crc` faults only on a read past the buffer. -/
theorem crcLoop_eq_error (buf : List Nat) : ∀ (n pos crc : Nat) (e : Fault),
    crcLoop buf n pos crc = .error e → e = Fault.outOfBounds := by
  intro n
  induction n with
  | zero => intro pos crc e h; exact absurd h (by simp [crcLoop])
  | succ n ih =>
    intro pos crc e h
    rw [crcLoop_succ] at h
    cases hr : rd buf pos with
    | error e' =>
      rw [hr] at h
      exact (Except.error.inj h) ▸ rd_eq_error hr
    | ok v =>
      rw [hr] at h
      exact ih _ _ e h

/-- With fuel for more iterations than the frame has groups, the read loop
faults only on an access past the buffer. -/
theorem readLoop_eq_error (mem : Nat → Nat) (base : Nat) :
    ∀ (fuel k : Nat) (tx : List Nat) (e : Fault), 4 * k ≤ tx.length →
      tx.length < 4 * (k + fuel) → tx.length < 32768 →
      readLoop mem base fuel (4 * k) k tx = .error e → e = Fault.outOfBounds := by
  intro fuel
  induction fuel with
  | zero => intro k tx e hk hf _ _; omega
  | succ fuel ih =>
    intro k tx e hk hf hL h
    unfold readLoop at h
    rcases bind_eq_error h with h | ⟨bound, -, h⟩
    · exact rd_eq_error h
    · by_cases hlt : 4 * k < bound
      · rw [if_pos hlt] at h
        by_cases hfit : 3 + 4 * k + 3 < tx.length
        · have e1 : 4 * k / 2 = 2 * k := by omega
          have e2 : u16 (4 * k + 4) = 4 * (k + 1) := by rw [u16_of_lt (by omega)]; omega
          have e3 : u16 (k + 1) = k + 1 := u16_of_lt (by omega)
          rw [e1, e2, e3, read_body tx k _ hfit (by omega)] at h
          exact ih (k + 1) _ e (by rw [putCell_length]; omega) (by rw [putCell_length]; omega)
            (by rw [putCell_length]; exact hL) h
        · rw [read_body_fault tx k _ (by omega) (by omega)] at h
          exact (Except.error.inj h).symm
      · rw [if_neg hlt] at h
        exact absurd h (by simp [pure, Except.pure])

/-- The read handler faults only on an access past a buffer. -/
theorem modbus_read_func_eq_error (cfg : Config) (d : State) (e : Fault)
    (hL : d.tx_frame.length < 32768) (h : modbus_read_func cfg d = .error e) :
    e = Fault.outOfBounds := by
  unfold modbus_read_func at h
  rcases bind_eq_error h with h | ⟨fc, -, h⟩
  · exact rd_eq_error h
  rcases bind_eq_error h with h | ⟨hi, -, h⟩
  · exact rd_eq_error h
  rcases bind_eq_error h with h | ⟨lo, -, h⟩
  · exact rd_eq_error h
  rcases bind_eq_error h with h | ⟨nhi, -, h⟩
  · exact rd_eq_error h
  rcases bind_eq_error h with h | ⟨nlo, -, h⟩
  · exact rd_eq_error h
  try dsimp only [serial_tx_frame_calc] at h
  rcases bind_eq_error h with h | ⟨tx1, hw1, h⟩
  · exact wr_eq_error h
  obtain ⟨-, rfl⟩ := wr_eq_ok hw1
  rcases bind_eq_error h with h | ⟨tx2, -, h⟩
  · exact readLoop_eq_error d.mem _ loopFuel 0 _ e (by omega)
      (by rw [List.length_set]; unfold loopFuel; omega) (by rw [List.length_set]; exact hL) h
  rcases bind_eq_error h with h | ⟨bytes, -, h⟩
  · exact rd_eq_error h
  rcases bind_eq_error h with h | ⟨crc, -, h⟩
  · exact crcLoop_eq_error _ _ _ _ e h
  rcases bind_eq_error h with h | ⟨tx3, -, h⟩
  · exact wr_eq_error h
  rcases bind_eq_error h with h | ⟨tx4, -, h⟩
  · exact wr_eq_error h
  exact absurd h (by simp [pure, Except.pure])

/-- C1: `generate_crc(buf, len)` is the reference Modbus CRC16 of the first `len`
entries of `buf`, for every buffer of bytes and every `len ≥ 0` within the
buffer; the canonical vector `01 03 00 00 00 01` gives `0x0A84`, and length 0
gives `0xFFFF`. -/
theorem C1_generate_crc_reference (buf : List Nat) (len : Int)
    (hb : ∀ b ∈ buf, b < 256) (h0 : 0 ≤ len) (hlen : len ≤ (buf.length : Int)) :
    generate_crc buf len = .ok (refCrc16 (buf.take len.toNat)) ∧
    generate_crc [0x01, 0x03, 0x00, 0x00, 0x00, 0x01] 6 = .ok 0x0A84 ∧
    generate_crc buf 0 = .ok 0xFFFF := by
  refine ⟨?_, by decide, rfl⟩
  obtain ⟨n, rfl⟩ := Int.eq_ofNat_of_zero_le h0
  have hn : n ≤ buf.length := by exact_mod_cast hlen
  simpa using generate_crc_eq_ref buf (fun b hm => by have := hb b hm; omega) n hn

/-- Witness of C1 on the buffer `11 22 33 44` with length 3. -/
theorem C1_generate_crc_reference_witness :
    generate_crc [0x11, 0x22, 0x33, 0x44] 3 =
        .ok (refCrc16 ([0x11, 0x22, 0x33, 0x44].take (3 : Int).toNat)) ∧
    generate_crc [0x01, 0x03, 0x00, 0x00, 0x00, 0x01] 6 = .ok 0x0A84 ∧
    generate_crc [0x11, 0x22, 0x33, 0x44] 0 = .ok 0xFFFF :=
  C1_generate_crc_reference [0x11, 0x22, 0x33, 0x44] 3 (by decide) (by decide) (by decide)

/-- C2: processing the write-single-register frame for wire address `A` and
value `V`, then the read-holding-registers frame for `A` with quantity 1, yields
a read answer of length 7 with `tx_frame[2] = 2`, `tx_frame[3] = V_hi` and
`tx_frame[4] = V_lo`. -/
theorem C2_write_then_read_round_trip (cfg : Config) (s : State) (rx2 : List Nat) (A V : Nat)
    (hc : cfg.WF) (hs : s.WF cfg) (hcap : 8 ≤ cfg.MB_FRAME_CHAR_TOTALS)
    (hA : A < 65536) (hV : V < 65536)
    (hwr : s.rx_frame.take 6 =
      [cfg.MB_SLAVE_ID, cfg.MB_FUNC_WRITE_REGISTER, A / 256, A % 256, V / 256, V % 256])
    (hrd : rx2.take 6 =
      [cfg.MB_SLAVE_ID, cfg.MB_FUNC_READ_HOLDINGREGISTERS, A / 256, A % 256, 0x00, 0x01]) :
    ∃ s1 s2, modbus_prep_response cfg s = .ok (s1, 8) ∧
      modbus_prep_response cfg { s1 with rx_frame := rx2 } = .ok (s2, 7) ∧
      s2.tx_frame[2]? = some 2 ∧ s2.tx_frame[3]? = some (V / 256) ∧
      s2.tx_frame[4]? = some (V % 256) := by
  have hrun1 := prep_write_single cfg s (A / 256) (A % 256) (V / 256) (V % 256) hc hs.2.1 hcap
    (getElem?_of_take_eq hwr 0 (by decide)) (getElem?_of_take_eq hwr 1 (by decide))
    (getElem?_of_take_eq hwr 2 (by decide)) (getElem?_of_take_eq hwr 3 (by decide))
    (getElem?_of_take_eq hwr 4 (by decide)) (getElem?_of_take_eq hwr 5 (by decide))
  rw [div_mod_word hA, div_mod_word hV] at hrun1
  generalize hs1 : ({ dispatchState cfg s cfg.MB_SLAVE_ID cfg.MB_FUNC_WRITE_REGISTER with
      tx_frame := withCrc (((((dispatchState cfg s cfg.MB_SLAVE_ID
        cfg.MB_FUNC_WRITE_REGISTER).tx_frame.set 2 (u16 (A / 256))).set 3 (u16 (A % 256))).set 4
        (V >>> 8)).set 5 (V % 256)) 6
      mem := store s.mem (u16 (A ||| 0x8000)) V } : State) = s1 at hrun1
  have hl1 : s1.tx_frame.length = cfg.MB_FRAME_CHAR_TOTALS := by
    rw [← hs1]; simp [withCrc_length, dispatchState]
  have hm1 : s1.mem = store s.mem (u16 (A ||| 0x8000)) V := by rw [← hs1]
  have hfit : u16 (wordOf 0 1 * 2) + 5 ≤ cfg.MB_FRAME_CHAR_TOTALS := by
    have : u16 (wordOf 0 1 * 2) = 2 := rfl
    omega
  have hrun2 := prep_read cfg { s1 with rx_frame := rx2 } cfg.MB_FUNC_READ_HOLDINGREGISTERS
    (A / 256) (A % 256) 0 1 hc hl1
    (getElem?_of_take_eq hrd 0 (by decide)) (getElem?_of_take_eq hrd 1 (by decide))
    (Or.inl rfl)
    (getElem?_of_take_eq hrd 2 (by decide)) (getElem?_of_take_eq hrd 3 (by decide))
    (getElem?_of_take_eq hrd 4 (by decide)) (getElem?_of_take_eq hrd 5 (by decide)) hfit
  rw [div_mod_word hA, show u16 (wordOf 0 1 * 2) = 2 from rfl] at hrun2
  refine ⟨s1, _, hrun1, hrun2, ?_, ?_, ?_⟩
  · dsimp only
    rw [getElem?_of_getD (by rw [readFrame_length, dispatchState_length]; omega),
      readFrame_getD _ _ _ _ _ (by rw [dispatchState_length]; omega) (by decide) (by decide),
      if_neg (by decide), if_pos rfl]
  · dsimp only
    rw [getElem?_of_getD (by rw [readFrame_length, dispatchState_length]; omega),
      readFrame_getD _ _ _ _ _ (by rw [dispatchState_length]; omega) (by decide) (by decide),
      if_pos (by decide), hm1]
    have e : u16 (u16 (A ||| 0x8000) + 2 * ((3 - 3) / 4)) = u16 (A ||| 0x8000) := by
      rw [show 2 * ((3 - 3) / 4) = 0 from rfl, Nat.add_zero, u16_of_lt (u16_lt _)]
    rw [e, store_same, u32_of_lt (by omega)]
    exact congrArg some (wireByte_hi hV)
  · dsimp only
    rw [getElem?_of_getD (by rw [readFrame_length, dispatchState_length]; omega),
      readFrame_getD _ _ _ _ _ (by rw [dispatchState_length]; omega) (by decide) (by decide),
      if_pos (by decide), hm1]
    have e : u16 (u16 (A ||| 0x8000) + 2 * ((4 - 3) / 4)) = u16 (A ||| 0x8000) := by
      rw [show 2 * ((4 - 3) / 4) = 0 from rfl, Nat.add_zero, u16_of_lt (u16_lt _)]
    rw [e, store_same, u32_of_lt (by omega)]
    exact congrArg some (wireByte_lo V)

set_option maxRecDepth 100000 in
/-- Witness of C2: value 0xABCD written to and read back from address 0x1234. -/
theorem C2_write_then_read_round_trip_witness :
    ∃ s1 s2, modbus_prep_response stdConfig
        (requestState stdConfig [1, 6, 0x12, 0x34, 0xAB, 0xCD] 0) = .ok (s1, 8) ∧
      modbus_prep_response stdConfig { s1 with rx_frame := [1, 3, 0x12, 0x34, 0, 1, 0, 0] } =
        .ok (s2, 7) ∧
      s2.tx_frame[2]? = some 2 ∧ s2.tx_frame[3]? = some (0xABCD / 256) ∧
      s2.tx_frame[4]? = some (0xABCD % 256) :=
  C2_write_then_read_round_trip stdConfig (requestState stdConfig [1, 6, 0x12, 0x34, 0xAB, 0xCD] 0)
    [1, 3, 0x12, 0x34, 0, 1, 0, 0] 0x1234 0xABCD (by decide) (by decide) (by decide) (by decide)
    (by decide) (by decide) (by decide)

/-- C3: a frame whose first entry differs from `MB_SLAVE_ID` is dropped:
`modbus_prep_response` returns 0, every entry of `tx_frame` is 0 and the store
is untouched. -/
theorem C3_address_mismatch_silent_drop (cfg : Config) (s : State) (id : Nat)
    (hs : s.WF cfg) (h0 : s.rx_frame[0]? = some id) (hid : id ≠ cfg.MB_SLAVE_ID) :
    ∃ s', modbus_prep_response cfg s = .ok (s', 0) ∧
      s'.tx_frame.length = cfg.MB_FRAME_CHAR_TOTALS ∧ (∀ x ∈ s'.tx_frame, x = 0) ∧
      s'.mem = s.mem := by
  refine ⟨_, prep_mismatch cfg s id hs.2.1 h0 hid, by simp, ?_, rfl⟩
  intro x hx
  exact List.eq_of_mem_replicate hx

set_option maxRecDepth 100000 in
/-- Witness of C3: a read request addressed to slave 2 reaches slave 1. -/
theorem C3_address_mismatch_silent_drop_witness :
    ∃ s', modbus_prep_response stdConfig (requestState stdConfig [2, 3, 0, 0, 0, 1] 0) =
        .ok (s', 0) ∧
      s'.tx_frame.length = stdConfig.MB_FRAME_CHAR_TOTALS ∧ (∀ x ∈ s'.tx_frame, x = 0) ∧
      s'.mem = (requestState stdConfig [2, 3, 0, 0, 0, 1] 0).mem :=
  C3_address_mismatch_silent_drop stdConfig (requestState stdConfig [2, 3, 0, 0, 0, 1] 0) 2
    (by decide) (by decide) (by decide)

/-- C4: a frame for this slave whose function code is none of read-holding,
read-input, write-single, write-multiple is answered with the 5 entries
slave address, function code, `MB_ERROR_ILLEGALFUNC`, CRC low, CRC high, the CRC
being that of the first three. -/
theorem C4_illegal_function_response (cfg : Config) (s : State) (fc : Nat)
    (hc : cfg.WF) (hs : s.WF cfg) (hcap : 5 ≤ cfg.MB_FRAME_CHAR_TOTALS)
    (h0 : s.rx_frame[0]? = some cfg.MB_SLAVE_ID) (h1 : s.rx_frame[1]? = some fc)
    (hrh : fc ≠ cfg.MB_FUNC_READ_HOLDINGREGISTERS)
    (hri : fc ≠ cfg.MB_FUNC_READ_INPUTREGISTERS)
    (hws : fc ≠ cfg.MB_FUNC_WRITE_REGISTER)
    (_hwn : fc ≠ cfg.MB_FUNC_WRITE_NREGISTERS) :
    ∃ s' crc, modbus_prep_response cfg s = .ok (s', 5) ∧
      generate_crc [cfg.MB_SLAVE_ID, fc, cfg.MB_ERROR_ILLEGALFUNC] 3 = .ok crc ∧
      s'.tx_frame.take 5 =
        [cfg.MB_SLAVE_ID, fc, cfg.MB_ERROR_ILLEGALFUNC, crc &&& 0xFF, crc >>> 8] := by
  have hfc : fc < 65536 := hs.2.2.1 fc (mem_of_getElem?_eq h1)
  have hid : cfg.MB_SLAVE_ID < 65536 := hc.2.2.1
  have hill : cfg.MB_ERROR_ILLEGALFUNC < 65536 := hc.2.2.2.1
  have hlen := dispatchState_length cfg s cfg.MB_SLAVE_ID fc
  have e3 : ((dispatchState cfg s cfg.MB_SLAVE_ID fc).tx_frame.set 2
      (u16 cfg.MB_ERROR_ILLEGALFUNC)).take 3 =
      [cfg.MB_SLAVE_ID, fc, cfg.MB_ERROR_ILLEGALFUNC] := by
    rw [take_eq_map_getD _ 3 (by simp [hlen]; omega), show List.range 3 = [0, 1, 2] from rfl]
    have h1c : 1 < cfg.MB_FRAME_CHAR_TOTALS := by omega
    have h2c : 2 < cfg.MB_FRAME_CHAR_TOTALS := by omega
    have h0c : 0 < cfg.MB_FRAME_CHAR_TOTALS := by omega
    simp [dispatchState, getD_set, getD_replicate_zero, u16_of_lt, hfc, hid, hill, h0c, h1c, h2c]
  have hrun := prep_dispatch cfg s fc hs.2.1 (by omega) h0 h1
  rw [if_neg (by tauto), if_neg hws,
    modbus_error_eq _ _ (by rw [hlen]; exact hcap) (dispatchState_words cfg s _ fc), e3] at hrun
  refine ⟨_, refCrc16 [cfg.MB_SLAVE_ID, fc, cfg.MB_ERROR_ILLEGALFUNC], hrun, ?_, ?_⟩
  · have := generate_crc_eq_ref [cfg.MB_SLAVE_ID, fc, cfg.MB_ERROR_ILLEGALFUNC]
      (by intro b hb; simp at hb; rcases hb with rfl | rfl | rfl <;> assumption) 3 (by simp)
    simpa using this
  · dsimp only
    rw [take_eq_map_getD _ 5 (by simp [hlen]; omega),
      show List.range 5 = [0, 1, 2, 3, 4] from rfl]
    have h1c : 1 < cfg.MB_FRAME_CHAR_TOTALS := by omega
    have h2c : 2 < cfg.MB_FRAME_CHAR_TOTALS := by omega
    have h3c : 3 < cfg.MB_FRAME_CHAR_TOTALS := by omega
    have h4c : 4 < cfg.MB_FRAME_CHAR_TOTALS := by omega
    have h0c : 0 < cfg.MB_FRAME_CHAR_TOTALS := by omega
    simp [dispatchState, getD_set, getD_replicate_zero, u16_of_lt, hfc, hid, hill,
      h0c, h1c, h2c, h3c, h4c]

set_option maxRecDepth 100000 in
/-- Witness of C4: function code 0x2B sent to slave 1. -/
theorem C4_illegal_function_response_witness :
    ∃ s' crc, modbus_prep_response stdConfig (requestState stdConfig [1, 0x2B, 0, 0, 0, 1] 0) =
        .ok (s', 5) ∧
      generate_crc [stdConfig.MB_SLAVE_ID, 0x2B, stdConfig.MB_ERROR_ILLEGALFUNC] 3 = .ok crc ∧
      s'.tx_frame.take 5 =
        [stdConfig.MB_SLAVE_ID, 0x2B, stdConfig.MB_ERROR_ILLEGALFUNC, crc &&& 0xFF, crc >>> 8] :=
  C4_illegal_function_response stdConfig (requestState stdConfig [1, 0x2B, 0, 0, 0, 1] 0) 0x2B
    (by decide) (by decide) (by decide) (by decide) (by decide) (by decide) (by decide)
    (by decide) (by decide)

/-- C5 (defect of the dispatcher): a write-multiple-registers frame for
this slave is not handed to `modbus_write_func`; `modbus_prep_response` returns
5, the answer is the illegal-function error frame, and the store is unchanged. -/
theorem C5_write_multiple_answered_with_error (cfg : Config) (s : State)
    (hc : cfg.WF) (hs : s.WF cfg) (hcap : 5 ≤ cfg.MB_FRAME_CHAR_TOTALS)
    (h0 : s.rx_frame[0]? = some cfg.MB_SLAVE_ID)
    (h1 : s.rx_frame[1]? = some cfg.MB_FUNC_WRITE_NREGISTERS) :
    ∃ s', modbus_prep_response cfg s = .ok (s', 5) ∧
      s'.tx_frame[2]? = some cfg.MB_ERROR_ILLEGALFUNC ∧ s'.mem = s.mem := by
  obtain ⟨-, -, hrh, hri, hws⟩ := hc.dispatch
  have hlen := dispatchState_length cfg s cfg.MB_SLAVE_ID cfg.MB_FUNC_WRITE_NREGISTERS
  have hrun := prep_dispatch cfg s _ hs.2.1 (by omega) h0 h1
  rw [if_neg (by tauto), if_neg hws,
    modbus_error_eq _ _ (by rw [hlen]; exact hcap) (dispatchState_words cfg s _ _)] at hrun
  refine ⟨_, hrun, ?_, rfl⟩
  dsimp only
  rw [getElem?_of_getD (by simp [hlen]; omega)]
  have h2c : 2 < cfg.MB_FRAME_CHAR_TOTALS := by omega
  simp [dispatchState, getD_set, getD_replicate_zero, u16_of_lt hc.2.2.2.1, h2c]

set_option maxRecDepth 100000 in
/-- Witness of C5: writing the two registers 0x1234, 0x5678 at address 0. -/
theorem C5_write_multiple_answered_with_error_witness :
    ∃ s', modbus_prep_response stdConfig
        (requestState stdConfig [1, 16, 0, 0, 0, 2, 4, 0x12, 0x34, 0x56, 0x78] 0) = .ok (s', 5) ∧
      s'.tx_frame[2]? = some stdConfig.MB_ERROR_ILLEGALFUNC ∧
      s'.mem = (requestState stdConfig [1, 16, 0, 0, 0, 2, 4, 0x12, 0x34, 0x56, 0x78] 0).mem :=
  C5_write_multiple_answered_with_error stdConfig
    (requestState stdConfig [1, 16, 0, 0, 0, 2, 4, 0x12, 0x34, 0x56, 0x78] 0)
    (by decide) (by decide) (by decide) (by decide) (by decide)

/-- C6: a write-single-register frame for this slave sets the cell at
`(rx[2]<<8 | rx[3]) | 0x8000` to the 16-bit value `rx[4]<<8 | rx[5]` (so its high
16 bits are 0), leaves every other cell unchanged, returns 8, and answers with
`rx_frame[0..5]` followed by the CRC of those 6 bytes, low byte first. -/
theorem C6_write_single_register (cfg : Config) (s : State) (hi lo vhi vlo : Nat)
    (hc : cfg.WF) (hs : s.WF cfg) (hcap : 8 ≤ cfg.MB_FRAME_CHAR_TOTALS)
    (h0 : s.rx_frame[0]? = some cfg.MB_SLAVE_ID)
    (h1 : s.rx_frame[1]? = some cfg.MB_FUNC_WRITE_REGISTER)
    (h2 : s.rx_frame[2]? = some hi) (h3 : s.rx_frame[3]? = some lo)
    (h4 : s.rx_frame[4]? = some vhi) (h5 : s.rx_frame[5]? = some vlo)
    (bhi : hi < 256) (blo : lo < 256) (bvhi : vhi < 256) (bvlo : vlo < 256) :
    ∃ s' crc, modbus_prep_response cfg s = .ok (s', 8) ∧
      s'.mem ((hi <<< 8 ||| lo) ||| 0x8000) = (vhi <<< 8 ||| vlo) ∧
      (vhi <<< 8 ||| vlo) < 65536 ∧
      (∀ a, a ≠ ((hi <<< 8 ||| lo) ||| 0x8000) → s'.mem a = s.mem a) ∧
      generate_crc [cfg.MB_SLAVE_ID, cfg.MB_FUNC_WRITE_REGISTER, hi, lo, vhi, vlo] 6 = .ok crc ∧
      s'.tx_frame.take 8 =
        [cfg.MB_SLAVE_ID, cfg.MB_FUNC_WRITE_REGISTER, hi, lo, vhi, vlo,
          crc &&& 0xFF, crc >>> 8] := by
  have hfc : cfg.MB_FUNC_WRITE_REGISTER < 65536 := hs.2.2.1 _ (mem_of_getElem?_eq h1)
  have hid : cfg.MB_SLAVE_ID < 65536 := hc.2.2.1
  have hv : wordOf vhi vlo = vhi <<< 8 ||| vlo := wordOf_bytes bvhi bvlo
  have ha : u16 (wordOf hi lo ||| 0x8000) = (hi <<< 8 ||| lo) ||| 0x8000 := by
    rw [u16_of_lt (or_8000_lt (wordOf_lt _ _)), wordOf_bytes bhi blo]
  have hvl : vhi <<< 8 ||| vlo < 65536 := by rw [← hv]; exact wordOf_lt _ _
  have hrun := prep_write_single cfg s hi lo vhi vlo hc hs.2.1 hcap h0 h1 h2 h3 h4 h5
  have hbody : (((((dispatchState cfg s cfg.MB_SLAVE_ID
      cfg.MB_FUNC_WRITE_REGISTER).tx_frame.set 2 (u16 hi)).set 3 (u16 lo)).set 4
      (wordOf vhi vlo >>> 8)).set 5 (wordOf vhi vlo % 256)).take 6 =
      [cfg.MB_SLAVE_ID, cfg.MB_FUNC_WRITE_REGISTER, hi, lo, vhi, vlo] := by
    rw [take_eq_map_getD _ 6 (by simp [dispatchState]; omega),
      show List.range 6 = [0, 1, 2, 3, 4, 5] from rfl]
    have l0 : 0 < cfg.MB_FRAME_CHAR_TOTALS := by omega
    have l1 : 1 < cfg.MB_FRAME_CHAR_TOTALS := by omega
    have l2 : 2 < cfg.MB_FRAME_CHAR_TOTALS := by omega
    have l3 : 3 < cfg.MB_FRAME_CHAR_TOTALS := by omega
    have l4 : 4 < cfg.MB_FRAME_CHAR_TOTALS := by omega
    have l5 : 5 < cfg.MB_FRAME_CHAR_TOTALS := by omega
    simp [dispatchState, getD_set, getD_replicate_zero, u16_of_lt, hfc, hid,
      wordOf_bytes_hi bvhi bvlo, wordOf_bytes_lo bvhi bvlo,
      show hi < 65536 by omega, show lo < 65536 by omega, l0, l1, l2, l3, l4, l5]
  rw [ha, hv] at hrun
  rw [hv] at hbody
  refine ⟨_, refCrc16 [cfg.MB_SLAVE_ID, cfg.MB_FUNC_WRITE_REGISTER, hi, lo, vhi, vlo], hrun,
    ?_, hvl, ?_, ?_, ?_⟩
  · dsimp only
    rw [store_same, u32_of_lt (by omega)]
  · intro a hne
    exact store_other _ _ hne
  · have := generate_crc_eq_ref [cfg.MB_SLAVE_ID, cfg.MB_FUNC_WRITE_REGISTER, hi, lo, vhi, vlo]
      (by intro b hb; simp at hb; rcases hb with rfl | rfl | rfl | rfl | rfl | rfl <;> omega)
      6 (by simp)
    simpa using this
  · dsimp only
    refine (withCrc_take_succ _ 6 ?_).trans ?_
    · simp [dispatchState]; omega
    · rw [hbody]; rfl

set_option maxRecDepth 100000 in
/-- Witness of C6: value 0xABCD written at wire address 0x1234. -/
theorem C6_write_single_register_witness :
    ∃ s' crc, modbus_prep_response stdConfig
        (requestState stdConfig [1, 6, 0x12, 0x34, 0xAB, 0xCD] 0xDEADBEEF) = .ok (s', 8) ∧
      s'.mem ((0x12 <<< 8 ||| 0x34) ||| 0x8000) = (0xAB <<< 8 ||| 0xCD) ∧
      (0xAB <<< 8 ||| 0xCD) < 65536 ∧
      (∀ a, a ≠ ((0x12 <<< 8 ||| 0x34) ||| 0x8000) →
        s'.mem a = (requestState stdConfig [1, 6, 0x12, 0x34, 0xAB, 0xCD] 0xDEADBEEF).mem a) ∧
      generate_crc [stdConfig.MB_SLAVE_ID, stdConfig.MB_FUNC_WRITE_REGISTER, 0x12, 0x34, 0xAB,
        0xCD] 6 = .ok crc ∧
      s'.tx_frame.take 8 =
        [stdConfig.MB_SLAVE_ID, stdConfig.MB_FUNC_WRITE_REGISTER, 0x12, 0x34, 0xAB, 0xCD,
          crc &&& 0xFF, crc >>> 8] :=
  C6_write_single_register stdConfig
    (requestState stdConfig [1, 6, 0x12, 0x34, 0xAB, 0xCD] 0xDEADBEEF) 0x12 0x34 0xAB 0xCD
    (by decide) (by decide) (by decide) (by decide) (by decide) (by decide) (by decide)
    (by decide) (by decide) (by decide) (by decide) (by decide) (by decide)

set_option maxRecDepth 100000 in
/-- Counterexample to C8 as stated: for a read of quantity 2 the answer has 9
entries (byte count 4, the 4 bytes of one cell, the CRC), not the 13 entries of
a payload with 4 bytes for each of the 2 registers. -/
theorem C8_four_bytes_per_register_counterexample :
    ¬ FourBytesPerRegister stdConfig
        (dispatchState stdConfig (requestState stdConfig [1, 3, 0x00, 0x00, 0x00, 0x02]
          0x11223344) 1 3) 2 ∧
    (modbus_read_func stdConfig
        (dispatchState stdConfig (requestState stdConfig [1, 3, 0x00, 0x00, 0x00, 0x02]
          0x11223344) 1 3)).map (fun r => (r.2, r.1.tx_frame.take 10)) =
      .ok (9, [1, 3, 4, 0x33, 0x44, 0x11, 0x22, 0x39, 0x2B, 0]) := by
  refine ⟨?_, by decide⟩
  rintro ⟨s', cells, crc, h, -⟩
  have hrun := modbus_read_func_eq stdConfig
    (dispatchState stdConfig (requestState stdConfig [1, 3, 0x00, 0x00, 0x00, 0x02]
      0x11223344) 1 3) 3 0 0 0 2
    (dispatchState_words _ _ _ _) (by decide) (by decide) (by decide) (by decide)
    (by decide) (by decide) (by decide)
  rw [hrun] at h
  have h2 : u16 (wordOf 0 2 * 2) + 5 = 3 + 4 * 2 + 2 := congrArg Prod.snd (Except.ok.inj h)
  exact absurd h2 (by decide)

/-- C8 (amended): for a read request of quantity `q` whose answer fits the
buffer, `modbus_read_func` returns `2 q + 5`; the byte count is `2 q`; the payload
is `2 q` bytes, byte `j` being byte `j mod 4` (wire order) of the cell at address
`base + 2 (j / 4)`, so one cell serves two requested registers; the CRC of the
first `3 + 2 q` entries follows, low byte first; the store is unchanged. -/
theorem C8_read_two_bytes_per_register (cfg : Config) (d : State) (fc hi lo nhi nlo : Nat)
    (hc : cfg.WF) (hs : d.WF cfg)
    (h1 : d.rx_frame[1]? = some fc)
    (h2 : d.rx_frame[2]? = some hi) (h3 : d.rx_frame[3]? = some lo)
    (h4 : d.rx_frame[4]? = some nhi) (h5 : d.rx_frame[5]? = some nlo)
    (hfit : 2 * wordOf nhi nlo + 5 ≤ cfg.MB_FRAME_CHAR_TOTALS) :
    ∃ s' crc, modbus_read_func cfg d = .ok (s', 2 * wordOf nhi nlo + 5) ∧
      s'.tx_frame[2]? = some (2 * wordOf nhi nlo) ∧
      (s'.tx_frame.drop 3).take (2 * wordOf nhi nlo) =
        (List.range (2 * wordOf nhi nlo)).map (fun j =>
          wireByte (d.mem (u16 (u16 (wordOf hi lo ||| u32 (memory_map cfg fc)) + 2 * (j / 4))))
            (j % 4)) ∧
      generate_crc s'.tx_frame ((3 + 2 * wordOf nhi nlo : Nat) : Int) = .ok crc ∧
      s'.tx_frame[3 + 2 * wordOf nhi nlo]? = some (crc &&& 0xFF) ∧
      s'.tx_frame[3 + 2 * wordOf nhi nlo + 1]? = some (crc >>> 8) ∧
      s'.mem = d.mem := by
  have hcap := hc.2.1
  have hl := hs.2.1
  have hbc : u16 (wordOf nhi nlo * 2) = 2 * wordOf nhi nlo := by
    rw [u16_of_lt (by omega)]; omega
  have hrun := modbus_read_func_eq cfg d fc hi lo nhi nlo hs.2.2.2 (by omega) h1 h2 h3 h4 h5
    (by rw [hbc]; omega)
  rw [hbc] at hrun
  obtain ⟨crc, c1, c2, c3⟩ := readFrame_crc d.mem (u16 (wordOf hi lo ||| u32 (memory_map cfg fc)))
    (2 * wordOf nhi nlo) hs.2.2.2 (by omega) (by omega)
  refine ⟨_, crc, hrun, ?_, ?_, c1, c2, c3, rfl⟩
  · dsimp only
    rw [getElem?_of_getD (by rw [readFrame_length]; omega),
      readFrame_getD _ _ _ _ _ (by omega) (by omega) (by omega), if_neg (by decide), if_pos rfl]
  · dsimp only
    apply drop_take_eq_map _ _ _ _ (by rw [readFrame_length]; omega)
    intro j hj
    rw [readFrame_getD _ _ _ _ _ (by omega) (by omega) (by omega), if_pos (by omega)]
    have e : 3 + j - 3 = j := by omega
    rw [e]

set_option maxRecDepth 100000 in
/-- Witness of C8 (amended): a read of 3 registers at wire address 0. -/
theorem C8_read_two_bytes_per_register_witness :
    ∃ s' crc, modbus_read_func stdConfig
        (dispatchState stdConfig (requestState stdConfig [1, 3, 0, 0, 0, 3] 0x11223344) 1 3) =
        .ok (s', 2 * wordOf 0 3 + 5) ∧
      s'.tx_frame[2]? = some (2 * wordOf 0 3) ∧
      (s'.tx_frame.drop 3).take (2 * wordOf 0 3) =
        (List.range (2 * wordOf 0 3)).map (fun j =>
          wireByte ((dispatchState stdConfig (requestState stdConfig [1, 3, 0, 0, 0, 3]
            0x11223344) 1 3).mem
            (u16 (u16 (wordOf 0 0 ||| u32 (memory_map stdConfig 3)) + 2 * (j / 4)))) (j % 4)) ∧
      generate_crc s'.tx_frame ((3 + 2 * wordOf 0 3 : Nat) : Int) = .ok crc ∧
      s'.tx_frame[3 + 2 * wordOf 0 3]? = some (crc &&& 0xFF) ∧
      s'.tx_frame[3 + 2 * wordOf 0 3 + 1]? = some (crc >>> 8) ∧
      s'.mem = (dispatchState stdConfig (requestState stdConfig [1, 3, 0, 0, 0, 3]
        0x11223344) 1 3).mem :=
  C8_read_two_bytes_per_register stdConfig
    (dispatchState stdConfig (requestState stdConfig [1, 3, 0, 0, 0, 3] 0x11223344) 1 3)
    3 0 0 0 3 (by decide) (by decide) (by decide) (by decide) (by decide) (by decide)
    (by decide) (by decide)

/-- C9: whenever `modbus_prep_response` returns a non-zero length `L`, the answer
is slave address, function code, payload, CRC low, CRC high: `tx_frame[0] =
rx_frame[0]`, `tx_frame[1] = rx_frame[1]`, and `tx_frame[L-2]`, `tx_frame[L-1]` are
the low and high byte of `generate_crc(tx_frame, L-2)`; such an `L` is within the
frame capacity.  This covers the read, write-single and error answers. -/
theorem C9_response_frame_layout (cfg : Config) (s s' : State) (L : Nat)
    (hc : cfg.WF) (hs : s.WF cfg)
    (hrun : modbus_prep_response cfg s = .ok (s', L)) (hL : L ≠ 0) :
    L ≤ cfg.MB_FRAME_CHAR_TOTALS ∧
    s'.tx_frame[0]? = s.rx_frame[0]? ∧ s'.tx_frame[1]? = s.rx_frame[1]? ∧
    ∃ crc, generate_crc s'.tx_frame ((L - 2 : Nat) : Int) = .ok crc ∧
      s'.tx_frame[L - 2]? = some (crc &&& 0xFF) ∧
      s'.tx_frame[L - 1]? = some (crc >>> 8) := by
  obtain ⟨fc, h0, h1, h2c⟩ := prep_inv cfg s s' L hs.2.1 hrun hL
  have hfc : fc < 65536 := hs.2.2.1 fc (mem_of_getElem?_eq h1)
  have hid : cfg.MB_SLAVE_ID < 65536 := hc.2.2.1
  have hlen := dispatchState_length cfg s cfg.MB_SLAVE_ID fc
  have hwd := dispatchState_words cfg s cfg.MB_SLAVE_ID fc
  obtain ⟨d0, d1⟩ := dispatchState_head cfg s cfg.MB_SLAVE_ID fc h2c hid hfc
  rw [prep_dispatch cfg s fc hs.2.1 h2c h0 h1] at hrun
  rw [h0, h1]
  by_cases hread : fc = cfg.MB_FUNC_READ_HOLDINGREGISTERS ∨ fc = cfg.MB_FUNC_READ_INPUTREGISTERS
  · rw [if_pos hread] at hrun
    obtain ⟨fc', hi, lo, nhi, nlo, e1, e2, e3, e4, e5, hfit⟩ :=
      modbus_read_func_inv cfg (dispatchState cfg s cfg.MB_SLAVE_ID fc) _
        (by rw [hlen]; exact hc.2.1) hrun
    rw [modbus_read_func_eq cfg (dispatchState cfg s cfg.MB_SLAVE_ID fc) fc' hi lo nhi nlo hwd
      (by rw [hlen]; exact hc.2.1)
      e1 e2 e3 e4 e5 hfit] at hrun
    obtain ⟨rfl, rfl⟩ := Prod.mk.inj (Except.ok.inj hrun)
    dsimp only
    generalize hbc : u16 (wordOf nhi nlo * 2) = bc at hfit ⊢
    have hbl : bc < 65536 := by rw [← hbc]; exact u16_lt _
    have hev : bc % 2 = 0 := by rw [← hbc]; unfold u16; omega
    have e : bc + 5 - 2 = 3 + bc := by omega
    have e' : bc + 5 - 1 = 3 + bc + 1 := by omega
    rw [e, e']
    refine ⟨by rw [← hlen]; exact hfit, ?_, ?_, readFrame_crc _ _ _ hwd hfit (by omega)⟩
    · unfold readFrame
      rw [withCrc_getElem?_lt _ _ _ (by omega),
        getElem?_of_getD (by rw [fillCells_length]; simp; omega),
        fillCells_getD _ _ _ _ _ _ (by simp; omega), if_neg (by omega), getD_set,
        if_neg (by omega), getD_of_getElem? d0]
    · unfold readFrame
      rw [withCrc_getElem?_lt _ _ _ (by omega),
        getElem?_of_getD (by rw [fillCells_length]; simp; omega),
        fillCells_getD _ _ _ _ _ _ (by simp; omega), if_neg (by omega), getD_set,
        if_neg (by omega), getD_of_getElem? d1]
  · rw [if_neg hread] at hrun
    by_cases hwr : fc = cfg.MB_FUNC_WRITE_REGISTER
    · rw [if_pos hwr] at hrun
      subst hwr
      obtain ⟨hi, lo, vhi, vlo, e2, e3, e4, e5, h8⟩ := modbus_write_func_inv cfg
        (dispatchState cfg s cfg.MB_SLAVE_ID cfg.MB_FUNC_WRITE_REGISTER) _ h1 hrun
      rw [modbus_write_func_single cfg
        (dispatchState cfg s cfg.MB_SLAVE_ID cfg.MB_FUNC_WRITE_REGISTER) hi lo vhi vlo hc h8 hwd
        h1 e2 e3 e4 e5] at hrun
      obtain ⟨rfl, rfl⟩ := Prod.mk.inj (Except.ok.inj hrun)
      dsimp only
      have hbody : Words (((((dispatchState cfg s cfg.MB_SLAVE_ID
          cfg.MB_FUNC_WRITE_REGISTER).tx_frame.set 2 (u16 hi)).set 3 (u16 lo)).set 4
          (u16 (wordOf vhi vlo >>> 8))).set 5 (u16 (wordOf vhi vlo % 256))) :=
        (((hwd.set 2 hi).set 3 lo).set 4 _).set 5 _
      rw [u16_of_lt (shr8_lt (wordOf_lt _ _)),
        u16_of_lt (show wordOf vhi vlo % 256 < 65536 by omega)] at hbody
      refine ⟨by rw [← hlen]; exact h8, ?_, ?_, withCrc_crc hbody 6 (by simp; omega)⟩
      · rw [withCrc_getElem?_lt _ _ _ (by decide), List.getElem?_set_ne (by decide),
          List.getElem?_set_ne (by decide), List.getElem?_set_ne (by decide),
          List.getElem?_set_ne (by decide), d0]
      · rw [withCrc_getElem?_lt _ _ _ (by decide), List.getElem?_set_ne (by decide),
          List.getElem?_set_ne (by decide), List.getElem?_set_ne (by decide),
          List.getElem?_set_ne (by decide), d1]
    · rw [if_neg hwr] at hrun
      have h5 := modbus_error_inv _ (dispatchState cfg s cfg.MB_SLAVE_ID fc) _ hrun
      rw [modbus_error_eq _ (dispatchState cfg s cfg.MB_SLAVE_ID fc) h5 hwd] at hrun
      obtain ⟨rfl, rfl⟩ := Prod.mk.inj (Except.ok.inj hrun)
      dsimp only
      have hbody : Words ((dispatchState cfg s cfg.MB_SLAVE_ID fc).tx_frame.set 2
          (u16 cfg.MB_ERROR_ILLEGALFUNC)) := hwd.set 2 _
      refine ⟨by rw [← hlen]; exact h5, ?_, ?_, withCrc_crc hbody 3 (by simp; omega)⟩
      · exact (withCrc_getElem?_lt _ 3 0 (by decide)).trans
          ((List.getElem?_set_ne (by decide)).trans d0)
      · exact (withCrc_getElem?_lt _ 3 1 (by decide)).trans
          ((List.getElem?_set_ne (by decide)).trans d1)

set_option maxRecDepth 100000 in
/-- Witness of C9: the answer to a read of 2 registers at wire address 0. -/
theorem C9_response_frame_layout_witness :
    ∃ s' L, modbus_prep_response stdConfig
        (requestState stdConfig [1, 3, 0, 0, 0, 2] 0x11223344) = .ok (s', L) ∧ L ≠ 0 ∧
      L ≤ stdConfig.MB_FRAME_CHAR_TOTALS ∧
      s'.tx_frame[0]? = (requestState stdConfig [1, 3, 0, 0, 0, 2] 0x11223344).rx_frame[0]? ∧
      s'.tx_frame[1]? = (requestState stdConfig [1, 3, 0, 0, 0, 2] 0x11223344).rx_frame[1]? ∧
      ∃ crc, generate_crc s'.tx_frame ((L - 2 : Nat) : Int) = .ok crc ∧
        s'.tx_frame[L - 2]? = some (crc &&& 0xFF) ∧
        s'.tx_frame[L - 1]? = some (crc >>> 8) :=
  ⟨_, _,
    prep_read stdConfig (requestState stdConfig [1, 3, 0, 0, 0, 2] 0x11223344) 3 0 0 0 2
      (by decide) (by decide) (by decide) (by decide) (by decide) (by decide) (by decide)
      (by decide) (by decide) (by decide),
    by decide,
    C9_response_frame_layout stdConfig (requestState stdConfig [1, 3, 0, 0, 0, 2] 0x11223344)
      _ _ (by decide) (by decide)
      (prep_read stdConfig (requestState stdConfig [1, 3, 0, 0, 0, 2] 0x11223344) 3 0 0 0 2
        (by decide) (by decide) (by decide) (by decide) (by decide) (by decide) (by decide)
        (by decide) (by decide) (by decide))
      (by decide)⟩

/-- C10: `modbus_chk_states` is the step function of the framing state machine:
Silence enables receive only and goes to Waiting; Waiting changes nothing;
Reading resets both cursors, enables transmit only and goes to SendPending;
SendPending triggers one transmission, disables both directions and goes to
Silence.  With the external event taking Waiting to Reading, the state sequence
from Silence is T35, WAITING, READING, T35_SEND, T35, and the state stays
within these four values. -/
theorem C10_chk_states_step_function (cfg : Config) (s : State) (hc : cfg.WF) :
    (s.modbus_state = cfg.MB_STATE_T35 →
      modbus_chk_states cfg s =
        { s with rx_enabled := 1, tx_enabled := 0, modbus_state := cfg.MB_STATE_WAITING }) ∧
    (s.modbus_state = cfg.MB_STATE_WAITING → modbus_chk_states cfg s = s) ∧
    (s.modbus_state = cfg.MB_STATE_READING →
      modbus_chk_states cfg s =
        { s with
          rx_frame_pointer := 0
          tx_frame_pointer := 0
          rx_enabled := 0
          tx_enabled := 1
          modbus_state := cfg.MB_STATE_T35_SEND }) ∧
    (s.modbus_state = cfg.MB_STATE_T35_SEND →
      modbus_chk_states cfg s =
        { s with
          transmissions := s.transmissions + 1
          rx_enabled := 0
          tx_enabled := 0
          modbus_state := cfg.MB_STATE_T35 }) ∧
    (s.modbus_state = cfg.MB_STATE_T35 →
      [s.modbus_state,
        (modbus_chk_states cfg s).modbus_state,
        (frameEndEvent cfg (modbus_chk_states cfg s)).modbus_state,
        (modbus_chk_states cfg (frameEndEvent cfg (modbus_chk_states cfg s))).modbus_state,
        (modbus_chk_states cfg (modbus_chk_states cfg
          (frameEndEvent cfg (modbus_chk_states cfg s)))).modbus_state] =
      [cfg.MB_STATE_T35, cfg.MB_STATE_WAITING, cfg.MB_STATE_READING,
        cfg.MB_STATE_T35_SEND, cfg.MB_STATE_T35]) ∧
    (s.modbus_state ∈ [cfg.MB_STATE_T35, cfg.MB_STATE_WAITING, cfg.MB_STATE_READING,
        cfg.MB_STATE_T35_SEND] →
      (modbus_chk_states cfg s).modbus_state ∈ [cfg.MB_STATE_T35, cfg.MB_STATE_WAITING,
        cfg.MB_STATE_READING, cfg.MB_STATE_T35_SEND]) := by
  have hp := hc.2.2.2.2.2
  simp only [List.pairwise_cons, List.mem_cons, List.mem_singleton, forall_eq_or_imp,
    forall_eq] at hp
  obtain ⟨⟨t_w, t_r, t_s, -⟩, ⟨w_r, w_s, -⟩, ⟨r_s, -⟩, -⟩ := hp
  have step_t : ∀ x : State, x.modbus_state = cfg.MB_STATE_T35 →
      modbus_chk_states cfg x =
        { x with rx_enabled := 1, tx_enabled := 0, modbus_state := cfg.MB_STATE_WAITING } := by
    intro x h
    unfold modbus_chk_states
    rw [if_pos h]
    rfl
  have step_w : ∀ x : State, x.modbus_state = cfg.MB_STATE_WAITING →
      modbus_chk_states cfg x = x := by
    intro x h
    unfold modbus_chk_states
    rw [if_neg (by rw [h]; exact t_w.symm), if_pos h]
  have step_r : ∀ x : State, x.modbus_state = cfg.MB_STATE_READING →
      modbus_chk_states cfg x =
        { x with
          rx_frame_pointer := 0
          tx_frame_pointer := 0
          rx_enabled := 0
          tx_enabled := 1
          modbus_state := cfg.MB_STATE_T35_SEND } := by
    intro x h
    unfold modbus_chk_states
    rw [if_neg (by rw [h]; exact t_r.symm), if_neg (by rw [h]; exact w_r.symm), if_pos h]
    rfl
  have step_s : ∀ x : State, x.modbus_state = cfg.MB_STATE_T35_SEND →
      modbus_chk_states cfg x =
        { x with
          transmissions := x.transmissions + 1
          rx_enabled := 0
          tx_enabled := 0
          modbus_state := cfg.MB_STATE_T35 } := by
    intro x h
    unfold modbus_chk_states
    rw [if_neg (by rw [h]; exact t_s.symm), if_neg (by rw [h]; exact w_s.symm),
      if_neg (by rw [h]; exact r_s.symm), if_pos h]
    rfl
  refine ⟨step_t s, step_w s, step_r s, step_s s, ?_, ?_⟩
  · intro h
    rw [step_t s h, step_r (frameEndEvent cfg _) rfl, step_s _ rfl, h]
    rfl
  · intro h
    simp only [List.mem_cons, List.mem_singleton, List.not_mem_nil, or_false] at h ⊢
    rcases h with h | h | h | h
    · rw [step_t s h]; exact Or.inr (Or.inl rfl)
    · rw [step_w s h]; exact Or.inr (Or.inl h)
    · rw [step_r s h]; exact Or.inr (Or.inr (Or.inr rfl))
    · rw [step_s s h]; exact Or.inl rfl

/-- Witness of C10 on the standard constants, starting in Silence. -/
theorem C10_chk_states_step_function_witness :
    [1,
      (modbus_chk_states stdConfig
        { rx_frame := [], tx_frame := [], modbus_state := 1 }).modbus_state,
      (frameEndEvent stdConfig (modbus_chk_states stdConfig
        { rx_frame := [], tx_frame := [], modbus_state := 1 })).modbus_state,
      (modbus_chk_states stdConfig (frameEndEvent stdConfig (modbus_chk_states stdConfig
        { rx_frame := [], tx_frame := [], modbus_state := 1 }))).modbus_state,
      (modbus_chk_states stdConfig (modbus_chk_states stdConfig
        (frameEndEvent stdConfig (modbus_chk_states stdConfig
          { rx_frame := [], tx_frame := [], modbus_state := 1 })))).modbus_state] =
    [1, 2, 3, 4, 1] :=
  (C10_chk_states_step_function stdConfig
    { rx_frame := [], tx_frame := [], modbus_state := 1 } (by decide)).2.2.2.2.1 rfl

/-- C11: no stale outbound content. The run of `modbus_prep_response` does not
depend on what `tx_frame` held before: two states that differ only in the
initial `tx_frame` give the same result, hence the same returned length and the
same final `tx_frame`. In every run that returns, every `tx_frame` entry at an
index from the returned length on is 0 (a read request returns only when its
answer fits the buffer). The Reading step of `modbus_chk_states` sets both
frame pointers to 0. -/
theorem C11_no_stale_outbound_content (cfg : Config) (s : State) (t : List Nat)
    (hc : cfg.WF) (hs : s.WF cfg) (ht : t.length = cfg.MB_FRAME_CHAR_TOTALS) :
    modbus_prep_response cfg { s with tx_frame := t } = modbus_prep_response cfg s ∧
    (∀ s' L, modbus_prep_response cfg s = .ok (s', L) →
      ∀ j, L ≤ j → j < cfg.MB_FRAME_CHAR_TOTALS → s'.tx_frame[j]? = some 0) ∧
    (s.modbus_state = cfg.MB_STATE_READING →
      (modbus_chk_states cfg s).rx_frame_pointer = 0 ∧
      (modbus_chk_states cfg s).tx_frame_pointer = 0) := by
  refine ⟨?_, ?_, ?_⟩
  · unfold modbus_prep_response
    dsimp only
    rw [clear_tx_frame_eq cfg _ (by simpa [serial_interrupt_switch] using ht),
      clear_tx_frame_eq cfg _ (by simpa [serial_interrupt_switch] using hs.2.1)]
    rfl
  · intro s' L hrun j hj hjc
    rcases prep_run_cases cfg s s' L hc hs hrun with ⟨-, -, rfl⟩ | ⟨fc, body, -, -, h5, hLc, hbl,
      -, htx, hz, -⟩
    · dsimp only
      rw [getElem?_of_getD (by simpa using hjc), getD_replicate_zero]
    · rw [htx, getElem?_of_getD (by rw [withCrc_length, hbl]; exact hjc)]
      unfold withCrc
      rw [getD_set, if_neg (by omega), getD_set, if_neg (by omega), hz j hj]
  · intro h
    have hp := hc.2.2.2.2.2
    simp only [List.pairwise_cons, List.mem_cons, List.mem_singleton, forall_eq_or_imp,
      forall_eq] at hp
    obtain ⟨⟨-, t_r, -⟩, ⟨w_r, -⟩, -⟩ := hp
    unfold modbus_chk_states
    rw [if_neg (by rw [h]; exact t_r.symm), if_neg (by rw [h]; exact w_r.symm), if_pos h]
    exact ⟨rfl, rfl⟩

set_option maxRecDepth 100000 in
/-- Witness of C11: a read of 2 registers answered from a buffer full of 0xAA
and from a buffer full of 0x55. -/
theorem C11_no_stale_outbound_content_witness :
    modbus_prep_response stdConfig
        { requestState stdConfig [1, 3, 0, 0, 0, 2] 0x11223344 with
          tx_frame := List.replicate 256 0x55 } =
      modbus_prep_response stdConfig (requestState stdConfig [1, 3, 0, 0, 0, 2] 0x11223344) ∧
    ∃ s', modbus_prep_response stdConfig
        (requestState stdConfig [1, 3, 0, 0, 0, 2] 0x11223344) = .ok (s', 9) ∧
      s'.tx_frame[9]? = some 0 ∧ s'.tx_frame[255]? = some 0 :=
  ⟨(C11_no_stale_outbound_content stdConfig
      (requestState stdConfig [1, 3, 0, 0, 0, 2] 0x11223344) (List.replicate 256 0x55)
      (by decide) (by decide) (by decide)).1,
    _,
    prep_read stdConfig (requestState stdConfig [1, 3, 0, 0, 0, 2] 0x11223344) 3 0 0 0 2
      (by decide) (by decide) (by decide) (by decide) (by decide) (by decide) (by decide)
      (by decide) (by decide) (by decide),
    (C11_no_stale_outbound_content stdConfig
      (requestState stdConfig [1, 3, 0, 0, 0, 2] 0x11223344) (List.replicate 256 0x55)
      (by decide) (by decide) (by decide)).2.1 _ _
      (prep_read stdConfig (requestState stdConfig [1, 3, 0, 0, 0, 2] 0x11223344) 3 0 0 0 2
        (by decide) (by decide) (by decide) (by decide) (by decide) (by decide) (by decide)
        (by decide) (by decide) (by decide)) 9 (by decide) (by decide),
    (C11_no_stale_outbound_content stdConfig
      (requestState stdConfig [1, 3, 0, 0, 0, 2] 0x11223344) (List.replicate 256 0x55)
      (by decide) (by decide) (by decide)).2.1 _ _
      (prep_read stdConfig (requestState stdConfig [1, 3, 0, 0, 0, 2] 0x11223344) 3 0 0 0 2
        (by decide) (by decide) (by decide) (by decide) (by decide) (by decide) (by decide)
        (by decide) (by decide) (by decide)) 255 (by decide) (by decide)⟩

/-- C12: `memory_map` is a total function of the function code with range
0x0000, 0x8000: it is 0x8000 exactly for read-holding-registers,
read-input-registers, write-register and write-Nregisters, and 0x0000 for the
coil and discrete-input codes and for every other value. -/
theorem C12_memory_map_range (cfg : Config) (hc : cfg.WF) (t : Nat) :
    (memory_map cfg t = 0x0000 ∨ memory_map cfg t = 0x8000) ∧
    (memory_map cfg t = 0x8000 ↔
      t = cfg.MB_FUNC_READ_HOLDINGREGISTERS ∨ t = cfg.MB_FUNC_READ_INPUTREGISTERS ∨
      t = cfg.MB_FUNC_WRITE_REGISTER ∨ t = cfg.MB_FUNC_WRITE_NREGISTERS) ∧
    (t = cfg.MB_FUNC_READ_COIL ∨ t = cfg.MB_FUNC_READ_INPUT ∨ t = cfg.MB_FUNC_FORCE_COIL ∨
      t = cfg.MB_FUNC_FORCE_NCOILS → memory_map cfg t = 0x0000) ∧
    (t ≠ cfg.MB_FUNC_READ_HOLDINGREGISTERS → t ≠ cfg.MB_FUNC_READ_INPUTREGISTERS →
      t ≠ cfg.MB_FUNC_WRITE_REGISTER → t ≠ cfg.MB_FUNC_WRITE_NREGISTERS →
      memory_map cfg t = 0x0000) := by
  obtain ⟨m1, m2, m3, m4⟩ := memory_map_holding cfg hc
  have hp := hc.2.2.2.2.1
  simp only [List.pairwise_cons, List.mem_cons, List.mem_singleton, forall_eq_or_imp,
    forall_eq] at hp
  obtain ⟨⟨-, c_h, c_r, -, c_w, -, c_m, -⟩, ⟨i_h, i_r, -, i_w, -, i_m, -⟩,
    ⟨h_r, h_f, -, h_n, -, -⟩, ⟨r_f, r_w, r_n, r_m, -⟩, ⟨f_w, -, f_m, -⟩, ⟨w_n, -, -⟩,
    ⟨n_m, -⟩, -⟩ := hp
  have hother : t ≠ cfg.MB_FUNC_READ_HOLDINGREGISTERS → t ≠ cfg.MB_FUNC_READ_INPUTREGISTERS →
      t ≠ cfg.MB_FUNC_WRITE_REGISTER → t ≠ cfg.MB_FUNC_WRITE_NREGISTERS →
      memory_map cfg t = 0x0000 := by
    intro a b c d
    unfold memory_map
    simp [a, b, c, d]
  have hiff : memory_map cfg t = 0x8000 ↔
      t = cfg.MB_FUNC_READ_HOLDINGREGISTERS ∨ t = cfg.MB_FUNC_READ_INPUTREGISTERS ∨
      t = cfg.MB_FUNC_WRITE_REGISTER ∨ t = cfg.MB_FUNC_WRITE_NREGISTERS := by
    constructor
    · intro h
      by_contra hn
      simp only [not_or] at hn
      rw [hother hn.1 hn.2.1 hn.2.2.1 hn.2.2.2] at h
      exact absurd h (by decide)
    · rintro (rfl | rfl | rfl | rfl) <;> assumption
  refine ⟨?_, hiff, ?_, hother⟩
  · by_cases h : t = cfg.MB_FUNC_READ_HOLDINGREGISTERS ∨ t = cfg.MB_FUNC_READ_INPUTREGISTERS ∨
        t = cfg.MB_FUNC_WRITE_REGISTER ∨ t = cfg.MB_FUNC_WRITE_NREGISTERS
    · exact Or.inr (hiff.2 h)
    · simp only [not_or] at h
      exact Or.inl (hother h.1 h.2.1 h.2.2.1 h.2.2.2)
  · rintro (rfl | rfl | rfl | rfl)
    · exact hother c_h c_r c_w c_m
    · exact hother i_h i_r i_w i_m
    · exact hother h_f.symm r_f.symm f_w f_m
    · exact hother h_n.symm r_n.symm w_n.symm n_m

/-- Witness of C12 on the standard constants: code 3 maps to 0x8000, code 1 and
the unassigned code 0x2B map to 0. -/
theorem C12_memory_map_range_witness :
    memory_map stdConfig 3 = 0x8000 ∧ memory_map stdConfig 1 = 0 ∧
      memory_map stdConfig 0x2B = 0 :=
  ⟨(C12_memory_map_range stdConfig (by decide) 3).2.1.2 (Or.inl rfl),
    (C12_memory_map_range stdConfig (by decide) 1).2.2.1 (Or.inl rfl),
    (C12_memory_map_range stdConfig (by decide) 0x2B).2.2.2 (by decide) (by decide)
      (by decide) (by decide)⟩

/-- C14: exact read layout. For a read request of quantity `q` whose answer
fits the buffer (`2 q + 5` at most the capacity), `modbus_read_func` returns
`2 q + 5` with `tx_frame[2] = 2 q`; its loop runs `ceil(q / 2)` times, iteration
`k` reading the cell at address `base + 2 k` (16-bit address arithmetic, `base =
(rx[2] << 8 | rx[3]) | memory_map(rx[1])`); for every wire register `w < q` the
entries `tx_frame[3 + 2 w]`, `tx_frame[4 + 2 w]` are the high and the low byte of
the half `(cell[base + 2 (w / 2)] >> (16 (w mod 2))) & 0xFFFF`, so that a cell is
emitted as its bits 15..8, 7..0, 31..24, 23..16; the CRC of the first `3 + 2 q`
entries follows, and for odd `q` it replaces the high half of the last cell that
the loop had put at `3 + 2 q`, `4 + 2 q`. -/
theorem C14_read_exact_layout (cfg : Config) (d : State) (fc hi lo nhi nlo : Nat)
    (hc : cfg.WF) (hs : d.WF cfg)
    (h1 : d.rx_frame[1]? = some fc)
    (h2 : d.rx_frame[2]? = some hi) (h3 : d.rx_frame[3]? = some lo)
    (h4 : d.rx_frame[4]? = some nhi) (h5 : d.rx_frame[5]? = some nlo)
    (hfit : 2 * wordOf nhi nlo + 5 ≤ cfg.MB_FRAME_CHAR_TOTALS) :
    ∃ s' crc, modbus_read_func cfg d = .ok (s', 2 * wordOf nhi nlo + 5) ∧
      s'.tx_frame[2]? = some (2 * wordOf nhi nlo) ∧
      readLoop d.mem (u16 (wordOf hi lo ||| u32 (memory_map cfg fc))) loopFuel 0 0
          (d.tx_frame.set 2 (2 * wordOf nhi nlo)) =
        .ok (fillCells d.mem (u16 (wordOf hi lo ||| u32 (memory_map cfg fc)))
          ((wordOf nhi nlo + 1) / 2) 0 (d.tx_frame.set 2 (2 * wordOf nhi nlo))) ∧
      (∀ w, w < wordOf nhi nlo →
        s'.tx_frame[3 + 2 * w]? =
          some (((d.mem (u16 (u16 (wordOf hi lo ||| u32 (memory_map cfg fc)) + 2 * (w / 2)))
            >>> (16 * (w % 2))) &&& 0xFFFF) >>> 8) ∧
        s'.tx_frame[4 + 2 * w]? =
          some (((d.mem (u16 (u16 (wordOf hi lo ||| u32 (memory_map cfg fc)) + 2 * (w / 2)))
            >>> (16 * (w % 2))) &&& 0xFFFF) &&& 0xFF)) ∧
      generate_crc s'.tx_frame ((3 + 2 * wordOf nhi nlo : Nat) : Int) = .ok crc ∧
      s'.tx_frame[3 + 2 * wordOf nhi nlo]? = some (crc &&& 0xFF) ∧
      s'.tx_frame[4 + 2 * wordOf nhi nlo]? = some (crc >>> 8) ∧
      (wordOf nhi nlo % 2 = 1 →
        (fillCells d.mem (u16 (wordOf hi lo ||| u32 (memory_map cfg fc)))
          ((wordOf nhi nlo + 1) / 2) 0 (d.tx_frame.set 2 (2 * wordOf nhi nlo))).take
            (5 + 2 * wordOf nhi nlo) =
          (s'.tx_frame.take (3 + 2 * wordOf nhi nlo)) ++
            [(d.mem (u16 (u16 (wordOf hi lo ||| u32 (memory_map cfg fc)) +
                2 * (wordOf nhi nlo / 2))) >>> 24) &&& 0xFF,
              (d.mem (u16 (u16 (wordOf hi lo ||| u32 (memory_map cfg fc)) +
                2 * (wordOf nhi nlo / 2))) >>> 16) &&& 0xFF]) := by
  have hcap := hc.2.1
  have hl := hs.2.1
  generalize hq : wordOf nhi nlo = q at hfit ⊢
  generalize hb : u16 (wordOf hi lo ||| u32 (memory_map cfg fc)) = base
  have hbc : u16 (wordOf nhi nlo * 2) = 2 * q := by
    rw [hq, u16_of_lt (by omega)]; omega
  have hrun := modbus_read_func_eq cfg d fc hi lo nhi nlo hs.2.2.2 (by omega) h1 h2 h3 h4 h5
    (by rw [hbc]; omega)
  rw [hbc, hb] at hrun
  obtain ⟨crc, c1, c2, c3⟩ := readFrame_crc d.mem base (2 * q) hs.2.2.2 (by omega) (by omega)
  have hm : (2 * q + 3) / 4 = (q + 1) / 2 := by omega
  refine ⟨_, crc, hrun, ?_, ?_, ?_, c1, c2,
    by rw [show 4 + 2 * q = 3 + 2 * q + 1 by omega]; exact c3, ?_⟩
  · dsimp only
    rw [getElem?_of_getD (by rw [readFrame_length]; omega),
      readFrame_getD _ _ _ _ _ (by omega) (by omega) (by omega), if_neg (by decide), if_pos rfl]
  · exact readLoop_eq d.mem base (2 * q) ((q + 1) / 2) 0 (d.tx_frame.set 2 (2 * q)) loopFuel
      (by unfold loopFuel; omega) (List.getElem?_set_self (by omega)) (by omega)
      (fun _ => by omega) (by simp; omega) (by simp; omega)
  · intro w hw
    dsimp only
    obtain ⟨e1, e2⟩ := wireByte_half (d.mem (u16 (base + 2 * (w / 2)))) (w % 2) (by omega)
    constructor
    · rw [getElem?_of_getD (by rw [readFrame_length]; omega),
        readFrame_getD _ _ _ _ _ (by omega) (by omega) (by omega), if_pos (by omega),
        show (3 + 2 * w - 3) / 4 = w / 2 by omega,
        show (3 + 2 * w - 3) % 4 = 2 * (w % 2) by omega, e1]
    · rw [getElem?_of_getD (by rw [readFrame_length]; omega),
        readFrame_getD _ _ _ _ _ (by omega) (by omega) (by omega), if_pos (by omega),
        show (4 + 2 * w - 3) / 4 = w / 2 by omega,
        show (4 + 2 * w - 3) % 4 = 2 * (w % 2) + 1 by omega, e2]
  · intro hodd
    dsimp only
    apply ext_getD
    · simp [fillCells_length, readFrame_length]; omega
    · intro j hj
      rw [List.length_take, fillCells_length, List.length_set] at hj
      have hj5 : j < 5 + 2 * q := by omega
      rw [List.getD_eq_getElem?_getD, List.getElem?_take_of_lt hj5,
        ← List.getD_eq_getElem?_getD, fillCells_getD _ _ _ _ _ _ (by simp; omega)]
      by_cases h3 : j < 3 + 2 * q
      · rw [List.getD_eq_getElem?_getD (_ ++ _), List.getElem?_append_left
          (by rw [List.length_take, readFrame_length]; omega), List.getElem?_take_of_lt h3,
          ← List.getD_eq_getElem?_getD, readFrame_getD _ _ _ _ _ (by omega) (by omega) h3]
        by_cases h33 : 3 ≤ j
        · rw [if_pos (by omega), if_pos h33]
        · rw [if_neg (by omega), if_neg h33, getD_set]
          by_cases h2j : j = 2
          · rw [if_pos ⟨h2j, by omega⟩, if_pos h2j]
          · rw [if_neg (fun h => h2j h.1), if_neg h2j]
      · have hjj : j = 3 + 2 * q ∨ j = 3 + 2 * q + 1 := by omega
        have hlen : (List.take (3 + 2 * q) (readFrame d.mem base (2 * q) d.tx_frame)).length =
            3 + 2 * q := by rw [List.length_take, readFrame_length]; omega
        rw [if_pos (by omega), List.getD_eq_getElem?_getD (_ ++ _),
          List.getElem?_append_right (by omega), hlen]
        rcases hjj with rfl | rfl
        · rw [show (3 + 2 * q - 3) / 4 = q / 2 by omega,
            show (3 + 2 * q - 3) % 4 = 2 by omega, Nat.sub_self]
          rfl
        · rw [show (3 + 2 * q + 1 - 3) / 4 = q / 2 by omega,
            show (3 + 2 * q + 1 - 3) % 4 = 3 by omega,
            show 3 + 2 * q + 1 - (3 + 2 * q) = 1 by omega]
          rfl

set_option maxRecDepth 100000 in
/-- Witness of C14: a read of 3 registers at wire address 0 from cells holding
0x11223344: byte count 6, registers 0x3344, 0x1122, 0x3344, then the CRC. -/
theorem C14_read_exact_layout_witness :
    ∃ s' crc, modbus_read_func stdConfig
        (requestState stdConfig [1, 3, 0, 0, 0, 3] 0x11223344) = .ok (s', 11) ∧
      s'.tx_frame[2]? = some 6 ∧
      (s'.tx_frame[3]? = some 0x33 ∧ s'.tx_frame[4]? = some 0x44) ∧
      (s'.tx_frame[5]? = some 0x11 ∧ s'.tx_frame[6]? = some 0x22) ∧
      (s'.tx_frame[7]? = some 0x33 ∧ s'.tx_frame[8]? = some 0x44) ∧
      generate_crc s'.tx_frame 9 = .ok crc ∧
      s'.tx_frame[9]? = some (crc &&& 0xFF) ∧ s'.tx_frame[10]? = some (crc >>> 8) :=
  (C14_read_exact_layout stdConfig (requestState stdConfig [1, 3, 0, 0, 0, 3] 0x11223344)
    3 0 0 0 3 (by decide) (by decide) (by decide) (by decide) (by decide) (by decide)
    (by decide) (by decide)).imp fun _ h => h.imp fun _ h =>
      ⟨h.1, h.2.1, h.2.2.2.1 0 (by decide), h.2.2.2.1 1 (by decide),
        h.2.2.2.1 2 (by decide), h.2.2.2.2.1, h.2.2.2.2.2.1, h.2.2.2.2.2.2.1⟩

/-- C16: write-multiple packing for an even count. For `n = 2 m < 256`
(`rx_frame[4] = 0`, `rx_frame[5] = n`), byte-valued frame entries and data
within the inbound buffer, `modbus_write_func` returns 8; for every `k < m` the
cell at address `base + 2 k` (16-bit address arithmetic, `base = (rx[2] << 8 |
rx[3]) | 0x8000`) holds `(H << 16) | L` with `L = rx[7+4k] << 8 | rx[8+4k]` and
`H = rx[9+4k] << 8 | rx[10+4k]`; every other cell of the store is unchanged. -/
theorem C16_write_multiple_even_packing (cfg : Config) (d : State) (hi lo n : Nat)
    (hc : cfg.WF) (hs : d.WF cfg) (hcap : 8 ≤ cfg.MB_FRAME_CHAR_TOTALS)
    (hbytes : ∀ x ∈ d.rx_frame, x < 256)
    (h1 : d.rx_frame[1]? = some cfg.MB_FUNC_WRITE_NREGISTERS)
    (h2 : d.rx_frame[2]? = some hi) (h3 : d.rx_frame[3]? = some lo)
    (h4 : d.rx_frame[4]? = some 0) (h5 : d.rx_frame[5]? = some n)
    (heven : n % 2 = 0) (hdata : 2 * n + 7 ≤ cfg.MB_FRAME_CHAR_TOTALS) :
    ∃ s', modbus_write_func cfg d = .ok (s', 8) ∧
      (∀ k, 2 * k < n →
        s'.mem (u16 ((hi <<< 8 ||| lo ||| 0x8000) + 2 * k)) =
          ((d.rx_frame.getD (9 + 4 * k) 0 <<< 8 ||| d.rx_frame.getD (10 + 4 * k) 0) <<< 16 |||
            (d.rx_frame.getD (7 + 4 * k) 0 <<< 8 ||| d.rx_frame.getD (8 + 4 * k) 0))) ∧
      (∀ a, (∀ k, 2 * k < n → a ≠ u16 ((hi <<< 8 ||| lo ||| 0x8000) + 2 * k)) →
        s'.mem a = d.mem a) := by
  have hn : n < 256 := hbytes n (mem_of_getElem?_eq h5)
  have hhi : hi < 256 := hbytes hi (mem_of_getElem?_eq h2)
  have hlo : lo < 256 := hbytes lo (mem_of_getElem?_eq h3)
  have hrl := hs.1
  have hq : wordOf 0 n = n := wordOf_zero hn
  have hbase : u16 (wordOf hi lo ||| 0x8000) = hi <<< 8 ||| lo ||| 0x8000 := by
    rw [u16_of_lt (or_8000_lt (wordOf_lt _ _)), wordOf_bytes hhi hlo]
  have hrun := modbus_write_func_multi cfg d hi lo 0 n hc (by rw [hs.2.1]; exact hcap)
    hs.2.2.2 h1 h2 h3 h4 h5 (fun _ => by rw [hq, hrl]; omega) (by rw [hrl]; have := hc.2.1; omega)
  rw [hq, hbase] at hrun
  have h5d : d.rx_frame.getD 5 0 = n := getD_of_getElem? h5
  refine ⟨_, hrun, ?_, ?_⟩
  · intro k hk
    dsimp only
    rw [writeCells_at d.rx_frame _ ((n + 1) / 2) 0 d.mem k (by omega) (by omega) (by omega)]
    unfold pairValue
    have j0 : 7 + 2 * k * 2 = 7 + 4 * k := by omega
    have j1 : 7 + 2 * k * 2 + 1 = 8 + 4 * k := by omega
    have j2 : 7 + 2 * k * 2 + 2 = 9 + 4 * k := by omega
    have j3 : 7 + 2 * k * 2 + 3 = 10 + 4 * k := by omega
    have hLk := u32_word (getD_lt_of_bytes hbytes (7 + 4 * k))
      (getD_lt_of_bytes hbytes (8 + 4 * k))
    have hHk := u32_word (getD_lt_of_bytes hbytes (9 + 4 * k))
      (getD_lt_of_bytes hbytes (10 + 4 * k))
    rw [h5d, if_neg (by rw [u16_of_lt (by omega)]; omega), j3, j2, j1, j0, hLk.1, hHk.1,
      full_word hHk.2 hLk.2]
  · intro a ha
    dsimp only
    exact writeCells_other d.rx_frame _ ((n + 1) / 2) 0 d.mem a
      (fun j _ hj => ha j (by omega))

set_option maxRecDepth 100000 in
/-- Witness of C16: four registers 0x1234, 0x5678, 0x9ABC, 0xDEF0 written at
wire address 0 over cells holding 0xDEADBEEF. -/
theorem C16_write_multiple_even_packing_witness :
    ∃ s', modbus_write_func stdConfig
        (requestState stdConfig
          [1, 16, 0, 0, 0, 4, 8, 0x12, 0x34, 0x56, 0x78, 0x9A, 0xBC, 0xDE, 0xF0]
          0xDEADBEEF) = .ok (s', 8) ∧
      s'.mem 0x8000 = 0x56781234 ∧ s'.mem 0x8002 = 0xDEF09ABC ∧
      s'.mem 0x8001 = 0xDEADBEEF ∧ s'.mem 0x8004 = 0xDEADBEEF :=
  (C16_write_multiple_even_packing stdConfig
    (requestState stdConfig
      [1, 16, 0, 0, 0, 4, 8, 0x12, 0x34, 0x56, 0x78, 0x9A, 0xBC, 0xDE, 0xF0]
      0xDEADBEEF) 0 0 4 (by decide) (by decide) (by decide) (by decide) (by decide)
    (by decide) (by decide) (by decide) (by decide) (by decide) (by decide)).imp
    fun _ h => ⟨h.1, h.2.1 0 (by decide), h.2.1 1 (by decide),
      h.2.2 0x8001 (fun k hk => by
        have : k = 0 ∨ k = 1 := by omega
        rcases this with rfl | rfl <;> decide),
      h.2.2 0x8004 (fun k hk => by
        have : k = 0 ∨ k = 1 := by omega
        rcases this with rfl | rfl <;> decide)⟩

/-- C18: for every baud rate `b` with `0 < b < 2^31`, `modbus_init` sets
`modbus_usTimerT35` to `floor(1540000 / (2 b))`, the quotient computed on 32-bit
unsigned operands, and hands this value to the timer. The value does not
increase when the baud rate increases, and it is 0 for every `b > 770000`. -/
theorem C18_silence_interval (b d p : Nat) (s : State) (hb : 0 < b) (hb2 : b < 2 ^ 31) :
    ∃ s', modbus_init b d p s = some s' ∧
      s'.modbus_usTimerT35 = 1540000 / (2 * b) ∧
      s'.timer_interval = s'.modbus_usTimerT35 ∧
      (770000 < b → s'.modbus_usTimerT35 = 0) ∧
      (∀ b' s'', b ≤ b' → b' < 2 ^ 31 → modbus_init b' d p s = some s'' →
        s''.modbus_usTimerT35 ≤ s'.modbus_usTimerT35) := by
  refine ⟨_, modbus_init_eq b d p s hb hb2, rfl, rfl, ?_, ?_⟩
  · intro h
    exact Nat.div_eq_of_lt (by omega)
  · intro b' s'' hle hb' hrun
    rw [modbus_init_eq b' d p s (by omega) hb'] at hrun
    rw [← Option.some.inj hrun]
    exact Nat.div_le_div_left (by omega) (by omega)

/-- Witness of C18: 9600 baud gives 80, 19200 baud gives 40, and 19200 baud
gives no more than 9600 baud. -/
theorem C18_silence_interval_witness :
    (∃ s', modbus_init 9600 8 0 { rx_frame := [], tx_frame := [], modbus_state := 1 } = some s' ∧
      s'.modbus_usTimerT35 = 80) ∧
    (∃ s', modbus_init 19200 8 0 { rx_frame := [], tx_frame := [], modbus_state := 1 } =
        some s' ∧ s'.modbus_usTimerT35 = 40) ∧
    (∃ s', modbus_init 1000000 8 0 { rx_frame := [], tx_frame := [], modbus_state := 1 } =
        some s' ∧ s'.modbus_usTimerT35 = 0) :=
  ⟨(C18_silence_interval 9600 8 0 { rx_frame := [], tx_frame := [], modbus_state := 1 }
      (by decide) (by decide)).imp fun _ h => ⟨h.1, h.2.1⟩,
    (C18_silence_interval 19200 8 0 { rx_frame := [], tx_frame := [], modbus_state := 1 }
      (by decide) (by decide)).imp fun _ h => ⟨h.1, h.2.1⟩,
    (C18_silence_interval 1000000 8 0 { rx_frame := [], tx_frame := [], modbus_state := 1 }
      (by decide) (by decide)).imp fun _ h => ⟨h.1, h.2.2.2.1 (by decide)⟩⟩

/-- C19: CRC residue. If `c` is the value `generate_crc` returns on the first
`n` entries of `buf`, and `buf1` agrees with `buf` on these entries and holds
`c & 0xFF` at index `n` and `c >> 8` at index `n + 1`, then `generate_crc` on
the first `n + 2` entries of `buf1` returns 0. Consequently `generate_crc` on
the first `L` entries of the final `tx_frame` returns 0 for every non-zero
length `L` returned by `modbus_prep_response`. -/
theorem C19_crc_residue :
    (∀ (buf buf1 : List Nat) (n c : Nat), generate_crc buf (n : Int) = .ok c →
      (∀ i, i < n → buf1[i]? = buf[i]?) → buf1[n]? = some (c &&& 0xFF) →
      buf1[n + 1]? = some (c >>> 8) → generate_crc buf1 ((n + 2 : Nat) : Int) = .ok 0) ∧
    (∀ (cfg : Config) (s s' : State) (L : Nat), cfg.WF → s.WF cfg →
      modbus_prep_response cfg s = .ok (s', L) → L ≠ 0 →
      generate_crc s'.tx_frame (L : Int) = .ok 0) := by
  refine ⟨generate_crc_residue, ?_⟩
  intro cfg s s' L hc hs hrun hL
  rcases prep_run_cases cfg s s' L hc hs hrun with ⟨rfl, -⟩ | ⟨fc, body, -, -, h5, hLc, hbl,
    hw, htx, -, -⟩
  · exact absurd rfl hL
  · obtain ⟨crc, hcrc, hlo, hhi⟩ := withCrc_crc hw (L - 2) (by omega)
    have := generate_crc_residue _ _ (L - 2) crc hcrc (fun _ _ => rfl) hlo hhi
    rw [show L - 2 + 2 = L by omega] at this
    rw [htx]
    exact this

set_option maxRecDepth 100000 in
/-- Witness of C19: the 9-entry answer to a read of 2 registers has CRC 0, and
so has the frame 1, 3, 0 followed by the two bytes of its CRC. -/
theorem C19_crc_residue_witness :
    (∃ c, generate_crc [1, 3, 0] 3 = .ok c ∧
      generate_crc [1, 3, 0, c &&& 0xFF, c >>> 8] 5 = .ok 0) ∧
    ∃ s', modbus_prep_response stdConfig
        (requestState stdConfig [1, 3, 0, 0, 0, 2] 0x11223344) = .ok (s', 9) ∧
      generate_crc s'.tx_frame 9 = .ok 0 :=
  ⟨⟨0xF020, by decide,
      C19_crc_residue.1 [1, 3, 0] [1, 3, 0, 0x20, 0xF0] 3 0xF020 (by decide)
        (by decide) (by decide) (by decide)⟩,
    _,
    prep_read stdConfig (requestState stdConfig [1, 3, 0, 0, 0, 2] 0x11223344) 3 0 0 0 2
      (by decide) (by decide) (by decide) (by decide) (by decide) (by decide) (by decide)
      (by decide) (by decide) (by decide),
    C19_crc_residue.2 stdConfig (requestState stdConfig [1, 3, 0, 0, 0, 2] 0x11223344) _ 9
      (by decide) (by decide)
      (prep_read stdConfig (requestState stdConfig [1, 3, 0, 0, 0, 2] 0x11223344) 3 0 0 0 2
        (by decide) (by decide) (by decide) (by decide) (by decide) (by decide) (by decide)
        (by decide) (by decide) (by decide))
      (by decide)⟩

/-- C20: buffer safety of the read handler. For a read request of quantity `q`
with `2 q + 5` at most the capacity, no access of `modbus_read_func` leaves
`tx_frame`: the run returns `2 q + 5` and never takes the out-of-bounds branch,
the buffer keeps its size, every entry at an index above `2 q + 4` is left as it
was, and the entry at `2 q + 4` receives the high byte of the CRC. The index
`2 q + 4` is indeed reached: on a buffer too short to hold it the same run ends
in the out-of-bounds fault. -/
theorem C20_read_writes_within_buffer (cfg : Config) (d : State) (fc hi lo nhi nlo : Nat)
    (hc : cfg.WF) (hs : d.WF cfg)
    (h1 : d.rx_frame[1]? = some fc)
    (h2 : d.rx_frame[2]? = some hi) (h3 : d.rx_frame[3]? = some lo)
    (h4 : d.rx_frame[4]? = some nhi) (h5 : d.rx_frame[5]? = some nlo) :
    (2 * wordOf nhi nlo + 5 ≤ cfg.MB_FRAME_CHAR_TOTALS →
      ∃ s' crc, modbus_read_func cfg d = .ok (s', 2 * wordOf nhi nlo + 5) ∧
        s'.tx_frame.length = cfg.MB_FRAME_CHAR_TOTALS ∧
        (∀ j, 2 * wordOf nhi nlo + 4 < j → s'.tx_frame[j]? = d.tx_frame[j]?) ∧
        generate_crc s'.tx_frame ((3 + 2 * wordOf nhi nlo : Nat) : Int) = .ok crc ∧
        s'.tx_frame[2 * wordOf nhi nlo + 4]? = some (crc >>> 8)) ∧
    (wordOf nhi nlo < 32768 → cfg.MB_FRAME_CHAR_TOTALS < 2 * wordOf nhi nlo + 5 →
      modbus_read_func cfg d = .error Fault.outOfBounds) := by
  have hcap := hc.2.1
  have hl := hs.2.1
  generalize hq : wordOf nhi nlo = q
  constructor
  · intro hfit
    have hbc : u16 (wordOf nhi nlo * 2) = 2 * q := by
      rw [hq, u16_of_lt (by omega)]; omega
    have hrun := modbus_read_func_eq cfg d fc hi lo nhi nlo hs.2.2.2 (by omega) h1 h2 h3 h4 h5
      (by rw [hbc]; omega)
    rw [hbc] at hrun
    obtain ⟨crc, c1, -, c3⟩ := readFrame_crc d.mem
      (u16 (wordOf hi lo ||| u32 (memory_map cfg fc))) (2 * q) hs.2.2.2 (by omega) (by omega)
    refine ⟨_, crc, hrun, ?_, ?_, c1,
      by rw [show 2 * q + 4 = 3 + 2 * q + 1 by omega]; exact c3⟩
    · dsimp only
      rw [readFrame_length, hl]
    · intro j hj
      dsimp only
      by_cases hjl : j < d.tx_frame.length
      · rw [getElem?_of_getD (by rw [readFrame_length]; exact hjl), getElem?_of_getD hjl]
        unfold readFrame withCrc
        rw [getD_set, if_neg (by omega), getD_set, if_neg (by omega),
          fillCells_getD _ _ _ _ _ _ (by simp; omega), if_neg (by omega), getD_set,
          if_neg (by omega)]
      · rw [List.getElem?_eq_none (by rw [readFrame_length]; omega),
          List.getElem?_eq_none (by omega)]
  · intro hq16 hshort
    have hbc : u16 (wordOf nhi nlo * 2) = 2 * q := by
      rw [hq, u16_of_lt (by omega)]; omega
    cases hr : modbus_read_func cfg d with
    | error e => rw [modbus_read_func_eq_error cfg d e (by omega) hr]
    | ok r =>
      obtain ⟨fc', hi', lo', nhi', nlo', -, -, -, e4, e5, hfit⟩ :=
        modbus_read_func_inv cfg d r (by omega) hr
      rw [h4] at e4
      rw [h5] at e5
      rw [← Option.some.inj e4, ← Option.some.inj e5, hbc] at hfit
      omega

set_option maxRecDepth 100000 in
/-- Witness of C20: a read of 2 registers on a 256-entry buffer returns 9 and
leaves the stale entry at index 9 in place; a read of 126 registers, whose
answer needs 257 entries, ends in the out-of-bounds fault. -/
theorem C20_read_writes_within_buffer_witness :
    (∃ s' crc, modbus_read_func stdConfig
        (requestState stdConfig [1, 3, 0, 0, 0, 2] 0x11223344) = .ok (s', 9) ∧
      s'.tx_frame.length = 256 ∧ s'.tx_frame[9]? = some 0xAA ∧
      generate_crc s'.tx_frame 7 = .ok crc ∧ s'.tx_frame[8]? = some (crc >>> 8)) ∧
    modbus_read_func stdConfig (requestState stdConfig [1, 3, 0, 0, 0, 126] 0x11223344) =
      .error Fault.outOfBounds :=
  ⟨((C20_read_writes_within_buffer stdConfig
      (requestState stdConfig [1, 3, 0, 0, 0, 2] 0x11223344) 3 0 0 0 2 (by decide) (by decide)
      (by decide) (by decide) (by decide) (by decide) (by decide)).1 (by decide)).imp
      fun _ h => h.imp fun _ h => ⟨h.1, h.2.1, h.2.2.1 9 (by decide), h.2.2.2.1, h.2.2.2.2⟩,
    (C20_read_writes_within_buffer stdConfig
      (requestState stdConfig [1, 3, 0, 0, 0, 126] 0x11223344) 3 0 0 0 126 (by decide)
      (by decide) (by decide) (by decide) (by decide) (by decide) (by decide)).2 (by decide)
      (by decide)⟩

end Modbus
